import Mathlib

/-!
# StudyForge: extraction, chunking and summarization pipeline

A shallow embedding of the Go sources of `lf-hernandez/studyforge`
(`pkg/ai/huggingface.go`, `pkg/utils/text_cleaner.go`, `pkg/pdf/extractor.go`,
`internal/services/*.go`, `internal/repository/*.go`) together with theorems
about them.

Conventions of the embedding

* A Go `string` is a Lean `String`; the texts handled here are valid UTF-8, so
  ranging over a string yields its characters and `string(char)` gives the
  character back.  `len(s)` is the number of bytes of the UTF-8 encoding.
* A Go `int` is a Lean `Int` (no length or page number comes near 2^63).
* A loop over a slice is a left fold (or a structural recursion) over the list.
* An `error` is its message.  A Go result `(string, error)` is a pair whose
  second component is an `Option String`, `none` being `nil`; a result
  `(pointer, error)` of which exactly one is `nil` is an `Except String`.
-/

namespace StudyForge

/-! ## Go string primitives -/

/-- Go builtin `len` on a string: the number of bytes of its UTF-8 encoding. -/
def len (s : String) : Nat := s.utf8ByteSize

/-- Go `strings.Join(parts, " ")`, used to describe what the chunker builds. -/
def joinSpaces : List String → String
  | [] => ""
  | [p] => p
  | p :: q :: rest => p ++ " " ++ joinSpaces (q :: rest)

/-! ## pkg/ai/huggingface.go: paragraph splitting and chunking -/

/-- One iteration of the loop of `splitLines`; the state is `(lines, current)`. -/
def splitLinesStep (st : List String × String) (char : Char) : List String × String :=
  if char = '\n' then (st.1 ++ [st.2], "") else (st.1, st.2 ++ String.singleton char)

/-- Go `splitLines`: splits text into lines. -/
def splitLines (text : String) : List String :=
  let st := text.data.foldl splitLinesStep ([], "")
  if len st.2 > 0 then st.1 ++ [st.2] else st.1

/-- One iteration of the loop of `splitByParagraphs`; the state is
`(paragraphs, current)`. -/
def splitByParagraphsStep (st : List String × String) (line : String) : List String × String :=
  if line = "" ∨ line = "---" then
    if len st.2 > 0 then (st.1 ++ [st.2], "") else st
  else
    (st.1, (if len st.2 > 0 then st.2 ++ " " else st.2) ++ line)

/-- Go `splitByParagraphs`: splits text into paragraphs. -/
def splitByParagraphs (text : String) : List String :=
  let st := (splitLines text).foldl splitByParagraphsStep ([], "")
  if len st.2 > 0 then st.1 ++ [st.2] else st.1

/-- The constant `minChunkSize` of `chunkText`. -/
def minChunkSize : Nat := 200

/-- One iteration of the loop of `chunkText`; the state is
`(chunks, currentChunk)`. -/
def chunkTextStep (maxSize : Int) (st : List String × String) (para : String) :
    List String × String :=
  if len para < 20 then st
  else if ((len st.2 + len para : Nat) : Int) > maxSize ∧ len st.2 ≥ minChunkSize then
    (st.1 ++ [st.2], para)
  else
    (st.1, (if len st.2 > 0 then st.2 ++ " " else st.2) ++ para)

/-- The loop of `chunkText` run over a list of paragraphs from a given state. -/
def chunkTextLoop (maxSize : Int) (st : List String × String) (paragraphs : List String) :
    List String × String :=
  paragraphs.foldl (chunkTextStep maxSize) st

/-- Go `HuggingFaceClient.chunkText` (the receiver is not used). -/
def chunkText (text : String) (maxSize : Int) : List String :=
  let st := chunkTextLoop maxSize ([], "") (splitByParagraphs text)
  if len st.2 ≥ minChunkSize then st.1 ++ [st.2] else st.1

/-- The paragraphs the chunker keeps: those of at least 20 bytes. -/
def keptParagraphs (text : String) : List String :=
  (splitByParagraphs text).filter (fun p => decide (20 ≤ len p))

/-! ## Go `regexp` and `strings` library functions used by the text cleaner

Go's `regexp` package has RE2 syntax and leftmost-first semantics: among the
matches starting at the leftmost possible position it returns the one a
backtracking search would find first.  `matchesFrom` lists the matches at one
position in backtracking order. -/

/-- A character class: a union of inclusive ranges, possibly negated. -/
structure CharClass where
  negated : Bool
  ranges : List (Char × Char)

/-- Membership of a character in a class. -/
def CharClass.test (k : CharClass) (c : Char) : Bool :=
  k.negated != k.ranges.any (fun r => decide (r.1.toNat ≤ c.toNat) && decide (c.toNat ≤ r.2.toNat))

/-- The class matching exactly the listed characters, e.g. `[,;:]`. -/
def CharClass.ofChars (cs : List Char) : CharClass := ⟨false, cs.map (fun c => (c, c))⟩

/-- The ranges of `\s` in RE2: tab, newline, form feed, carriage return, space. -/
def spaceRanges : List (Char × Char) :=
  [('\t', '\t'), ('\n', '\n'), ('\x0c', '\x0c'), ('\r', '\r'), (' ', ' ')]

/-- The class `[bcdfghjklmnpqrstvwxyz]`. -/
def consonants : CharClass := CharClass.ofChars "bcdfghjklmnpqrstvwxyz".data

/-- Regular expressions, as far as the patterns of `CleanPDFText` need them. -/
inductive Regex where
  | empty
  | lit (c : Char)
  | cls (k : CharClass)
  | wordBoundary
  | seq (a b : Regex)
  | alt (a b : Regex)
  | opt (r : Regex)
  | star (r : Regex)
  | plus (r : Regex)
  | plusLazy (r : Regex)
  | group (n : Nat) (r : Regex)

/-- The pattern matching the characters of a literal text one after the other. -/
def Regex.text : List Char → Regex
  | [] => Regex.empty
  | c :: cs => Regex.seq (Regex.lit c) (Regex.text cs)

/-- A word character for `\b`: `[0-9A-Za-z_]`. -/
def isWordChar (c : Char) : Bool :=
  (CharClass.mk false [('0', '9'), ('A', 'Z'), ('a', 'z'), ('_', '_')]).test c

/-- Whether there is a word character at an optional position. -/
def isWordAt : Option Char → Bool
  | none => false
  | some c => isWordChar c

/-- Capture groups recorded by a match: group number and captured text. -/
abbrev Captures := List (Nat × List Char)

/-- The character before the position reached after consuming `m`. -/
def prevAfter (prev : Option Char) (m : List Char) : Option Char :=
  match m.getLast? with
  | some c => some c
  | none => prev

/-- Continues a list of matches of a first pattern with the matches of a second. -/
def thenMatches (first : List (List Char × Captures))
    (next : Option Char → List Char → List (List Char × Captures))
    (prev : Option Char) (s : List Char) : List (List Char × Captures) :=
  first.flatMap (fun m1 =>
    (next (prevAfter prev m1.1) (s.drop m1.1.length)).map
      (fun m2 => (m1.1 ++ m2.1, m1.2 ++ m2.2)))

/-- Greedy repetition, zero or more times, of a matcher; an iteration has to
consume at least one character, and `fuel` bounds the number of iterations. -/
def starMatches (step : Option Char → List Char → List (List Char × Captures)) :
    Nat → Option Char → List Char → List (List Char × Captures)
  | 0, _, _ => [([], [])]
  | fuel + 1, prev, s =>
    thenMatches ((step prev s).filter (fun m => !m.1.isEmpty)) (starMatches step fuel) prev s
      ++ [([], [])]

/-- Lazy repetition, zero or more times, of a matcher. -/
def starLazyMatches (step : Option Char → List Char → List (List Char × Captures)) :
    Nat → Option Char → List Char → List (List Char × Captures)
  | 0, _, _ => [([], [])]
  | fuel + 1, prev, s =>
    ([], []) ::
      thenMatches ((step prev s).filter (fun m => !m.1.isEmpty)) (starLazyMatches step fuel) prev s

/-- All matches of a pattern that start at the current position, in the order
a backtracking search tries them; `prev` is the character before the position
and `s` the text from the position on.  A match is the consumed text together
with the captures. -/
def matchesFrom : Regex → Option Char → List Char → List (List Char × Captures)
  | .empty, _, _ => [([], [])]
  | .lit c, _, s =>
    match s with
    | d :: _ => if d = c then [([d], [])] else []
    | [] => []
  | .cls k, _, s =>
    match s with
    | d :: _ => if k.test d then [([d], [])] else []
    | [] => []
  | .wordBoundary, prev, s =>
    if isWordAt prev != isWordAt s.head? then [([], [])] else []
  | .seq a b, prev, s => thenMatches (matchesFrom a prev s) (matchesFrom b) prev s
  | .alt a b, prev, s => matchesFrom a prev s ++ matchesFrom b prev s
  | .opt r, prev, s => matchesFrom r prev s ++ [([], [])]
  | .star r, prev, s => starMatches (matchesFrom r) s.length prev s
  | .plus r, prev, s =>
    thenMatches (matchesFrom r prev s) (starMatches (matchesFrom r) s.length) prev s
  | .plusLazy r, prev, s =>
    thenMatches (matchesFrom r prev s) (starLazyMatches (matchesFrom r) s.length) prev s
  | .group n r, prev, s => (matchesFrom r prev s).map (fun m => (m.1, m.2 ++ [(n, m.1)]))

/-- The leftmost-first match starting at the current position, if any; the
whole match is recorded as group 0. -/
def firstMatch (re : Regex) (prev : Option Char) (s : List Char) :
    Option (List Char × Captures) :=
  (matchesFrom re prev s).head?.map (fun m => (m.1, m.2 ++ [(0, m.1)]))

/-- The text of capture group `n`; empty when the group did not take part. -/
def captureText (caps : Captures) (n : Nat) : List Char :=
  match caps.reverse.find? (fun g => g.1 == n) with
  | some g => g.2
  | none => []

/-- Characters allowed in a `$name` reference of a replacement template. -/
def isNameChar (c : Char) : Bool :=
  (CharClass.mk false [('0', '9'), ('A', 'Z'), ('a', 'z'), ('_', '_')]).test c

/-- The value of a decimal numeral, if the characters are all digits. -/
def decimalValue (cs : List Char) : Option Nat :=
  if cs.all (fun c => decide ('0'.toNat ≤ c.toNat) && decide (c.toNat ≤ '9'.toNat)) then
    some (cs.foldl (fun n c => 10 * n + (c.toNat - '0'.toNat)) 0)
  else none

/-- The text a reference to the group called `name` stands for: a numeric name
is a group number, and any other name is replaced by nothing, there being no
named groups. -/
def referenceText (caps : Captures) (name : List Char) : List Char :=
  match decimalValue name with
  | some n => captureText caps n
  | none => []

/-- Go `Regexp.expand` for a replacement template: `$name` and `$\x7bname\x7d`
are replaced by the group's text, `$$` by a dollar sign, and a `$` that starts
no well-formed reference stays as it is. -/
def expandTemplate (caps : Captures) : Nat → List Char → List Char
  | 0, _ => []
  | _, [] => []
  | fuel + 1, '$' :: rest =>
    match rest with
    | '$' :: rest2 => '$' :: expandTemplate caps fuel rest2
    | '\x7b' :: rest2 =>
      let name := rest2.takeWhile isNameChar
      match rest2.dropWhile isNameChar with
      | '\x7d' :: rest3 =>
        if name.isEmpty then '$' :: expandTemplate caps fuel rest
        else referenceText caps name ++ expandTemplate caps fuel rest3
      | _ => '$' :: expandTemplate caps fuel rest
    | _ =>
      let name := rest.takeWhile isNameChar
      if name.isEmpty then '$' :: expandTemplate caps fuel rest
      else referenceText caps name ++ expandTemplate caps fuel (rest.dropWhile isNameChar)
  | fuel + 1, c :: rest => c :: expandTemplate caps fuel rest

/-- The loop of Go `Regexp.ReplaceAllString`, one source character per step.
`skip` counts the characters still covered by the last match and `afterMatch`
tells whether a match ended at the current position (an empty match there is
not replaced). -/
def replaceAllLoop (re : Regex) (repl : List Char) :
    Option Char → List Char → Nat → Bool → List Char
  | prev, [], _, afterMatch =>
    match firstMatch re prev [] with
    | some m => if afterMatch then [] else expandTemplate m.2 (repl.length + 1) repl
    | none => []
  | _, c :: cs, skip + 1, _ => replaceAllLoop re repl (some c) cs skip true
  | prev, c :: cs, 0, afterMatch =>
    match firstMatch re prev (c :: cs) with
    | none => c :: replaceAllLoop re repl (some c) cs 0 false
    | some ([], caps) =>
      (if afterMatch then [] else expandTemplate caps (repl.length + 1) repl)
        ++ c :: replaceAllLoop re repl (some c) cs 0 false
    | some (_ :: m, caps) =>
      expandTemplate caps (repl.length + 1) repl ++ replaceAllLoop re repl (some c) cs m.length true

/-- Go `re.ReplaceAllString(src, repl)`. -/
def replaceAllString (re : Regex) (src repl : String) : String :=
  String.mk (replaceAllLoop re repl.data none src.data 0 false)

/-- Go `strings.HasPrefix` on character lists. -/
def startsWith : List Char → List Char → Bool
  | _, [] => true
  | [], _ :: _ => false
  | c :: cs, d :: ds => c == d && startsWith cs ds

/-- The loop of Go `strings.ReplaceAll` for a non-empty `old`: non-overlapping
occurrences are replaced from left to right. -/
def stringsReplaceAllLoop (old new : List Char) : List Char → Nat → List Char
  | [], _ => []
  | _ :: cs, skip + 1 => stringsReplaceAllLoop old new cs skip
  | c :: cs, 0 =>
    if startsWith (c :: cs) old then new ++ stringsReplaceAllLoop old new cs (old.length - 1)
    else c :: stringsReplaceAllLoop old new cs 0

/-- Go `strings.ReplaceAll(s, old, new)`; `old` is non-empty in every use. -/
def stringsReplaceAll (s old new : String) : String :=
  String.mk (stringsReplaceAllLoop old.data new.data s.data 0)

/-- Go `unicode.IsSpace`: the Unicode White_Space property. -/
def unicodeIsSpace (c : Char) : Bool :=
  (CharClass.mk false [('\t', '\r'), (' ', ' '), ('\u0085', '\u0085'), ('\u00a0', '\u00a0'),
    ('\u1680', '\u1680'), ('\u2000', '\u200a'), ('\u2028', '\u2029'), ('\u202f', '\u202f'),
    ('\u205f', '\u205f'), ('\u3000', '\u3000')]).test c

/-- Go `strings.TrimSpace`. -/
def stringsTrimSpace (s : String) : String :=
  String.mk ((s.data.dropWhile unicodeIsSpace).reverse.dropWhile unicodeIsSpace).reverse

/-! ## pkg/utils/text_cleaner.go -/

/-- The class `[a-z]`. -/
def lower : CharClass := ⟨false, [('a', 'z')]⟩

/-- The class `[A-Z]`. -/
def upper : CharClass := ⟨false, [('A', 'Z')]⟩

/-- The class `\s`. -/
def space : CharClass := ⟨false, spaceRanges⟩

/-- The class `\d`. -/
def digit : CharClass := ⟨false, [('0', '9')]⟩

/-- Pattern 1, `([a-z])i([A-Z])`. -/
def re1 : Regex :=
  .seq (.group 1 (.cls lower)) (.seq (.lit 'i') (.group 2 (.cls upper)))

/-- Pattern 2, `([s][h])i([bcdfghjklmnpqrstvwxyz])`. -/
def re2 : Regex :=
  .seq (.group 1 (.seq (.cls (.ofChars ['s'])) (.cls (.ofChars ['h']))))
    (.seq (.lit 'i') (.group 2 (.cls consonants)))

/-- Pattern 2b, `([éáíóúàèìòùñ][s])i([bcdfghjklmnpqrstvwxyz])`. -/
def re2b : Regex :=
  .seq (.group 1 (.seq (.cls (.ofChars "éáíóúàèìòùñ".data)) (.cls (.ofChars ['s']))))
    (.seq (.lit 'i') (.group 2 (.cls consonants)))

/-- Pattern 2c, `(nish|tés|rés)i([bcdfghjklmnpqrstvwxyz])`. -/
def re2c : Regex :=
  .seq (.group 1 (.alt (.text "nish".data) (.alt (.text "tés".data) (.text "rés".data))))
    (.seq (.lit 'i') (.group 2 (.cls consonants)))

/-- Pattern 3, `([a-z])\.i([A-Z])`. -/
def re3 : Regex :=
  .seq (.group 1 (.cls lower)) (.seq (.lit '.') (.seq (.lit 'i') (.group 2 (.cls upper))))

/-- Pattern 4, `([,;:])i([A-Z])`. -/
def re4 : Regex :=
  .seq (.group 1 (.cls (.ofChars [',', ';', ':']))) (.seq (.lit 'i') (.group 2 (.cls upper)))

/-- The patterns 5 to 12, `\b<word>i\s` for a short word. -/
def reWord (word : String) : Regex :=
  .seq .wordBoundary (.seq (.text (word ++ "i").data) (.cls space))

/-- Pattern 13, `([a-z]),([a-z])`. -/
def re13 : Regex :=
  .seq (.group 1 (.cls lower)) (.seq (.lit ',') (.group 2 (.cls lower)))

/-- Pattern 14, `https?://[^\s\)]+`. -/
def re14 : Regex :=
  .seq (.text "http".data) (.seq (.opt (.lit 's')) (.seq (.text "://".data)
    (.plus (.cls ⟨true, spaceRanges ++ [(')', ')')]⟩))))

/-- Pattern 15, `\(https?://[^\)]+\)`. -/
def re15 : Regex :=
  .seq (.lit '(') (.seq (.text "http".data) (.seq (.opt (.lit 's')) (.seq (.text "://".data)
    (.seq (.plus (.cls ⟨true, [(')', ')')]⟩)) (.lit ')')))))

/-- Pattern 16, `(?:Explore|Visit|Check out|See)\s+[^.]+?\(http[^\)]+\)`. -/
def re16 : Regex :=
  .seq (.alt (.text "Explore".data) (.alt (.text "Visit".data)
      (.alt (.text "Check out".data) (.text "See".data))))
    (.seq (.plus (.cls space)) (.seq (.plusLazy (.cls ⟨true, [('.', '.')]⟩))
      (.seq (.lit '(') (.seq (.text "http".data)
        (.seq (.plus (.cls ⟨true, [(')', ')')]⟩)) (.lit ')'))))))

/-- Pattern 17, `FIGURE\s*\d+\.\d+`. -/
def re17 : Regex :=
  .seq (.text "FIGURE".data) (.seq (.star (.cls space)) (.seq (.plus (.cls digit))
    (.seq (.lit '.') (.plus (.cls digit)))))

/-- Pattern 18, `\s+`. -/
def re18 : Regex := .plus (.cls space)

/-- Go `CleanPDFText`: removes common PDF extraction artifacts. -/
def CleanPDFText (text : String) : String :=
  let text := replaceAllString re1 text "$1 $2"
  let text := replaceAllString re2 text "$1 $2"
  let text := replaceAllString re2b text "$1 $2"
  let text := replaceAllString re2c text "$1 $2"
  let text := replaceAllString re3 text "$1. $2"
  let text := replaceAllString re4 text "$1 $2"
  let text := replaceAllString (reWord "the") text "the "
  let text := replaceAllString (reWord "and") text "and "
  let text := replaceAllString (reWord "to") text "to "
  let text := replaceAllString (reWord "of") text "of "
  let text := replaceAllString (reWord "in") text "in "
  let text := replaceAllString (reWord "for") text "for "
  let text := replaceAllString (reWord "with") text "with "
  let text := replaceAllString (reWord "from") text "from "
  let text := replaceAllString re13 text "$1, $2"
  let text := replaceAllString re14 text ""
  let text := replaceAllString re15 text ""
  let text := replaceAllString re16 text ""
  let text := replaceAllString re17 text ""
  let text := replaceAllString re18 text " "
  let text := stringsReplaceAll text " ." "."
  let text := stringsReplaceAll text " ," ","
  let text := stringsReplaceAll text " ;" ";"
  let text := stringsReplaceAll text " :" ":"
  stringsTrimSpace text

/-! ## internal/models -/

/-- Go `models.Document`; a `time.Time` is a number of milliseconds. -/
structure Document where
  ID : Int
  SessionID : String
  OriginalFilename : String
  StoredFilename : String
  FilePath : String
  FileSize : Int
  PageCount : Int
  UploadDate : Int
  LastAccessed : Int
  IsDeleted : Bool
deriving DecidableEq, Repr

/-- Go `models.GeneratedContent`. -/
structure GeneratedContent where
  ID : Int
  SessionID : String
  DocumentID : Int
  ContentType : String
  AcademicLevel : String
  InputPages : String
  OutputContent : String
  AIModel : String
  GenerationTime : Int
  CreatedAt : Int
deriving DecidableEq, Repr

/-- Go `models.ExtractedContent`. -/
structure ExtractedContent where
  ID : Int
  DocumentID : Int
  PageStart : Int
  PageEnd : Int
  Content : String
  ExtractionTime : Int
  CreatedAt : Int
deriving DecidableEq, Repr

/-! ## The collaborators outside the repository

The database, the PDF library, the remote endpoint and the clock are not code
of the repository.  They are fields of an explicit `World`, and every call that
reaches one of them appends an `Event` to the trace. -/

/-- A value of the `Parameters` map of a request. -/
inductive ParamValue where
  | int (n : Int)
  | bool (b : Bool)
deriving DecidableEq, Repr

/-- Go `SummaryRequest`; the map is a list of key and value pairs. -/
structure SummaryRequest where
  Inputs : String
  Parameters : List (String × ParamValue)
deriving DecidableEq, Repr

/-- Go `SummaryResponse`. -/
structure SummaryResponse where
  SummaryText : String
deriving DecidableEq, Repr

/-- What `makeRequest` obtains from the endpoint: an error (the request could
not be sent, the body not read, or the status was not 200), or a body, given
by the outcome `json.Unmarshal` has on it. -/
inductive HttpReply where
  | failed (err : String)
  | body (decoded : Except String (List SummaryResponse))

/-- A page of an opened PDF: a null page, or one whose `GetPlainText` gives a
text or an error. -/
inductive PdfPage where
  | null
  | content (plainText : Except String String)

/-- An opened PDF file of `github.com/ledongthuc/pdf`. -/
structure PdfFile where
  NumPage : Int
  Page : Int → PdfPage

/-- The kinds of statement the repositories send to the database. -/
inductive DbOp where
  | getDocument
  | getGenerated
  | createGenerated
  | getExtracted
  | createExtracted
deriving DecidableEq, Repr

/-- The observable actions of the pipeline. -/
inductive Event where
  | queryDocument (id : Int)
  | queryGenerated (id : Int)
  | insertGenerated (content : GeneratedContent)
  | queryExtracted (documentID pageStart pageEnd : Int)
  | upsertExtracted (content : ExtractedContent)
  | openPdf (filePath : String)
  | httpPost (url : String) (apiKey : String) (body : SummaryRequest)
  | sleep (milliseconds : Nat)
deriving DecidableEq, Repr

/-- The state of everything outside the pipeline. -/
structure World where
  /-- Rows of the table `documents`. -/
  documents : List Document
  /-- Rows of the table `generated_content`. -/
  generated : List GeneratedContent
  /-- Rows of the table `extracted_content`. -/
  extracted : List ExtractedContent
  /-- The error, if any, with which the database answers a kind of statement. -/
  dbFault : DbOp → Option String
  /-- Go `pdf.Open`. -/
  pdfOpen : String → Except String PdfFile
  /-- The reply of the endpoint to the request with the given number (counted
  from 0), URL and body. -/
  remote : Nat → String → SummaryRequest → HttpReply
  /-- Number of requests sent so far. -/
  posts : Nat
  /-- The successive readings of `time.Now()`, in milliseconds. -/
  clock : Nat → Int
  /-- Number of clock readings so far. -/
  clockReads : Nat
  /-- The actions so far, oldest first. -/
  trace : List Event

/-- Appends an event to the trace. -/
def World.emit (w : World) (e : Event) : World := { w with trace := w.trace ++ [e] }

/-- Go `time.Now()`. -/
def World.now (w : World) : Int × World :=
  (w.clock w.clockReads, { w with clockReads := w.clockReads + 1 })

/-- The remote requests of a trace, in order. -/
def requestsOf : List Event → List (String × SummaryRequest)
  | [] => []
  | .httpPost url _ body :: rest => (url, body) :: requestsOf rest
  | _ :: rest => requestsOf rest

/-- The result of a Go function that can end in a run-time panic. -/
inductive Outcome (α : Type) where
  | returned (value : α)
  | panicked (message : String)

/-! ## pkg/ai/huggingface.go: the client -/

/-- Go `HuggingFaceClient` (the `http.Client` is part of the world). -/
structure HuggingFaceClient where
  apiKey : String
  baseURL : String

/-- Go `buildEducationalPrompt`. -/
def buildEducationalPrompt (text : String) (academicLevel : String) : String :=
  let instruction :=
    if academicLevel = "high_school" then
      "Summarize this history textbook content for high school students. Use clear language and focus on main events, key people, and important dates. Explain cause and effect relationships. Ignore citations and web references. "
    else if academicLevel = "undergraduate" then
      "Summarize this history textbook content for undergraduate college students. Focus on key concepts, historical events, significant figures, and their impact. Include important context and connections between events. Ignore citations and web references. "
    else if academicLevel = "graduate" then
      "Summarize this history textbook content for graduate students. Emphasize analytical perspectives, historiographical significance, and complex interrelationships between events and themes. Ignore citations and web references. "
    else
      "Summarize this educational textbook content. Focus on key concepts, historical events, and important facts. Maintain accuracy and clarity. Ignore citations and web references. "
  instruction ++ text

/-- Go `HuggingFaceClient.makeRequest`: one POST to the endpoint. -/
def HuggingFaceClient.makeRequest (c : HuggingFaceClient) (w : World) (url : String)
    (reqBody : SummaryRequest) : HttpReply × World :=
  (w.remote w.posts url reqBody,
    { w with posts := w.posts + 1, trace := w.trace ++ [Event.httpPost url c.apiKey reqBody] })

/-- The request body `summarizeChunk` prepares for a text. -/
def summaryRequestFor (text : String) (academicLevel : String) : SummaryRequest :=
  { Inputs := buildEducationalPrompt text academicLevel,
    Parameters := [("max_length", .int 350), ("min_length", .int 120), ("do_sample", .bool false)] }

/-- The URL `summarizeChunk` posts to. -/
def HuggingFaceClient.modelURL (c : HuggingFaceClient) : String :=
  c.baseURL ++ "/facebook/bart-large-cnn"

/-- The part of `summarizeChunk` after `makeRequest`: the result for a reply. -/
def decodeReply : HttpReply → String × Option String
  | .failed err => ("", some err)
  | .body (.error err) => ("", some ("failed to parse response: " ++ err))
  | .body (.ok []) => ("", some "empty response from API")
  | .body (.ok (first :: _)) => (first.SummaryText, none)

/-- Go `HuggingFaceClient.summarizeChunk`. -/
def HuggingFaceClient.summarizeChunk (c : HuggingFaceClient) (w : World) (text : String)
    (academicLevel : String) : (String × Option String) × World :=
  let r := c.makeRequest w c.modelURL (summaryRequestFor text academicLevel)
  (decodeReply r.1, r.2)

/-- The first loop of `GenerateSummary`: `i` is the index of the next chunk,
`total` is `len(chunks)`, `chunkSummaries` the summaries so far.  The result is
the error of the failing chunk or the list of all summaries. -/
def HuggingFaceClient.summarizeChunks (c : HuggingFaceClient) (academicLevel : String)
    (total : Nat) : Nat → List String → List String → World → Except String (List String) × World
  | _, [], chunkSummaries, w => (.ok chunkSummaries, w)
  | i, chunk :: rest, chunkSummaries, w =>
    let r := c.summarizeChunk w chunk academicLevel
    match r.1.2 with
    | some err =>
      (.error ("failed to summarize chunk " ++ toString (i + 1) ++ ": " ++ err), r.2)
    | none =>
      let w2 := if i + 1 < total then r.2.emit (.sleep 500) else r.2
      c.summarizeChunks academicLevel total (i + 1) rest (chunkSummaries ++ [r.1.1]) w2

/-- The second loop of `GenerateSummary`: appends the labelled sections. -/
def combineSections : Nat → List String → String → String
  | _, [], combinedText => combinedText
  | i, summary :: rest, combinedText =>
    combineSections (i + 1) rest
      (combinedText ++ ("Section " ++ toString (i + 1) ++ ": " ++ summary ++ "\n\n"))

/-- Go `HuggingFaceClient.GenerateSummary`. -/
def HuggingFaceClient.GenerateSummary (c : HuggingFaceClient) (w : World) (text : String)
    (academicLevel : String) : Outcome (String × Option String) × World :=
  let maxChunkSize : Int := 3000
  if (len text : Int) ≤ maxChunkSize then
    let r := c.summarizeChunk w text academicLevel
    (.returned r.1, r.2)
  else
    let chunks := chunkText text maxChunkSize
    let r := c.summarizeChunks academicLevel chunks.length 0 chunks [] w
    match r.1 with
    | .error err => (.returned ("", some err), r.2)
    | .ok chunkSummaries =>
      if chunkSummaries.length > 1 then
        (.returned (combineSections 0 chunkSummaries "", none), r.2)
      else
        match chunkSummaries with
        | first :: _ => (.returned (first, none), r.2)
        | [] => (.panicked "runtime error: index out of range [0] with length 0", r.2)

/-! ## pkg/pdf/extractor.go -/

/-- The page loop of `Extractor.ExtractText`: `count` pages remain, starting at
`pageNum`; `extractedText` is the content of the string builder. -/
def extractPages (r : PdfFile) : Nat → Int → String → Except String String
  | 0, _, extractedText => .ok extractedText
  | count + 1, pageNum, extractedText =>
    match r.Page pageNum with
    | .null => extractPages r count (pageNum + 1) extractedText
    | .content (.error err) =>
      .error ("failed to extract page " ++ toString pageNum ++ ": " ++ err)
    | .content (.ok text) =>
      extractPages r count (pageNum + 1)
        (extractedText ++ ("--- Page " ++ toString pageNum ++ " ---\n") ++ CleanPDFText text
          ++ "\n\n")

/-- Go `Extractor.ExtractText`. -/
def Extractor.ExtractText (w : World) (filePath : String) (startPage endPage : Int) :
    (String × Option String) × World :=
  if startPage < 1 ∨ endPage < startPage then
    (("", some ("invalid page range: " ++ toString startPage ++ "-" ++ toString endPage)), w)
  else
    let w1 := w.emit (.openPdf filePath)
    match w.pdfOpen filePath with
    | .error err => (("", some ("failed to open PDF: " ++ err)), w1)
    | .ok r =>
      if endPage > r.NumPage then
        (("", some ("end page " ++ toString endPage ++ " exceeds document pages "
          ++ toString r.NumPage)), w1)
      else
        match extractPages r (endPage - startPage + 1).toNat startPage "" with
        | .error err => (("", some err), w1)
        | .ok result =>
          if stringsTrimSpace result = "" then
            (("", some "no text could be extracted (PDF may be image-based or scanned)"), w1)
          else ((result, none), w1)

/-- Go `Extractor.ValidatePageRange`. -/
def Extractor.ValidatePageRange (w : World) (filePath : String) (startPage endPage : Int) :
    Option String × World :=
  if startPage < 1 then (some "start page must be at least 1", w)
  else if endPage < startPage then
    (some "end page must be greater than or equal to start page", w)
  else
    let w1 := w.emit (.openPdf filePath)
    match w.pdfOpen filePath with
    | .error err => (some ("failed to open PDF: " ++ err), w1)
    | .ok r =>
      if endPage > r.NumPage then
        (some ("end page " ++ toString endPage ++ " exceeds document pages "
          ++ toString r.NumPage), w1)
      else (none, w1)

/-! ## internal/repository -/

/-- Modelled from the spec: the schema `001_init_schema.sql` and the database
engine are not among the sources; a new record gets an identifier not in use,
here one more than the largest. -/
def nextRowID (ids : List Int) : Int := ids.foldl max 0 + 1

/-- Go `DocumentRepository.GetByID`. -/
def DocumentRepository.GetByID (w : World) (id : Int) : Except String Document × World :=
  let w1 := w.emit (.queryDocument id)
  match w.dbFault .getDocument with
  | some err => (.error ("failed to get document: " ++ err), w1)
  | none =>
    match w.documents.find? (fun d => decide (d.ID = id) && !d.IsDeleted) with
    | none => (.error "document not found", w1)
    | some doc => (.ok doc, w1)

/-- Go `ContentRepository.CreateGenerated`; on success the result is the
record with its new `ID`. -/
def ContentRepository.CreateGenerated (w : World) (content : GeneratedContent) :
    Except String GeneratedContent × World :=
  let w1 := w.emit (.insertGenerated content)
  match w.dbFault .createGenerated with
  | some err => (.error ("failed to create generated content: " ++ err), w1)
  | none =>
    let stored := { content with ID := nextRowID (w.generated.map (fun g => g.ID)) }
    (.ok stored, { w1 with generated := w1.generated ++ [stored] })

/-- Go `ContentRepository.GetGeneratedByID`. -/
def ContentRepository.GetGeneratedByID (w : World) (id : Int) :
    Except String GeneratedContent × World :=
  let w1 := w.emit (.queryGenerated id)
  match w.dbFault .getGenerated with
  | some err => (.error ("failed to get content: " ++ err), w1)
  | none =>
    match w.generated.find? (fun g => decide (g.ID = id)) with
    | none => (.error "content not found", w1)
    | some content => (.ok content, w1)

/-- Whether a cache row has the given key. -/
def ExtractedContent.hasKey (e : ExtractedContent) (documentID pageStart pageEnd : Int) : Bool :=
  decide (e.DocumentID = documentID) && decide (e.PageStart = pageStart)
    && decide (e.PageEnd = pageEnd)

/-- Modelled from the spec: the schema `001_init_schema.sql`, which declares the
key of the table `extracted_content`, is not among the sources.  By the spec
there is at most one entry per key (document id, start page, end page) and a
repeated write for a key overwrites; so the statement of `CreateExtracted` gives
a row with the same key the new content, extraction time and creation time, and
adds the row otherwise. -/
def upsertExtracted (table : List ExtractedContent) (content : ExtractedContent) :
    List ExtractedContent :=
  if table.any (fun e => e.hasKey content.DocumentID content.PageStart content.PageEnd) then
    table.map (fun e =>
      if e.hasKey content.DocumentID content.PageStart content.PageEnd then
        { e with Content := content.Content, ExtractionTime := content.ExtractionTime,
                 CreatedAt := content.CreatedAt }
      else e)
  else table ++ [{ content with ID := nextRowID (table.map (fun e => e.ID)) }]

/-- Go `ContentRepository.CreateExtracted`. -/
def ContentRepository.CreateExtracted (w : World) (content : ExtractedContent) :
    Option String × World :=
  let w1 := w.emit (.upsertExtracted content)
  match w.dbFault .createExtracted with
  | some err => (some ("failed to create extracted content: " ++ err), w1)
  | none => (none, { w1 with extracted := upsertExtracted w1.extracted content })

/-- Go `ContentRepository.GetExtracted`. -/
def ContentRepository.GetExtracted (w : World) (documentID pageStart pageEnd : Int) :
    Except String (Option ExtractedContent) × World :=
  let w1 := w.emit (.queryExtracted documentID pageStart pageEnd)
  match w.dbFault .getExtracted with
  | some err => (.error ("failed to get extracted content: " ++ err), w1)
  | none => (.ok (w.extracted.find? (fun e => e.hasKey documentID pageStart pageEnd)), w1)

/-! ## internal/services/pdf_service.go -/

/-- Go `PDFService.ExtractText`; the result is `(text, extractionTime, err)`. -/
def PDFService.ExtractText (w : World) (documentID : Int) (filePath : String)
    (startPage endPage : Int) : (String × Int × Option String) × World :=
  let t0 := w.now
  let startTime := t0.1
  let c := ContentRepository.GetExtracted t0.2 documentID startPage endPage
  match c.1 with
  | .error err => (("", 0, some ("cache lookup failed: " ++ err)), c.2)
  | .ok (some cached) => ((cached.Content, cached.ExtractionTime, none), c.2)
  | .ok none =>
      let x := Extractor.ExtractText c.2 filePath startPage endPage
      match x.1.2 with
      | some err => (("", 0, some err), x.2)
      | none =>
        let text := x.1.1
        let t1 := x.2.now
        let extractionTime := t1.1 - startTime
        let t2 := t1.2.now
        let extractedContent : ExtractedContent :=
          { ID := 0, DocumentID := documentID, PageStart := startPage, PageEnd := endPage,
            Content := text, ExtractionTime := extractionTime, CreatedAt := t2.1 }
        let s := ContentRepository.CreateExtracted t2.2 extractedContent
        ((text, extractionTime, none), s.2)

/-- Go `PDFService.ValidatePageRange`. -/
def PDFService.ValidatePageRange (w : World) (filePath : String) (startPage endPage : Int) :
    Option String × World :=
  Extractor.ValidatePageRange w filePath startPage endPage

/-! ## internal/services/study_service.go -/

/-- A hexadecimal digit, lower case. -/
def hexDigit (n : Nat) : Char :=
  if n < 10 then Char.ofNat ('0'.toNat + n) else Char.ofNat ('a'.toNat + (n - 10))

/-- The encoding of one character inside a JSON string by Go `encoding/json`
(with HTML escaping, the default of `json.Marshal`). -/
def jsonEscapeChar (c : Char) : List Char :=
  if c = '\\' ∨ c = '"' then ['\\', c]
  else if c = '\x08' then ['\\', 'b']
  else if c = '\x0c' then ['\\', 'f']
  else if c = '\n' then ['\\', 'n']
  else if c = '\r' then ['\\', 'r']
  else if c = '\t' then ['\\', 't']
  else if c.toNat < 32 ∨ c = '<' ∨ c = '>' ∨ c = '&' then
    ['\\', 'u', '0', '0', hexDigit (c.toNat / 16), hexDigit (c.toNat % 16)]
  else if c = '\u2028' then "\\u2028".data
  else if c = '\u2029' then "\\u2029".data
  else [c]

/-- A JSON string literal as `json.Marshal` writes it. -/
def jsonString (s : String) : String :=
  "\"" ++ String.mk (s.data.flatMap jsonEscapeChar) ++ "\""

/-- Go `json.Marshal(outputData)` for the map built by `GenerateSummary`; the
keys of a map are written in sorted order. -/
def marshalOutput (summary pages academicLevel : String) : String :=
  "\x7b" ++ jsonString "academic_level" ++ ":" ++ jsonString academicLevel ++ ","
    ++ jsonString "pages" ++ ":" ++ jsonString pages ++ ","
    ++ jsonString "summary" ++ ":" ++ jsonString summary ++ "\x7d"

/-- Go `GenerateSummaryRequest`. -/
structure GenerateSummaryRequest where
  SessionID : String
  DocumentID : Int
  PageStart : Int
  PageEnd : Int
  AcademicLevel : String
deriving DecidableEq, Repr

/-- Go `GenerateSummaryResponse`. -/
structure GenerateSummaryResponse where
  ContentID : Int
  Summary : String
  GenerationTime : Int
  ModelUsed : String
deriving DecidableEq, Repr

/-- Go `StudyService`: the client; the services and repositories it holds act on
the world. -/
structure StudyService where
  aiClient : HuggingFaceClient

/-- Go `StudyService.GenerateSummary`. -/
def StudyService.GenerateSummary (s : StudyService) (w : World) (req : GenerateSummaryRequest) :
    Outcome (Except String GenerateSummaryResponse) × World :=
  let t0 := w.now
  let startTime := t0.1
  let d := DocumentRepository.GetByID t0.2 req.DocumentID
  match d.1 with
  | .error err => (.returned (.error ("document not found: " ++ err)), d.2)
  | .ok doc =>
    if doc.SessionID ≠ req.SessionID then
      (.returned (.error "unauthorized access to document"), d.2)
    else
      let v := PDFService.ValidatePageRange d.2 doc.FilePath req.PageStart req.PageEnd
      match v.1 with
      | some err => (.returned (.error err), v.2)
      | none =>
        let x := PDFService.ExtractText v.2 req.DocumentID doc.FilePath req.PageStart req.PageEnd
        match x.1.2.2 with
        | some err => (.returned (.error ("failed to extract text: " ++ err)), x.2)
        | none =>
          let text := x.1.1
          let g := s.aiClient.GenerateSummary x.2 text req.AcademicLevel
          match g.1 with
          | .panicked msg => (.panicked msg, g.2)
          | .returned (_, some err) =>
            (.returned (.error ("failed to generate summary: " ++ err)), g.2)
          | .returned (summary, none) =>
            let t1 := g.2.now
            let generationTime := t1.1 - startTime
            let pages := toString req.PageStart ++ "-" ++ toString req.PageEnd
            let outputJSON := marshalOutput summary pages req.AcademicLevel
            let t2 := t1.2.now
            let generatedContent : GeneratedContent :=
              { ID := 0, SessionID := req.SessionID, DocumentID := req.DocumentID,
                ContentType := "summary", AcademicLevel := req.AcademicLevel,
                InputPages := pages, OutputContent := outputJSON,
                AIModel := "facebook/bart-large-cnn", GenerationTime := generationTime,
                CreatedAt := t2.1 }
            let p := ContentRepository.CreateGenerated t2.2 generatedContent
            match p.1 with
            | .error err => (.returned (.error ("failed to save content: " ++ err)), p.2)
            | .ok stored =>
              (.returned (.ok { ContentID := stored.ID, Summary := summary,
                                GenerationTime := generationTime,
                                ModelUsed := "facebook/bart-large-cnn" }), p.2)

/-- Go `StudyService.GetGeneratedContent`. -/
def StudyService.GetGeneratedContent (w : World) (contentID : Int) (sessionID : String) :
    Except String GeneratedContent × World :=
  let r := ContentRepository.GetGeneratedByID w contentID
  match r.1 with
  | .error err => (.error err, r.2)
  | .ok content =>
    if content.SessionID ≠ sessionID then (.error "unauthorized access to content", r.2)
    else (.ok content, r.2)

/-! ## internal/api/handlers/study_handler.go -/

/-- Go `models.Session`; a `time.Time` is a number of milliseconds. -/
structure Session where
  ID : String
  CreatedAt : Int
  LastAccessed : Int
  IPAddress : String
  UserAgent : String
  IsActive : Bool
deriving DecidableEq, Repr

/-- Go `GenerateRequest`: the body of a generation request. -/
structure GenerateRequest where
  DocumentID : Int
  PageStart : Int
  PageEnd : Int
  MaterialType : String
  AcademicLevel : String
deriving DecidableEq, Repr

/-- What `HandleGenerate` reads from its `*http.Request`: the method, the
session that `utils.GetSessionFromContext` finds in the context, if any, and
the outcome of decoding the body as JSON into a `GenerateRequest` (a field that
is absent from the body keeps its zero value). -/
structure GenerateCall where
  Method : String
  session : Option Session
  body : Except String GenerateRequest

/-- Go `utils.ErrorInfo`. -/
structure ErrorInfo where
  Code : String
  Message : String
deriving DecidableEq, Repr

/-- The map `HandleGenerate` passes to `utils.WriteJSON` on success. -/
structure GenerateData where
  content_id : Int
  material_type : String
  summary : String
  model_used : String
  generation_time : Int
deriving DecidableEq, Repr

/-- Go `utils.JSONResponse` with the data of a generation. -/
structure JSONResponse where
  Success : Bool
  Data : Option GenerateData
  Error : Option ErrorInfo
deriving DecidableEq, Repr

/-- Go `utils.WriteJSON`: the status and the response written. -/
def WriteJSON (status : Int) (data : GenerateData) : Int × JSONResponse :=
  (status, { Success := decide (status ≥ 200 ∧ status < 300), Data := some data, Error := none })

/-- Go `utils.WriteError`: the status and the response written. -/
def WriteError (status : Int) (code message : String) : Int × JSONResponse :=
  (status, { Success := false, Data := none, Error := some { Code := code, Message := message } })

/-- Go `StudyHandler`. -/
structure StudyHandler where
  studyService : StudyService

/-- Go `StudyHandler.HandleGenerate`; the log lines are left out. -/
def StudyHandler.HandleGenerate (h : StudyHandler) (w : World) (r : GenerateCall) :
    Outcome (Int × JSONResponse) × World :=
  if r.Method ≠ "POST" then
    (.returned (WriteError 405 "METHOD_NOT_ALLOWED" "Method not allowed"), w)
  else
    match r.session with
    | none => (.returned (WriteError 401 "NO_SESSION" "No session found"), w)
    | some session =>
      match r.body with
      | .error _ => (.returned (WriteError 400 "INVALID_JSON" "Invalid request body"), w)
      | .ok req =>
        if req.DocumentID ≤ 0 then
          (.returned (WriteError 400 "INVALID_DOCUMENT_ID" "Invalid document ID"), w)
        else if req.PageStart < 1 ∨ req.PageEnd < req.PageStart then
          (.returned (WriteError 400 "INVALID_PAGE_RANGE" "Invalid page range"), w)
        else if req.MaterialType ≠ "summary" ∧ req.MaterialType ≠ "" then
          (.returned (WriteError 400 "UNSUPPORTED_TYPE" "Only 'summary' type is supported in MVP"),
            w)
        else
          let academicLevel := if req.AcademicLevel = "" then "undergraduate" else req.AcademicLevel
          let serviceReq : GenerateSummaryRequest :=
            { SessionID := session.ID, DocumentID := req.DocumentID, PageStart := req.PageStart,
              PageEnd := req.PageEnd, AcademicLevel := academicLevel }
          let g := h.studyService.GenerateSummary w serviceReq
          match g.1 with
          | .panicked msg => (.panicked msg, g.2)
          | .returned (.error err) =>
            (.returned (WriteError 500 "GENERATION_ERROR" err), g.2)
          | .returned (.ok result) =>
            (.returned (WriteJSON 200
              { content_id := result.ContentID, material_type := "summary",
                summary := result.Summary, model_used := result.ModelUsed,
                generation_time := result.GenerationTime }), g.2)

/-! ## Notions used to state the properties -/

/-- Concatenation of a list of strings. -/
def concatAll : List String → String
  | [] => ""
  | s :: rest => s ++ concatAll rest

/-- The labelled sections for a list of summaries, numbered from `n`, each
followed by a blank line. -/
def sectionList : Nat → List String → List String
  | _, [] => []
  | n, s :: rest => ("Section " ++ toString n ++ ": " ++ s ++ "\n\n") :: sectionList (n + 1) rest

/-- The request `summarizeChunk` sends for a chunk, with its URL. -/
def chunkRequest (c : HuggingFaceClient) (academicLevel : String) (chunk : String) :
    String × SummaryRequest :=
  (c.modelURL, summaryRequestFor chunk academicLevel)

/-- A sufficient syntactic test that every match of a pattern contains a
character satisfying `S`. -/
def Regex.needs (S : Char → Bool) : Regex → Bool
  | .empty => false
  | .lit c => S c
  | .cls k => !k.negated && k.ranges.all (fun r => decide (r.1 = r.2) && S r.1)
  | .wordBoundary => false
  | .seq a b => a.needs S || b.needs S
  | .alt a b => a.needs S && b.needs S
  | .opt _ => false
  | .star _ => false
  | .plus r => r.needs S
  | .plusLazy r => r.needs S
  | .group _ r => r.needs S

/-- The characters one of which every letter, comma, link and figure repair of
`CleanPDFText` needs in order to match: the letter i, the comma, the slash, the
opening parenthesis and the letter F. -/
def isRepairTrigger (c : Char) : Bool :=
  c == 'i' || c == ',' || c == '/' || c == '(' || c == 'F'

/-- White space that the last stage of `CleanPDFText` leaves alone: every white
space character is a single space that stands before a character other than
white space, ".", ",", ";" and ":"; in particular the text does not end in white
space. -/
def tidySpacing : List Char → Bool
  | [] => true
  | [c] => !unicodeIsSpace c
  | c :: d :: rest =>
    (if c = ' ' then !unicodeIsSpace d && !(d == '.' || d == ',' || d == ';' || d == ':')
      else !unicodeIsSpace c) && tidySpacing (d :: rest)

/-- A text with tidy spacing that does not begin with white space. -/
def isTidy (x : String) : Bool :=
  (match x.data with
    | [] => true
    | c :: _ => !unicodeIsSpace c) && tidySpacing x.data

/-- Whether a text ends with a space that is not preceded by another space. -/
def endsWithSingleSpace (s : String) : Bool :=
  match s.data.reverse with
  | [' '] => true
  | ' ' :: c :: _ => c != ' '
  | _ => false

/-- The arguments of a call of `PDFService.ExtractText`, and the faults of the
store at the time of the call. -/
structure ExtractCall where
  documentID : Int
  filePath : String
  startPage : Int
  endPage : Int
  faults : DbOp → Option String

/-- The world after a sequence of calls of `PDFService.ExtractText`, each made
under its own faults of the store. -/
def runExtractCalls (w : World) : List ExtractCall → World
  | [] => w
  | c :: rest =>
    runExtractCalls
      (PDFService.ExtractText { w with dbFault := c.faults } c.documentID c.filePath c.startPage
        c.endPage).2 rest

/-- The cache holds text `t` with duration `d` under a key. -/
def cacheHolds (w : World) (documentID startPage endPage : Int) (t : String) (d : Int) : Prop :=
  ∃ row, w.extracted.find? (fun e => e.hasKey documentID startPage endPage) = some row ∧
    row.Content = t ∧ row.ExtractionTime = d

/-- The value of a hexadecimal digit. -/
def hexValue (c : Char) : Option Nat :=
  if '0'.toNat ≤ c.toNat ∧ c.toNat ≤ '9'.toNat then some (c.toNat - '0'.toNat)
  else if 'a'.toNat ≤ c.toNat ∧ c.toNat ≤ 'f'.toNat then some (c.toNat - 'a'.toNat + 10)
  else if 'A'.toNat ≤ c.toNat ∧ c.toNat ≤ 'F'.toNat then some (c.toNat - 'A'.toNat + 10)
  else none

/-- The character a one-letter escape of a JSON string stands for. -/
def jsonUnescape (e : Char) : Option Char :=
  if e = '"' then some '"'
  else if e = '\\' then some '\\'
  else if e = '/' then some '/'
  else if e = 'b' then some '\x08'
  else if e = 'f' then some '\x0c'
  else if e = 'n' then some '\n'
  else if e = 'r' then some '\r'
  else if e = 't' then some '\t'
  else none

/-- A reader of a JSON string literal (RFC 8259) from behind its opening quote:
the decoded characters up to the closing quote, and the text behind it.  A
`\u` escape stands for the character with that code; control characters have
to be escaped. -/
def readJsonChars : List Char → Option (List Char × List Char)
  | [] => none
  | c :: rest =>
    if c = '"' then some ([], rest)
    else if c = '\\' then
      match rest with
      | [] => none
      | e :: rest2 =>
        if e = 'u' then
          match rest2 with
          | h1 :: h2 :: h3 :: h4 :: rest3 =>
            match hexValue h1, hexValue h2, hexValue h3, hexValue h4, readJsonChars rest3 with
            | some x, some y, some z, some t, some (cs, behind) =>
              some (Char.ofNat (((x * 16 + y) * 16 + z) * 16 + t) :: cs, behind)
            | _, _, _, _, _ => none
          | _ => none
        else
          match jsonUnescape e, readJsonChars rest2 with
          | some d, some (cs, behind) => some (d :: cs, behind)
          | _, _ => none
    else if c.toNat < 32 then none
    else
      match readJsonChars rest with
      | some (cs, behind) => some (c :: cs, behind)
      | none => none

/-- A reader of the members of a JSON object whose values are strings, from
behind the opening brace to the closing brace at the end of the text. -/
def readJsonMembers : Nat → List Char → Option (List (String × String))
  | 0, _ => none
  | fuel + 1, text =>
    match text with
    | '"' :: rest =>
      match readJsonChars rest with
      | some (key, ':' :: '"' :: rest2) =>
        match readJsonChars rest2 with
        | some (value, ',' :: rest3) =>
          match readJsonMembers fuel rest3 with
          | some members => some ((String.mk key, String.mk value) :: members)
          | none => none
        | some (value, ['\x7d']) => some [(String.mk key, String.mk value)]
        | _ => none
      | _ => none
    | _ => none

/-- A reader of a JSON object whose values are strings: its members in the
order of the text. -/
def readJsonObject (payload : String) : Option (List (String × String)) :=
  match payload.data with
  | '\x7b' :: rest => readJsonMembers payload.data.length rest
  | _ => none

/-- The spacing that the last stage of `CleanPDFText` establishes: of the
characters of `\s` only the space occurs, and a space is followed neither by a
space nor by a character of `B`. -/
def spacingOk (B : Char → Bool) (l : List Char) : Prop :=
  (∀ c ∈ l, space.test c = true → c = ' ') ∧
  List.Chain' (fun a b => a = ' ' → b ≠ ' ' ∧ B b = false) l

/-- The text the page loop of `Extractor.ExtractText` builds for a list of
pages, each given by its marker line and its cleaned text: the marker line, the
text, and a blank line. -/
def pagesText : List (String × String) → String
  | [] => ""
  | page :: rest => page.1 ++ "\n" ++ page.2 ++ "\n\n" ++ pagesText rest

/-- The repairs of `CleanPDFText` that come before its white space stage, in the
order in which they run: each pattern with its replacement. -/
def repairPasses : List (Regex × String) :=
  [(re1, "$1 $2"), (re2, "$1 $2"), (re2b, "$1 $2"), (re2c, "$1 $2"), (re3, "$1. $2"),
    (re4, "$1 $2"), (reWord "the", "the "), (reWord "and", "and "), (reWord "to", "to "),
    (reWord "of", "of "), (reWord "in", "in "), (reWord "for", "for "),
    (reWord "with", "with "), (reWord "from", "from "), (re13, "$1, $2"), (re14, ""),
    (re15, ""), (re16, ""), (re17, "")]

/-- The white space stage of `CleanPDFText`: pattern 18, the four removals of a
space before a punctuation mark, and the trimming. -/
def whiteSpaceStage (text : String) : String :=
  stringsTrimSpace (stringsReplaceAll (stringsReplaceAll (stringsReplaceAll
    (stringsReplaceAll (replaceAllString re18 text " ") " ." ".") " ," ",") " ;" ";") " :" ":")

/-- The extraction step of `StudyService.GenerateSummary` for a request whose
document is `doc`: the call of `PDFService.ExtractText` it makes, in the world
left by the reading of the clock, the look-up of the document and the validation
of the page range. -/
def StudyService.extractionStep (w : World) (req : GenerateSummaryRequest) (doc : Document) :
    (String × Int × Option String) × World :=
  PDFService.ExtractText
    (PDFService.ValidatePageRange (DocumentRepository.GetByID (w.now).2 req.DocumentID).2
      doc.FilePath req.PageStart req.PageEnd).2
    req.DocumentID doc.FilePath req.PageStart req.PageEnd

/-! ## Sample data -/

/-- A text of two paragraphs: `n` letters `a`, a blank line, `m` letters `b`. -/
def twoParagraphs (n m : Nat) : String :=
  String.mk (List.replicate n 'a') ++ "\n\n" ++ String.mk (List.replicate m 'b')

/-- A world with an empty database, no files, and an endpoint that answers every
request with the summary `"S"` followed by the request number. -/
def sampleWorld : World :=
  { documents := [], generated := [], extracted := [],
    dbFault := fun _ => none,
    pdfOpen := fun _ => .error "no such file",
    remote := fun k _ _ => .body (.ok [⟨"S" ++ toString k⟩]),
    posts := 0, clock := fun k => 10 * k, clockReads := 0, trace := [] }

/-- A world like `sampleWorld` whose endpoint fails on the second request. -/
def failingWorld : World :=
  { sampleWorld with
    remote := fun k _ _ => if k = 1 then .failed "API returned status 503: busy"
                           else .body (.ok [⟨"S" ++ toString k⟩]) }

/-- A PDF file of three pages of text. -/
def samplePdf : PdfFile :=
  { NumPage := 3, Page := fun n => .content (.ok ("page " ++ toString n)) }

/-- A document of session A stored under the identifier 1. -/
def sampleDocument : Document :=
  { ID := 1, SessionID := "session-A", OriginalFilename := "book.pdf",
    StoredFilename := "1.pdf", FilePath := "uploads/1.pdf", FileSize := 1000, PageCount := 3,
    UploadDate := 0, LastAccessed := 0, IsDeleted := false }

/-- A summary of session A stored under the identifier 7. -/
def sampleContent : GeneratedContent :=
  { ID := 7, SessionID := "session-A", DocumentID := 1, ContentType := "summary",
    AcademicLevel := "graduate", InputPages := "1-2", OutputContent := "\x7b\x7d",
    AIModel := "facebook/bart-large-cnn", GenerationTime := 12, CreatedAt := 5 }

/-- A world like `sampleWorld` that holds the sample document, its file and the
sample summary. -/
def libraryWorld : World :=
  { sampleWorld with
    documents := [sampleDocument],
    generated := [sampleContent],
    pdfOpen := fun path => if path = "uploads/1.pdf" then .ok samplePdf
                           else .error "no such file" }

/-- A client. -/
def sampleClient : HuggingFaceClient := { apiKey := "key", baseURL := "https://api.example" }

/-- A world like `libraryWorld` in which every write to the cache fails and
whose clock runs faster and faster. -/
def flakyCacheWorld : World :=
  { libraryWorld with
    dbFault := fun op => if op = DbOp.createExtracted then some "disk full" else none
    clock := fun k => k * k }

/-- A PDF file with one page whose plain text is empty, as for a scanned image. -/
def scannedPdf : PdfFile :=
  { NumPage := 1, Page := fun _ => .content (.ok "") }

/-- A world like `sampleWorld` whose files are all the scanned one-page PDF. -/
def scannedWorld : World :=
  { sampleWorld with pdfOpen := fun _ => .ok scannedPdf }

/-- A session with the identifier of session A. -/
def sampleSession : Session :=
  { ID := "session-A", CreatedAt := 0, LastAccessed := 0, IPAddress := "127.0.0.1",
    UserAgent := "browser", IsActive := true }

/-- The handler over the sample client. -/
def sampleHandler : StudyHandler := { studyService := { aiClient := sampleClient } }

/-- A request of session A for a summary of pages 1 to 2 of document 1 at a
given audience level. -/
def sampleCall (academicLevel : String) : GenerateCall :=
  { Method := "POST", session := some sampleSession,
    body := .ok { DocumentID := 1, PageStart := 1, PageEnd := 2, MaterialType := "summary",
                  AcademicLevel := academicLevel } }

/-- A text of 3001 line feeds: more than 3000 bytes, and no paragraph. -/
def blankLines : String := String.mk (List.replicate 3001 '\n')

/-- A page of 2000 letters. -/
def evenPage : String := String.mk (List.replicate 2000 'b')

/-- The text of the pages of the even file: 2000 letters on every page. -/
def evenPages (_ : Int) : String := evenPage

/-- A PDF file of five pages of 2000 letters each. -/
def evenPdf : PdfFile := { NumPage := 5, Page := fun n => .content (.ok (evenPages n)) }

/-- A world like `sampleWorld` whose files are all the five even pages. -/
def evenWorld : World := { sampleWorld with pdfOpen := fun _ => .ok evenPdf }

/-- The text of the pages of the lopsided file: 9996 letters on page 1, and one
letter on every other page. -/
def lopsidedPage (n : Int) : String :=
  if n = 1 then String.mk (List.replicate 9996 'a') else "b"

/-- A PDF file of five pages with 10,000 characters of text: 9996 letters on
page 1, and one letter on each of the pages 2 to 5. -/
def lopsidedPdf : PdfFile :=
  { NumPage := 5, Page := fun n => .content (.ok (lopsidedPage n)) }

/-- A world like `sampleWorld` whose files are all the five lopsided pages. -/
def lopsidedWorld : World := { sampleWorld with pdfOpen := fun _ => .ok lopsidedPdf }

/-- The text extracted from the pages 1 to 5 of the lopsided file. -/
def lopsidedText : String :=
  pagesText [("--- Page 1 ---", String.mk (List.replicate 9996 'a')), ("--- Page 2 ---", "b"),
    ("--- Page 3 ---", "b"), ("--- Page 4 ---", "b"), ("--- Page 5 ---", "b")]

/-! # Theorems -/

/-! ## Facts about string lengths and joins -/

theorem len_append (a b : String) : len (a ++ b) = len a + len b := by
  cases a with
  | mk as =>
    cases b with
    | mk bs =>
      show String.utf8Len (as ++ bs) = String.utf8Len as + String.utf8Len bs
      exact String.utf8Len_append as bs

theorem len_empty : len "" = 0 := rfl

theorem len_space : len " " = 1 := rfl

theorem len_eq_zero_iff (s : String) : len s = 0 ↔ s = "" := by
  cases s with
  | mk cs =>
    simp only [len, String.utf8ByteSize_mk, String.utf8Len_eq_zero]
    constructor
    · intro h; subst h; rfl
    · intro h; exact congrArg String.data h

theorem joinSpaces_snoc (run : List String) (p : String) (h : run ≠ []) :
    joinSpaces (run ++ [p]) = joinSpaces run ++ " " ++ p := by
  induction run with
  | nil => exact absurd rfl h
  | cons a rest ih =>
    cases rest with
    | nil => simp [joinSpaces]
    | cons b rest2 =>
      have ih2 := ih (by simp)
      show a ++ " " ++ joinSpaces ((b :: rest2) ++ [p]) = a ++ " " ++ joinSpaces (b :: rest2) ++ " " ++ p
      rw [ih2]
      simp [String.append_assoc]

theorem len_joinSpaces_pos (run : List String) (h : run ≠ [])
    (hk : ∀ p ∈ run, 20 ≤ len p) : 0 < len (joinSpaces run) := by
  cases run with
  | nil => exact absurd rfl h
  | cons a rest =>
    have ha : 20 ≤ len a := hk a (by simp)
    cases rest with
    | nil => simp only [joinSpaces]; omega
    | cons b rest2 =>
      simp only [joinSpaces, len_append]; omega

/-! ## The chunker -/

theorem chunkTextLoop_snoc (maxSize : Int) (st : List String × String) (l : List String)
    (p : String) :
    chunkTextLoop maxSize st (l ++ [p]) = chunkTextStep maxSize (chunkTextLoop maxSize st l) p := by
  simp [chunkTextLoop, List.foldl_append]

/-- Loop invariant of `chunkText`: the closed chunks are the joins of consecutive
non-empty runs of kept paragraphs, each of at least `minChunkSize` bytes, and the
running chunk is the join of the kept paragraphs read since the last close. -/
theorem chunkTextLoop_runs (maxSize : Int) (paras : List String) :
    ∃ (runs : List (List String)) (cur : List String),
      paras.filter (fun p => decide (20 ≤ len p)) = runs.flatten ++ cur ∧
      (∀ r ∈ runs, r ≠ [] ∧ minChunkSize ≤ len (joinSpaces r)) ∧
      (∀ p ∈ cur, 20 ≤ len p) ∧
      (chunkTextLoop maxSize ([], "") paras).1 = runs.map joinSpaces ∧
      (chunkTextLoop maxSize ([], "") paras).2 = joinSpaces cur := by
  induction paras using List.reverseRecOn with
  | nil => exact ⟨[], [], by simp [chunkTextLoop, joinSpaces]⟩
  | append_singleton l p ih =>
    obtain ⟨runs, cur, hk, hr, hc, h1, h2⟩ := ih
    rw [chunkTextLoop_snoc]
    by_cases hp : len p < 20
    · refine ⟨runs, cur, ?_, hr, hc, ?_, ?_⟩
      · rw [List.filter_append, hk]
        have : ¬ 20 ≤ len p := by omega
        simp [this]
      · simp [chunkTextStep, hp, h1]
      · simp [chunkTextStep, hp, h2]
    · have hp20 : 20 ≤ len p := by omega
      have hfilter : (l ++ [p]).filter (fun p => decide (20 ≤ len p))
          = runs.flatten ++ cur ++ [p] := by
        rw [List.filter_append, hk]
        simp [hp20]
      by_cases hclose : ((len (chunkTextLoop maxSize ([], "") l).2 + len p : Nat) : Int) > maxSize
          ∧ len (chunkTextLoop maxSize ([], "") l).2 ≥ minChunkSize
      · have hcur : cur ≠ [] := by
          intro hnil
          have h200 := hclose.2
          rw [h2, hnil] at h200
          simp [joinSpaces, len_empty, minChunkSize] at h200
        refine ⟨runs ++ [cur], [p], ?_, ?_, ?_, ?_, ?_⟩
        · rw [hfilter]; simp
        · intro r hrmem
          rcases List.mem_append.mp hrmem with h | h
          · exact hr r h
          · have : r = cur := by simpa using h
            subst this
            refine ⟨hcur, ?_⟩
            have h200 := hclose.2
            rw [h2] at h200
            exact h200
        · intro q hq
          have : q = p := by simpa using hq
          subst this; exact hp20
        · simp only [chunkTextStep, hp, hclose, if_false, if_true, and_self]
          simp [h1, h2]
        · simp only [chunkTextStep, hp, hclose, if_false, if_true, and_self]
          simp [joinSpaces]
      · refine ⟨runs, cur ++ [p], ?_, hr, ?_, ?_, ?_⟩
        · rw [hfilter]; simp
        · intro q hq
          rcases List.mem_append.mp hq with h | h
          · exact hc q h
          · have : q = p := by simpa using h
            subst this; exact hp20
        · simp only [chunkTextStep, hp, hclose, if_false]
          exact h1
        · simp only [chunkTextStep, hp, hclose, if_false]
          by_cases hnil : cur = []
          · subst hnil
            rw [h2]
            simp [joinSpaces, len_empty]
          · have hpos := len_joinSpaces_pos cur hnil hc
            rw [h2, joinSpaces_snoc cur p hnil]
            simp [hpos]

/-- Decomposition of the result of `chunkText` into runs of kept paragraphs; the
kept paragraphs after the last run form the dropped trailing fragment. -/
theorem chunkText_decomp (text : String) (maxSize : Int) :
    ∃ (runs : List (List String)) (rest : List String),
      keptParagraphs text = runs.flatten ++ rest ∧
      (∀ r ∈ runs, r ≠ [] ∧ minChunkSize ≤ len (joinSpaces r)) ∧
      (∀ p ∈ rest, 20 ≤ len p) ∧
      chunkText text maxSize = runs.map joinSpaces := by
  obtain ⟨runs, cur, hk, hr, hc, h1, h2⟩ := chunkTextLoop_runs maxSize (splitByParagraphs text)
  by_cases hlast : len (chunkTextLoop maxSize ([], "") (splitByParagraphs text)).2 ≥ minChunkSize
  · have hcur : cur ≠ [] := by
      intro hnil
      rw [h2, hnil] at hlast
      simp [joinSpaces, len_empty, minChunkSize] at hlast
    refine ⟨runs ++ [cur], [], ?_, ?_, ?_, ?_⟩
    · simp [keptParagraphs, hk]
    · intro r hrmem
      rcases List.mem_append.mp hrmem with h | h
      · exact hr r h
      · have : r = cur := by simpa using h
        subst this
        rw [h2] at hlast
        exact ⟨hcur, hlast⟩
    · intro p hp; simp at hp
    · simp only [chunkText, hlast, if_true]
      simp [h1, h2]
  · refine ⟨runs, cur, ?_, hr, hc, ?_⟩
    · simp [keptParagraphs, hk]
    · simp only [chunkText, hlast, if_false]
      exact h1

theorem joinSpaces_append (a b : List String) (ha : a ≠ []) (hb : b ≠ []) :
    joinSpaces (a ++ b) = joinSpaces a ++ " " ++ joinSpaces b := by
  induction b using List.reverseRecOn with
  | nil => exact absurd rfl hb
  | append_singleton l p ih =>
    by_cases hl : l = []
    · subst hl
      simpa [joinSpaces] using joinSpaces_snoc a p ha
    · rw [← List.append_assoc, joinSpaces_snoc (a ++ l) p (by simp [ha]), ih hl,
        joinSpaces_snoc l p hl]
      simp [String.append_assoc]

theorem joinSpaces_map_runs (runs : List (List String)) (h : ∀ r ∈ runs, r ≠ []) :
    joinSpaces (runs.map joinSpaces) = joinSpaces runs.flatten := by
  induction runs with
  | nil => rfl
  | cons r rs ih =>
    have hr : r ≠ [] := h r (by simp)
    have hrs : ∀ q ∈ rs, q ≠ [] := fun q hq => h q (by simp [hq])
    cases rs with
    | nil => simp [joinSpaces]
    | cons r2 rs2 =>
      have hne : (r2 :: rs2).flatten ≠ [] := by
        have h2 : r2 ≠ [] := hrs r2 (by simp)
        simp [h2]
      have ih2 := ih hrs
      rw [List.flatten_cons, joinSpaces_append r _ hr hne, ← ih2]
      simp [joinSpaces]

/-- C4: for every text longer than `maxSize`, every chunk returned by `chunkText`
has at least 200 bytes (the exception the claim permits for a first chunk of a
short filtered text is never needed), and every chunk is the join of a non-empty
run of kept paragraphs, so none is built from discarded paragraphs alone. -/
theorem chunkText_chunks_min_size (text : String) (maxSize : Int)
    (_h : (len text : Int) > maxSize) :
    (∀ (i : Nat) (c : String), (chunkText text maxSize)[i]? = some c →
        200 ≤ len c ∨ (i = 0 ∧ len (joinSpaces (keptParagraphs text)) < 200)) ∧
    (∀ c ∈ chunkText text maxSize, ∃ run : List String, run ≠ [] ∧
        (∀ p ∈ run, p ∈ splitByParagraphs text ∧ 20 ≤ len p) ∧ c = joinSpaces run) := by
  obtain ⟨runs, rest, hk, hr, _, hc⟩ := chunkText_decomp text maxSize
  have hmem : ∀ c ∈ chunkText text maxSize, ∃ run ∈ runs, c = joinSpaces run := by
    intro c hcm
    rw [hc] at hcm
    obtain ⟨run, hrun, rfl⟩ := List.mem_map.mp hcm
    exact ⟨run, hrun, rfl⟩
  constructor
  · intro i c hi
    obtain ⟨run, hrun, rfl⟩ := hmem c (List.getElem?_mem hi)
    exact Or.inl (hr run hrun).2
  · intro c hcm
    obtain ⟨run, hrun, rfl⟩ := hmem c hcm
    refine ⟨run, (hr run hrun).1, ?_, rfl⟩
    intro p hp
    have hpk : p ∈ keptParagraphs text := by
      rw [hk]
      exact List.mem_append_left _ (List.mem_flatten.mpr ⟨run, hrun, hp⟩)
    have := List.mem_filter.mp hpk
    exact ⟨this.1, by simpa using this.2⟩

/-- C5: the chunks returned by `chunkText` are the single-space joins of
consecutive, non-empty, disjoint runs of the kept paragraphs, in paragraph order
(the kept paragraphs are the runs one after the other followed by a dropped
remainder), so the single-space join of the chunks begins the single-space join
of all kept paragraphs. -/
theorem chunkText_paragraph_runs (text : String) (maxSize : Int) :
    ∃ (runs : List (List String)) (rest : List String),
      keptParagraphs text = runs.flatten ++ rest ∧
      (∀ r ∈ runs, r ≠ []) ∧
      chunkText text maxSize = runs.map joinSpaces ∧
      ∃ tail : String,
        joinSpaces (keptParagraphs text) = joinSpaces (chunkText text maxSize) ++ tail := by
  obtain ⟨runs, rest, hk, hr, _, hc⟩ := chunkText_decomp text maxSize
  have hne : ∀ r ∈ runs, r ≠ [] := fun r h => (hr r h).1
  refine ⟨runs, rest, hk, hne, hc, ?_⟩
  rw [hc, hk, joinSpaces_map_runs runs hne]
  by_cases h1 : runs.flatten = []
  · rw [h1]
    exact ⟨joinSpaces rest, by simp [joinSpaces]⟩
  · by_cases h2 : rest = []
    · subst h2
      exact ⟨"", by simp⟩
    · refine ⟨" " ++ joinSpaces rest, ?_⟩
      rw [joinSpaces_append _ _ h1 h2]
      simp [String.append_assoc]

/-! ## Evaluating the chunker on two-paragraph texts -/

theorem len_replicate (n : Nat) (c : Char) (h : c.utf8Size = 1) :
    len (String.mk (List.replicate n c)) = n := by
  induction n with
  | zero => rfl
  | succ k ih =>
    have : len (String.mk (List.replicate (k + 1) c))
        = len (String.mk (List.replicate k c)) + c.utf8Size := rfl
    rw [this, ih, h]

theorem splitLines_fold_replicate (n : Nat) (c : Char) (hc : c ≠ '\n') (lines : List String)
    (cur : String) :
    (List.replicate n c).foldl splitLinesStep (lines, cur)
      = (lines, cur ++ String.mk (List.replicate n c)) := by
  induction n generalizing cur with
  | zero =>
    show (lines, cur) = (lines, cur ++ "")
    simp
  | succ k ih =>
    rw [List.replicate_succ, List.foldl_cons]
    have hstep : splitLinesStep (lines, cur) c = (lines, cur ++ String.singleton c) := by
      simp [splitLinesStep, hc]
    rw [hstep, ih]
    congr 1
    apply String.ext
    simp [String.singleton]

theorem splitLines_twoParagraphs (n m : Nat) (hm : 0 < m) :
    splitLines (twoParagraphs n m)
      = [String.mk (List.replicate n 'a'), "", String.mk (List.replicate m 'b')] := by
  have hdata : (twoParagraphs n m).data
      = List.replicate n 'a' ++ ('\n' :: '\n' :: List.replicate m 'b') := by
    simp [twoParagraphs]
  have hlen : len (String.mk (List.replicate m 'b')) = m := len_replicate m 'b' rfl
  unfold splitLines
  rw [hdata, List.foldl_append, splitLines_fold_replicate n 'a' (by decide), List.foldl_cons,
    List.foldl_cons]
  have h1 : splitLinesStep ([], "" ++ String.mk (List.replicate n 'a')) '\n'
      = ([String.mk (List.replicate n 'a')], "") := by
    simp [splitLinesStep]
  have h2 : splitLinesStep ([String.mk (List.replicate n 'a')], "") '\n'
      = ([String.mk (List.replicate n 'a'), ""], "") := by
    simp [splitLinesStep]
  rw [h1, h2, splitLines_fold_replicate m 'b' (by decide)]
  simp [hlen, hm]

theorem replicate_ne_marker (n : Nat) (c : Char) (hc : c ≠ '-') (hn : 0 < n) :
    String.mk (List.replicate n c) ≠ "" ∧ String.mk (List.replicate n c) ≠ "---" := by
  obtain ⟨k, rfl⟩ : ∃ k, n = k + 1 := ⟨n - 1, by omega⟩
  constructor
  · intro h
    have := congrArg String.data h
    simp [List.replicate_succ] at this
  · intro h
    have := congrArg String.data h
    simp [List.replicate_succ] at this
    exact hc this.1

theorem splitByParagraphs_twoParagraphs (n m : Nat) (hn : 0 < n) (hm : 0 < m) :
    splitByParagraphs (twoParagraphs n m)
      = [String.mk (List.replicate n 'a'), String.mk (List.replicate m 'b')] := by
  have ha := replicate_ne_marker n 'a' (by decide) hn
  have hb := replicate_ne_marker m 'b' (by decide) hm
  have hla : len (String.mk (List.replicate n 'a')) = n := len_replicate n 'a' rfl
  have hlb : len (String.mk (List.replicate m 'b')) = m := len_replicate m 'b' rfl
  unfold splitByParagraphs
  rw [splitLines_twoParagraphs n m hm]
  simp [splitByParagraphsStep, ha, hb, hla, hlb, hn, hm, len_empty]

theorem len_twoParagraphs (n m : Nat) : len (twoParagraphs n m) = n + 2 + m := by
  unfold twoParagraphs
  rw [len_append, len_append, len_replicate n 'a' rfl, len_replicate m 'b' rfl]
  rfl

theorem chunkText_twoParagraphs_split (n m : Nat) (maxSize : Int) (hn : 200 ≤ n)
    (hm : 200 ≤ m) (h : ((n + m : Nat) : Int) > maxSize) :
    chunkText (twoParagraphs n m) maxSize
      = [String.mk (List.replicate n 'a'), String.mk (List.replicate m 'b')] := by
  have hla : len (String.mk (List.replicate n 'a')) = n := len_replicate n 'a' rfl
  have hlb : len (String.mk (List.replicate m 'b')) = m := len_replicate m 'b' rfl
  have h20a : ¬ n < 20 := by omega
  have h20b : ¬ m < 20 := by omega
  have hpos : 0 < n := by omega
  have hgt : maxSize < (n : Int) + (m : Int) := by push_cast at h; omega
  unfold chunkText
  rw [splitByParagraphs_twoParagraphs n m (by omega) (by omega)]
  simp [chunkTextLoop, chunkTextStep, hla, hlb, h20a, h20b, len_empty, minChunkSize, hn, hm, hgt,
    hpos]

theorem chunkText_twoParagraphs_joined (n m : Nat) (maxSize : Int) (hn : 20 ≤ n)
    (hm : 20 ≤ m) (h : ((n + m : Nat) : Int) ≤ maxSize) (hmin : 200 ≤ n + 1 + m) :
    chunkText (twoParagraphs n m) maxSize
      = [String.mk (List.replicate n 'a') ++ " " ++ String.mk (List.replicate m 'b')] := by
  have hla : len (String.mk (List.replicate n 'a')) = n := len_replicate n 'a' rfl
  have hlb : len (String.mk (List.replicate m 'b')) = m := len_replicate m 'b' rfl
  have h20a : ¬ n < 20 := by omega
  have h20b : ¬ m < 20 := by omega
  have hpos : 0 < n := by omega
  have hnot : ¬ ((n : Int) + (m : Int) > maxSize) := by push_cast at h; omega
  unfold chunkText
  rw [splitByParagraphs_twoParagraphs n m (by omega) (by omega)]
  simp [chunkTextLoop, chunkTextStep, hla, hlb, h20a, h20b, len_empty, minChunkSize, hnot,
    hpos, len_append, len_space, hmin]

/-! ## The client -/

theorem requestsOf_append (a b : List Event) :
    requestsOf (a ++ b) = requestsOf a ++ requestsOf b := by
  induction a with
  | nil => rfl
  | cons e rest ih => cases e <;> simp [requestsOf, ih]

theorem summarizeChunk_result (c : HuggingFaceClient) (w : World) (text level : String) :
    (c.summarizeChunk w text level).1
      = decodeReply (w.remote w.posts c.modelURL (summaryRequestFor text level)) := rfl

theorem summarizeChunk_world (c : HuggingFaceClient) (w : World) (text level : String) :
    (c.summarizeChunk w text level).2
      = { w with posts := w.posts + 1,
                 trace := w.trace ++ [Event.httpPost c.modelURL c.apiKey
                   (summaryRequestFor text level)] } := rfl

/-- The world after one iteration of the chunk loop that did not fail. -/
theorem afterChunk_facts (c : HuggingFaceClient) (w : World) (chunk level : String)
    (pause : Prop) [Decidable pause] :
    (if pause then (c.summarizeChunk w chunk level).2.emit (.sleep 500)
      else (c.summarizeChunk w chunk level).2).posts = w.posts + 1 ∧
    (if pause then (c.summarizeChunk w chunk level).2.emit (.sleep 500)
      else (c.summarizeChunk w chunk level).2).remote = w.remote ∧
    requestsOf (if pause then (c.summarizeChunk w chunk level).2.emit (.sleep 500)
      else (c.summarizeChunk w chunk level).2).trace
      = requestsOf w.trace ++ [chunkRequest c level chunk] := by
  by_cases hp : pause
  · simp [hp, summarizeChunk_world, World.emit, requestsOf_append, requestsOf, chunkRequest]
  · simp [hp, summarizeChunk_world, requestsOf_append, requestsOf, chunkRequest]

/-- The chunk loop when every call succeeds. -/
theorem summarizeChunks_ok (c : HuggingFaceClient) (level : String) (total : Nat) :
    ∀ (rest summaries : List String) (i : Nat) (acc : List String) (w : World),
      summaries.length = rest.length →
      (∀ (k : Nat) (chunk s : String), rest[k]? = some chunk → summaries[k]? = some s →
        decodeReply (w.remote (w.posts + k) c.modelURL (summaryRequestFor chunk level))
          = (s, none)) →
      (c.summarizeChunks level total i rest acc w).1 = .ok (acc ++ summaries) ∧
      (c.summarizeChunks level total i rest acc w).2.posts = w.posts + rest.length ∧
      requestsOf (c.summarizeChunks level total i rest acc w).2.trace
        = requestsOf w.trace ++ rest.map (chunkRequest c level) := by
  intro rest
  induction rest with
  | nil =>
    intro summaries i acc w hlen _
    have : summaries = [] := List.length_eq_zero.mp (by simpa using hlen)
    subst this
    simp [HuggingFaceClient.summarizeChunks]
  | cons chunk rest ih =>
    intro summaries i acc w hlen hok
    cases summaries with
    | nil => simp at hlen
    | cons s sums =>
      have h0 := hok 0 chunk s (by simp) (by simp)
      simp only [Nat.add_zero] at h0
      obtain ⟨hp, hr, ht⟩ := afterChunk_facts c w chunk level (i + 1 < total)
      have hnext := ih sums (i + 1) (acc ++ [s])
        (if i + 1 < total then (c.summarizeChunk w chunk level).2.emit (.sleep 500)
          else (c.summarizeChunk w chunk level).2)
        (by simpa using hlen)
        (by
          intro k ch s2 hch hs2
          rw [hr, hp]
          have := hok (k + 1) ch s2 (by simpa using hch) (by simpa using hs2)
          rw [show w.posts + 1 + k = w.posts + (k + 1) by omega]
          exact this)
      have hres : (c.summarizeChunk w chunk level).1 = (s, none) := by
        rw [summarizeChunk_result]; exact h0
      have hunfold : c.summarizeChunks level total i (chunk :: rest) acc w
          = c.summarizeChunks level total (i + 1) rest (acc ++ [s])
              (if i + 1 < total then (c.summarizeChunk w chunk level).2.emit (.sleep 500)
                else (c.summarizeChunk w chunk level).2) := by
        simp only [HuggingFaceClient.summarizeChunks, hres]
      rw [hunfold]
      obtain ⟨g1, g2, g3⟩ := hnext
      refine ⟨?_, ?_, ?_⟩
      · rw [g1]; simp
      · rw [g2, hp]; simp; omega
      · rw [g3, ht]; simp

/-- The chunk loop when the call for the chunk at offset `k` is the first to fail. -/
theorem summarizeChunks_fail (c : HuggingFaceClient) (level : String) (total : Nat) :
    ∀ (rest : List String) (k : Nat) (err : String) (i : Nat) (acc : List String) (w : World),
      k < rest.length →
      (∀ (j : Nat) (chunk : String), j < k → rest[j]? = some chunk →
        (decodeReply (w.remote (w.posts + j) c.modelURL (summaryRequestFor chunk level))).2
          = none) →
      (∀ (chunk : String), rest[k]? = some chunk →
        (decodeReply (w.remote (w.posts + k) c.modelURL (summaryRequestFor chunk level))).2
          = some err) →
      (c.summarizeChunks level total i rest acc w).1
        = .error ("failed to summarize chunk " ++ toString (i + k + 1) ++ ": " ++ err) ∧
      (c.summarizeChunks level total i rest acc w).2.posts = w.posts + (k + 1) ∧
      requestsOf (c.summarizeChunks level total i rest acc w).2.trace
        = requestsOf w.trace ++ (rest.take (k + 1)).map (chunkRequest c level) := by
  intro rest
  induction rest with
  | nil => intro k err i acc w hk; simp at hk
  | cons chunk rest ih =>
    intro k err i acc w hk hbefore hfail
    cases k with
    | zero =>
      have h0 := hfail chunk (by simp)
      simp only [Nat.add_zero] at h0
      have hres : (c.summarizeChunk w chunk level).1.2 = some err := by
        rw [summarizeChunk_result]; exact h0
      simp only [HuggingFaceClient.summarizeChunks, hres, Nat.add_zero]
      simp [summarizeChunk_world, requestsOf_append, requestsOf, chunkRequest]
    | succ k =>
      have h0 := hbefore 0 chunk (by omega) (by simp)
      simp only [Nat.add_zero] at h0
      have hres : (c.summarizeChunk w chunk level).1.2 = none := by
        rw [summarizeChunk_result]; exact h0
      obtain ⟨hp, hr, ht⟩ := afterChunk_facts c w chunk level (i + 1 < total)
      have hnext := ih k err (i + 1) (acc ++ [(c.summarizeChunk w chunk level).1.1])
        (if i + 1 < total then (c.summarizeChunk w chunk level).2.emit (.sleep 500)
          else (c.summarizeChunk w chunk level).2)
        (by simpa using hk)
        (by
          intro j ch hj hch
          rw [hr, hp]
          have := hbefore (j + 1) ch (by omega) (by simpa using hch)
          rw [show w.posts + 1 + j = w.posts + (j + 1) by omega]
          exact this)
        (by
          intro ch hch
          rw [hr, hp]
          have := hfail ch (by simpa using hch)
          rw [show w.posts + 1 + k = w.posts + (k + 1) by omega]
          exact this)
      have hunfold : c.summarizeChunks level total i (chunk :: rest) acc w
          = c.summarizeChunks level total (i + 1) rest
              (acc ++ [(c.summarizeChunk w chunk level).1.1])
              (if i + 1 < total then (c.summarizeChunk w chunk level).2.emit (.sleep 500)
                else (c.summarizeChunk w chunk level).2) := by
        simp only [HuggingFaceClient.summarizeChunks, hres]
      rw [hunfold]
      obtain ⟨g1, g2, g3⟩ := hnext
      refine ⟨?_, ?_, ?_⟩
      · rw [g1, show i + 1 + k + 1 = i + (k + 1) + 1 by omega]
      · rw [g2, hp]; omega
      · rw [g3, ht]; simp

theorem combineSections_eq (summaries : List String) :
    ∀ (i : Nat) (acc : String),
      combineSections i summaries acc = acc ++ concatAll (sectionList (i + 1) summaries) := by
  induction summaries with
  | nil => intro i acc; simp [combineSections, sectionList, concatAll]
  | cons s rest ih =>
    intro i acc
    simp only [combineSections, sectionList, concatAll]
    rw [ih]
    simp [String.append_assoc]

/-- The chunked branch of `GenerateSummary`, in terms of the result of its loop. -/
theorem generateSummary_chunked (c : HuggingFaceClient) (w : World) (text level : String)
    (h : 3000 < len text) (L : Except String (List String) × World)
    (hL : c.summarizeChunks level (chunkText text 3000).length 0 (chunkText text 3000) [] w = L) :
    c.GenerateSummary w text level
      = (match L.1 with
          | .error err => .returned ("", some err)
          | .ok chunkSummaries =>
            if chunkSummaries.length > 1 then
              .returned (combineSections 0 chunkSummaries "", none)
            else
              match chunkSummaries with
              | first :: _ => .returned (first, none)
              | [] => .panicked "runtime error: index out of range [0] with length 0",
         L.2) := by
  have hgt : ¬ (len text : Int) ≤ 3000 := by
    have : (3000 : Int) < (len text : Int) := by exact_mod_cast h
    omega
  unfold HuggingFaceClient.GenerateSummary
  rw [if_neg hgt]
  simp only [hL]
  cases L with
  | mk res w2 =>
    cases res with
    | error e => rfl
    | ok sums =>
      by_cases hm : sums.length > 1
      · simp only [hm, if_true]
      · simp only [hm, if_false]
        cases sums <;> rfl

/-- C1: for a text of at most 3000 bytes `GenerateSummary` sends exactly one
request, whose input is `buildEducationalPrompt text level` and whose parameters
are max_length 350, min_length 120 and do_sample false, and returns what that
request yields: the first summary of the reply unchanged, or the failure. -/
theorem generateSummary_direct (c : HuggingFaceClient) (w : World) (text level : String)
    (h : len text ≤ 3000) :
    (c.GenerateSummary w text level).2.trace
      = w.trace ++ [Event.httpPost c.modelURL c.apiKey
          ⟨buildEducationalPrompt text level,
            [("max_length", .int 350), ("min_length", .int 120), ("do_sample", .bool false)]⟩] ∧
    (c.GenerateSummary w text level).2.posts = w.posts + 1 ∧
    (c.GenerateSummary w text level).1
      = .returned (decodeReply (w.remote w.posts c.modelURL
          ⟨buildEducationalPrompt text level,
            [("max_length", .int 350), ("min_length", .int 120), ("do_sample", .bool false)]⟩)) ∧
    (∀ (first : SummaryResponse) (more : List SummaryResponse),
      w.remote w.posts c.modelURL (summaryRequestFor text level) = .body (.ok (first :: more)) →
      (c.GenerateSummary w text level).1 = .returned (first.SummaryText, none)) ∧
    (∀ (err : String),
      w.remote w.posts c.modelURL (summaryRequestFor text level) = .failed err →
      (c.GenerateSummary w text level).1 = .returned ("", some err)) := by
  have hle : (len text : Int) ≤ 3000 := by exact_mod_cast h
  have hg : c.GenerateSummary w text level
      = (.returned (c.summarizeChunk w text level).1, (c.summarizeChunk w text level).2) := by
    unfold HuggingFaceClient.GenerateSummary
    rw [if_pos hle]
  rw [hg]
  refine ⟨rfl, rfl, rfl, ?_, ?_⟩
  · intro first more hreply
    simp only [summarizeChunk_result, hreply, decodeReply]
  · intro err hreply
    simp only [summarizeChunk_result, hreply, decodeReply]

/-- Witness of C1 on a three-letter text. -/
theorem generateSummary_direct_witness :
    len "abc" ≤ 3000 ∧
    (sampleClient.GenerateSummary sampleWorld "abc" "graduate").2.posts = 1 :=
  ⟨by decide, (generateSummary_direct sampleClient sampleWorld "abc" "graduate" (by decide)).2.1⟩

/-- C2: for a text of more than 3000 bytes that `chunkText` splits into n ≥ 2
chunks, when the call for chunk k succeeds with summary s_k for every k,
`GenerateSummary` sends exactly the n requests of the chunks, in chunk order, and
returns "Section 1: " s_1, ..., "Section n: " s_n in chunk order, each followed
by a blank line; the result begins with "Section 1: ". -/
theorem generateSummary_sections (c : HuggingFaceClient) (w : World) (text level : String)
    (summaries : List String)
    (h : 3000 < len text)
    (hn : 2 ≤ (chunkText text 3000).length)
    (hlen : summaries.length = (chunkText text 3000).length)
    (hok : ∀ (k : Nat) (chunk s : String), (chunkText text 3000)[k]? = some chunk →
      summaries[k]? = some s →
      decodeReply (w.remote (w.posts + k) c.modelURL (summaryRequestFor chunk level))
        = (s, none)) :
    (c.GenerateSummary w text level).1
      = .returned (concatAll (sectionList 1 summaries), none) ∧
    requestsOf (c.GenerateSummary w text level).2.trace
      = requestsOf w.trace ++ (chunkText text 3000).map (chunkRequest c level) ∧
    (c.GenerateSummary w text level).2.posts = w.posts + (chunkText text 3000).length ∧
    ∃ tail : String, concatAll (sectionList 1 summaries) = "Section 1: " ++ tail := by
  obtain ⟨g1, g2, g3⟩ := summarizeChunks_ok c level (chunkText text 3000).length
    (chunkText text 3000) summaries 0 [] w hlen hok
  have hmany : summaries.length > 1 := by omega
  have hg := generateSummary_chunked c w text level h _ rfl
  generalize c.summarizeChunks level (chunkText text 3000).length 0 (chunkText text 3000) [] w
    = L at hg g1 g2 g3
  rw [hg]
  refine ⟨?_, g3, g2, ?_⟩
  · simp only [g1, List.nil_append, hmany, if_true, combineSections_eq]
    simp
  · cases summaries with
    | nil => simp at hmany
    | cons s rest =>
      refine ⟨s ++ "\n\n" ++ concatAll (sectionList 2 rest), ?_⟩
      have h1 : toString 1 = "1" := by decide
      simp only [sectionList, concatAll, h1]
      simp only [String.append_assoc]
      rfl

/-- The endpoint of `sampleWorld` answers the two chunks of a text of two long
paragraphs with the summaries S0 and S1. -/
theorem sampleWorld_replies (k : Nat) (chunk s : String)
    (_hc : (chunkText (twoParagraphs 2000 2000) 3000)[k]? = some chunk)
    (hs : ["S0", "S1"][k]? = some s) :
    decodeReply (sampleWorld.remote (sampleWorld.posts + k) sampleClient.modelURL
      (summaryRequestFor chunk "graduate")) = (s, none) := by
  match k with
  | 0 =>
    have : s = "S0" := by simpa using hs.symm
    subst this
    rfl
  | 1 =>
    have : s = "S1" := by simpa using hs.symm
    subst this
    rfl
  | k + 2 => simp at hs

/-- Witness of C2: a text of two paragraphs of 2000 bytes each. -/
theorem generateSummary_sections_witness :
    3000 < len (twoParagraphs 2000 2000) ∧
    (sampleClient.GenerateSummary sampleWorld (twoParagraphs 2000 2000) "graduate").1
      = .returned (concatAll (sectionList 1 ["S0", "S1"]), none) :=
  ⟨by rw [len_twoParagraphs]; omega,
    (generateSummary_sections sampleClient sampleWorld (twoParagraphs 2000 2000) "graduate"
      ["S0", "S1"] (by rw [len_twoParagraphs]; omega)
      (by rw [chunkText_twoParagraphs_split 2000 2000 3000 (by omega) (by omega) (by omega)]
          simp)
      (by rw [chunkText_twoParagraphs_split 2000 2000 3000 (by omega) (by omega) (by omega)]
          simp)
      sampleWorld_replies).1⟩

/-- C3: for a text of more than 3000 bytes, when the call for chunk k+1 (counted
from 1) is the first to fail, with error `err`, `GenerateSummary` returns the
empty summary together with an error naming chunk k+1 (none of the k summaries
obtained so far is returned), and the requests sent are exactly those of the
first k+1 chunks: no call is made for a later chunk. -/
theorem generateSummary_chunk_failure (c : HuggingFaceClient) (w : World) (text level : String)
    (k : Nat) (err : String)
    (h : 3000 < len text)
    (hk : k < (chunkText text 3000).length)
    (hbefore : ∀ (j : Nat) (chunk : String), j < k → (chunkText text 3000)[j]? = some chunk →
      (decodeReply (w.remote (w.posts + j) c.modelURL (summaryRequestFor chunk level))).2
        = none)
    (hfail : ∀ (chunk : String), (chunkText text 3000)[k]? = some chunk →
      (decodeReply (w.remote (w.posts + k) c.modelURL (summaryRequestFor chunk level))).2
        = some err) :
    (c.GenerateSummary w text level).1
      = .returned ("", some ("failed to summarize chunk " ++ toString (k + 1) ++ ": " ++ err)) ∧
    requestsOf (c.GenerateSummary w text level).2.trace
      = requestsOf w.trace ++ ((chunkText text 3000).take (k + 1)).map (chunkRequest c level) ∧
    (c.GenerateSummary w text level).2.posts = w.posts + (k + 1) := by
  obtain ⟨g1, g2, g3⟩ := summarizeChunks_fail c level (chunkText text 3000).length
    (chunkText text 3000) k err 0 [] w hk hbefore hfail
  have hg := generateSummary_chunked c w text level h _ rfl
  generalize c.summarizeChunks level (chunkText text 3000).length 0 (chunkText text 3000) [] w
    = L at hg g1 g2 g3
  rw [hg]
  refine ⟨?_, g3, g2⟩
  simp only [g1, Nat.zero_add]

/-- The endpoint of `failingWorld` answers the first request and fails on the
second. -/
theorem failingWorld_replies :
    (∀ (j : Nat) (chunk : String), j < 1 →
      (chunkText (twoParagraphs 2000 2000) 3000)[j]? = some chunk →
      (decodeReply (failingWorld.remote (failingWorld.posts + j) sampleClient.modelURL
        (summaryRequestFor chunk "graduate"))).2 = none) ∧
    (∀ (chunk : String), (chunkText (twoParagraphs 2000 2000) 3000)[1]? = some chunk →
      (decodeReply (failingWorld.remote (failingWorld.posts + 1) sampleClient.modelURL
        (summaryRequestFor chunk "graduate"))).2 = some "API returned status 503: busy") := by
  constructor
  · intro j chunk hj _
    have : j = 0 := by omega
    subst this
    rfl
  · intro chunk _
    rfl

/-- Witness of C3: the second of two chunks fails. -/
theorem generateSummary_chunk_failure_witness :
    3000 < len (twoParagraphs 2000 2000) ∧
    (sampleClient.GenerateSummary failingWorld (twoParagraphs 2000 2000) "graduate").1
      = .returned ("", some ("failed to summarize chunk " ++ toString (1 + 1) ++ ": "
          ++ "API returned status 503: busy")) :=
  ⟨by rw [len_twoParagraphs]; omega,
    (generateSummary_chunk_failure sampleClient failingWorld (twoParagraphs 2000 2000)
      "graduate" 1 "API returned status 503: busy" (by rw [len_twoParagraphs]; omega)
      (by rw [chunkText_twoParagraphs_split 2000 2000 3000 (by omega) (by omega) (by omega)]
          simp)
      failingWorld_replies.1 failingWorld_replies.2).1⟩

/-- Witness of C4: a text of two paragraphs of 2000 bytes each. -/
theorem chunkText_chunks_min_size_witness :
    (len (twoParagraphs 2000 2000) : Int) > 3000 ∧
    ∀ (i : Nat) (c : String), (chunkText (twoParagraphs 2000 2000) 3000)[i]? = some c →
      200 ≤ len c ∨ (i = 0 ∧ len (joinSpaces (keptParagraphs (twoParagraphs 2000 2000))) < 200) :=
  ⟨by rw [len_twoParagraphs]; norm_num,
    (chunkText_chunks_min_size (twoParagraphs 2000 2000) 3000
      (by rw [len_twoParagraphs]; norm_num)).1⟩

/-- What the close test of `chunkText` does guarantee: once the running chunk has
reached `minChunkSize`, a kept paragraph either closes it or is appended with
the result at most one byte (the separating space) over `maxSize`. -/
theorem chunkTextStep_reached_min (maxSize : Int) (st : List String × String) (para : String)
    (hmin : minChunkSize ≤ len st.2) (hpara : 20 ≤ len para) :
    chunkTextStep maxSize st para = (st.1 ++ [st.2], para) ∨
    (chunkTextStep maxSize st para = (st.1, st.2 ++ " " ++ para) ∧
      (len (st.2 ++ " " ++ para) : Int) ≤ maxSize + 1) := by
  have hp : ¬ len para < 20 := by omega
  have hpos : len st.2 > 0 := by simp only [minChunkSize] at hmin; omega
  by_cases hclose : ((len st.2 + len para : Nat) : Int) > maxSize
  · left
    simp only [chunkTextStep, hp, if_false, hclose, hmin, ge_iff_le, and_self, if_true]
  · right
    constructor
    · simp only [chunkTextStep, hp, if_false, hclose, false_and, hpos, if_true]
    · rw [len_append, len_append, len_space]
      push_cast at hclose ⊢
      omega

/-- C6 (the code at the failing input): the text consists of a paragraph of 2000
bytes and one of 1000 bytes.  When the second paragraph is read the running
chunk is the first paragraph, which has reached 200 bytes, and appending the
second with its separating space gives 3001 bytes, more than `maxSize` = 3000;
yet the chunk is not closed: `chunkText` returns the two paragraphs as a single
chunk of 3001 bytes, because the test adds up the two lengths (3000, not more
than `maxSize`) without the separator. -/
theorem chunkText_separator_not_counted :
    (len (twoParagraphs 2000 1000) : Int) > 3000 ∧
    splitByParagraphs (twoParagraphs 2000 1000)
      = [String.mk (List.replicate 2000 'a'), String.mk (List.replicate 1000 'b')] ∧
    chunkTextLoop 3000 ([], "") [String.mk (List.replicate 2000 'a')]
      = ([], String.mk (List.replicate 2000 'a')) ∧
    200 ≤ len (String.mk (List.replicate 2000 'a')) ∧
    (len (String.mk (List.replicate 2000 'a') ++ " " ++ String.mk (List.replicate 1000 'b')) : Int)
      > 3000 ∧
    chunkText (twoParagraphs 2000 1000) 3000
      = [String.mk (List.replicate 2000 'a') ++ " " ++ String.mk (List.replicate 1000 'b')] := by
  have hla : len (String.mk (List.replicate 2000 'a')) = 2000 := len_replicate 2000 'a' rfl
  have hlb : len (String.mk (List.replicate 1000 'b')) = 1000 := len_replicate 1000 'b' rfl
  refine ⟨?_, splitByParagraphs_twoParagraphs 2000 1000 (by omega) (by omega), ?_, ?_, ?_,
    chunkText_twoParagraphs_joined 2000 1000 3000 (by omega) (by omega) (by norm_num)
      (by omega)⟩
  · rw [len_twoParagraphs]; norm_num
  · generalize String.mk (List.replicate 2000 'a') = first at hla
    simp [chunkTextLoop, chunkTextStep, hla, len_empty, minChunkSize]
  · rw [hla]; omega
  · rw [len_append, len_append, hla, hlb, len_space]; norm_num

/-! ## The text cleaner -/

theorem thenMatches_nil (next : Option Char → List Char → List (List Char × Captures))
    (prev : Option Char) (s : List Char) :
    thenMatches [] next prev s = [] := rfl

theorem thenMatches_eq_nil_of_next (first : List (List Char × Captures))
    (next : Option Char → List Char → List (List Char × Captures))
    (prev : Option Char) (s : List Char)
    (h : ∀ (p : Option Char) (n : Nat), next p (s.drop n) = []) :
    thenMatches first next prev s = [] := by
  induction first with
  | nil => rfl
  | cons m rest ih =>
    simp only [thenMatches, List.flatMap_cons] at ih ⊢
    rw [ih, h]
    rfl

theorem CharClass.test_singletons (S : Char → Bool) (k : CharClass) (d : Char)
    (hk : (!k.negated && k.ranges.all (fun r => decide (r.1 = r.2) && S r.1)) = true)
    (hd : k.test d = true) : S d = true := by
  simp only [Bool.and_eq_true, Bool.not_eq_true', List.all_eq_true, decide_eq_true_eq] at hk
  obtain ⟨hneg, hall⟩ := hk
  simp only [CharClass.test, hneg] at hd
  have hany : (k.ranges.any (fun r => decide (r.1.toNat ≤ d.toNat) && decide (d.toNat ≤ r.2.toNat)))
      = true := by simpa using hd
  obtain ⟨r, hr, hb⟩ := List.any_eq_true.mp hany
  simp only [Bool.and_eq_true, decide_eq_true_eq] at hb
  obtain ⟨heq, hS⟩ := hall r hr
  have hnat : d.toNat = r.1.toNat := by
    have := hb.2
    rw [← heq] at this
    omega
  have : d = r.1 := by
    rw [← Char.ofNat_toNat d, ← Char.ofNat_toNat r.1, hnat]
  rw [this]; exact hS

/-- A pattern that needs a character of `S` has no match in a text without one. -/
theorem matchesFrom_eq_nil (S : Char → Bool) (re : Regex) (hre : re.needs S = true) :
    ∀ (prev : Option Char) (s : List Char), (∀ c ∈ s, S c = false) →
      matchesFrom re prev s = [] := by
  induction re with
  | empty => simp [Regex.needs] at hre
  | lit c =>
    intro prev s hs
    cases s with
    | nil => rfl
    | cons d rest =>
      have hd : S d = false := hs d (by simp)
      have hne : d ≠ c := by
        intro h; subst h
        simp only [Regex.needs] at hre
        rw [hre] at hd; cases hd
      simp [matchesFrom, hne]
  | cls k =>
    intro prev s hs
    cases s with
    | nil => rfl
    | cons d rest =>
      have hd : S d = false := hs d (by simp)
      have hne : k.test d = false := by
        cases ht : k.test d with
        | false => rfl
        | true =>
          have := CharClass.test_singletons S k d hre ht
          rw [this] at hd; cases hd
      simp [matchesFrom, hne]
  | wordBoundary => simp [Regex.needs] at hre
  | seq a b iha ihb =>
    intro prev s hs
    simp only [Regex.needs, Bool.or_eq_true] at hre
    simp only [matchesFrom]
    rcases hre with ha | hb
    · rw [iha ha prev s hs]; rfl
    · apply thenMatches_eq_nil_of_next
      intro p n
      exact ihb hb p _ (fun c hc => hs c (List.mem_of_mem_drop hc))
  | alt a b iha ihb =>
    intro prev s hs
    simp only [Regex.needs, Bool.and_eq_true] at hre
    simp [matchesFrom, iha hre.1 prev s hs, ihb hre.2 prev s hs]
  | opt r _ => simp [Regex.needs] at hre
  | star r _ => simp [Regex.needs] at hre
  | plus r ih =>
    intro prev s hs
    simp only [Regex.needs] at hre
    simp only [matchesFrom]
    rw [ih hre prev s hs]; rfl
  | plusLazy r ih =>
    intro prev s hs
    simp only [Regex.needs] at hre
    simp only [matchesFrom]
    rw [ih hre prev s hs]; rfl
  | group n r ih =>
    intro prev s hs
    simp only [Regex.needs] at hre
    simp [matchesFrom, ih hre prev s hs]

/-- Replacing the matches of such a pattern leaves such a text as it is. -/
theorem replaceAllLoop_unchanged (S : Char → Bool) (re : Regex) (hre : re.needs S = true)
    (repl : List Char) :
    ∀ (s : List Char) (prev : Option Char) (afterMatch : Bool), (∀ c ∈ s, S c = false) →
      replaceAllLoop re repl prev s 0 afterMatch = s := by
  intro s
  induction s with
  | nil =>
    intro prev afterMatch hs
    simp [replaceAllLoop, firstMatch, matchesFrom_eq_nil S re hre prev [] hs]
  | cons c cs ih =>
    intro prev afterMatch hs
    have hnone : firstMatch re prev (c :: cs) = none := by
      simp [firstMatch, matchesFrom_eq_nil S re hre prev (c :: cs) hs]
    simp only [replaceAllLoop, hnone]
    rw [ih (some c) false (fun d hd => hs d (List.mem_cons_of_mem c hd))]

theorem replaceAllString_unchanged (S : Char → Bool) (re : Regex) (hre : re.needs S = true)
    (src repl : String) (hs : ∀ c ∈ src.data, S c = false) :
    replaceAllString re src repl = src := by
  simp only [replaceAllString, replaceAllLoop_unchanged S re hre repl.data src.data none false hs]

theorem space_test_of_not_unicodeIsSpace (d : Char) (h : unicodeIsSpace d = false) :
    space.test d = false := by
  cases ht : space.test d with
  | false => rfl
  | true =>
    have := CharClass.test_singletons unicodeIsSpace space d (by decide) ht
    rw [this] at h; cases h

theorem unicodeIsSpace_space : unicodeIsSpace ' ' = true := by decide

theorem firstMatch_re18_none (prev : Option Char) (s : List Char)
    (h : ∀ c, s.head? = some c → space.test c = false) :
    firstMatch re18 prev s = none := by
  cases s with
  | nil => rfl
  | cons c rest =>
    have hc : space.test c = false := h c rfl
    simp [firstMatch, re18, matchesFrom, hc, thenMatches]

theorem firstMatch_re18_single (prev : Option Char) (d : Char) (rest : List Char)
    (hd : space.test d = false) :
    firstMatch re18 prev (' ' :: d :: rest) = some ([' '], [(0, [' '])]) := by
  have hs : space.test ' ' = true := by decide
  simp [firstMatch, re18, matchesFrom, hs, hd, thenMatches, starMatches, prevAfter]


theorem tidySpacing_tail (c : Char) (cs : List Char) (h : tidySpacing (c :: cs) = true) :
    tidySpacing cs = true := by
  cases cs with
  | nil => rfl
  | cons d rest =>
    simp only [tidySpacing, Bool.and_eq_true] at h
    exact h.2

/-- The first character of a tidy text is a space followed by an ordinary
character, or is not white space. -/
theorem tidySpacing_head (c : Char) (cs : List Char) (h : tidySpacing (c :: cs) = true) :
    (c = ' ' ∧ ∃ d rest, cs = d :: rest ∧ unicodeIsSpace d = false ∧
      d ≠ '.' ∧ d ≠ ',' ∧ d ≠ ';' ∧ d ≠ ':') ∨
    (c ≠ ' ' ∧ unicodeIsSpace c = false) := by
  cases cs with
  | nil =>
    simp only [tidySpacing, Bool.not_eq_true'] at h
    right
    refine ⟨?_, h⟩
    intro hc; subst hc
    rw [unicodeIsSpace_space] at h; cases h
  | cons d rest =>
    simp only [tidySpacing, Bool.and_eq_true] at h
    by_cases hc : c = ' '
    · left
      simp only [hc, if_true, Bool.and_eq_true, Bool.not_eq_true', Bool.or_eq_false_iff,
        beq_eq_false_iff_ne, ne_eq] at h
      exact ⟨hc, d, rest, rfl, h.1.1, h.1.2.1.1.1, h.1.2.1.1.2, h.1.2.1.2, h.1.2.2⟩
    · right
      simp only [hc, if_false, Bool.not_eq_true'] at h
      exact ⟨hc, h.1⟩

theorem replaceAllLoop_re18_tidy :
    ∀ (s : List Char) (prev : Option Char) (afterMatch : Bool), tidySpacing s = true →
      replaceAllLoop re18 [' '] prev s 0 afterMatch = s := by
  intro s
  induction s with
  | nil =>
    intro prev afterMatch _
    simp [replaceAllLoop, firstMatch_re18_none prev [] (by simp)]
  | cons c cs ih =>
    intro prev afterMatch h
    have htail := tidySpacing_tail c cs h
    rcases tidySpacing_head c cs h with ⟨hc, d, rest, hcs, hd, _⟩ | ⟨_, hc⟩
    · subst hc; subst hcs
      have hm := firstMatch_re18_single prev d rest (space_test_of_not_unicodeIsSpace d hd)
      rw [replaceAllLoop, hm]
      show expandTemplate [(0, [' '])] ([' '].length + 1) [' ']
          ++ replaceAllLoop re18 [' '] (some ' ') (d :: rest) ([] : List Char).length true
        = ' ' :: d :: rest
      rw [List.length_nil, ih (some ' ') true htail]
      rfl
    · have hm := firstMatch_re18_none prev (c :: cs)
        (by intro e he; simp at he; subst he; exact space_test_of_not_unicodeIsSpace c hc)
      rw [replaceAllLoop, hm]
      show c :: replaceAllLoop re18 [' '] (some c) cs 0 false = c :: cs
      rw [ih (some c) false htail]

theorem stringsReplaceAllLoop_tidy (p : Char) (new : List Char)
    (hp : p = '.' ∨ p = ',' ∨ p = ';' ∨ p = ':') :
    ∀ (s : List Char), tidySpacing s = true →
      stringsReplaceAllLoop [' ', p] new s 0 = s := by
  intro s
  induction s with
  | nil => intro _; rfl
  | cons c cs ih =>
    intro h
    have htail := tidySpacing_tail c cs h
    have hstart : startsWith (c :: cs) [' ', p] = false := by
      rcases tidySpacing_head c cs h with ⟨hc, d, rest, hcs, _, h1, h2, h3, h4⟩ | ⟨hc, _⟩
      · subst hc; subst hcs
        have hdp : d ≠ p := by
          rcases hp with rfl | rfl | rfl | rfl <;> assumption
        simp [startsWith, hdp]
      · simp [startsWith, hc]
    simp only [stringsReplaceAllLoop, hstart]
    rw [ih htail]
    simp

theorem tidySpacing_last : ∀ (s : List Char), tidySpacing s = true →
    ∀ c, s.getLast? = some c → unicodeIsSpace c = false := by
  intro s
  induction s with
  | nil => intro _ c hc; simp at hc
  | cons a rest ih =>
    intro h c hc
    cases rest with
    | nil =>
      simp only [List.getLast?_singleton, Option.some.injEq] at hc
      subst hc
      simpa [tidySpacing] using h
    | cons d rest2 =>
      have hc2 : (d :: rest2).getLast? = some c := by
        simpa [List.getLast?_cons_cons] using hc
      exact ih (tidySpacing_tail a _ h) c hc2

theorem dropWhile_head (p : Char → Bool) (l : List Char)
    (h : ∀ c, l.head? = some c → p c = false) : l.dropWhile p = l := by
  cases l with
  | nil => rfl
  | cons c cs => simp [List.dropWhile, h c rfl]

theorem stringsTrimSpace_tidy (x : String) (h : isTidy x = true) : stringsTrimSpace x = x := by
  simp only [isTidy, Bool.and_eq_true] at h
  obtain ⟨hhead, hsp⟩ := h
  have h1 : x.data.dropWhile unicodeIsSpace = x.data := by
    apply dropWhile_head
    intro c hc
    cases hx : x.data with
    | nil => rw [hx] at hc; simp at hc
    | cons d rest =>
      rw [hx] at hc hhead
      simp only [List.head?_cons, Option.some.injEq] at hc
      subst hc
      simpa using hhead
  have h2 : x.data.reverse.dropWhile unicodeIsSpace = x.data.reverse := by
    apply dropWhile_head
    intro c hc
    rw [List.head?_reverse] at hc
    exact tidySpacing_last x.data hsp c hc
  unfold stringsTrimSpace
  rw [h1, h2, List.reverse_reverse]

/-- A tidy text without any trigger character is returned unchanged by
`CleanPDFText`. -/
theorem cleanPDFText_unchanged (x : String) (h : ∀ c ∈ x.data, isRepairTrigger c = false)
    (ht : isTidy x = true) : CleanPDFText x = x := by
  have hre : ∀ (re : Regex), re.needs isRepairTrigger = true → ∀ (repl : String),
      replaceAllString re x repl = x :=
    fun re hre repl => replaceAllString_unchanged isRepairTrigger re hre x repl h
  have hsp : tidySpacing x.data = true := by
    simp only [isTidy, Bool.and_eq_true] at ht
    exact ht.2
  have hold : ∀ (p : Char) (new : String), (p = '.' ∨ p = ',' ∨ p = ';' ∨ p = ':') →
      stringsReplaceAll x (String.mk [' ', p]) new = x := by
    intro p new hp
    simp only [stringsReplaceAll, stringsReplaceAllLoop_tidy p new.data hp x.data hsp]
  have htrim : stringsTrimSpace x = x := stringsTrimSpace_tidy x ht
  have e1 := hre re1 (by decide) "$1 $2"
  have e2 := hre re2 (by decide) "$1 $2"
  have e2b := hre re2b (by decide) "$1 $2"
  have e2c := hre re2c (by decide) "$1 $2"
  have e3 := hre re3 (by decide) "$1. $2"
  have e4 := hre re4 (by decide) "$1 $2"
  have e5 := hre (reWord "the") (by decide) "the "
  have e6 := hre (reWord "and") (by decide) "and "
  have e7 := hre (reWord "to") (by decide) "to "
  have e8 := hre (reWord "of") (by decide) "of "
  have e9 := hre (reWord "in") (by decide) "in "
  have e10 := hre (reWord "for") (by decide) "for "
  have e11 := hre (reWord "with") (by decide) "with "
  have e12 := hre (reWord "from") (by decide) "from "
  have e13 := hre re13 (by decide) "$1, $2"
  have e14 := hre re14 (by decide) ""
  have e15 := hre re15 (by decide) ""
  have e16 := hre re16 (by decide) ""
  have e17 := hre re17 (by decide) ""
  have e18 : replaceAllString re18 x " " = x := by
    simp only [replaceAllString]
    exact congrArg String.mk (replaceAllLoop_re18_tidy x.data none false hsp)
  have p1 : stringsReplaceAll x " ." "." = x := hold '.' "." (by simp)
  have p2 : stringsReplaceAll x " ," "," = x := hold ',' "," (by simp)
  have p3 : stringsReplaceAll x " ;" ";" = x := hold ';' ";" (by simp)
  have p4 : stringsReplaceAll x " :" ":" = x := hold ':' ":" (by simp)
  simp only [CleanPDFText, e1, e2, e2b, e2c, e3, e4, e5, e6, e7, e8, e9, e10, e11, e12, e13,
    e14, e15, e16, e17, e18, p1, p2, p3, p4, htrim]

/-- C7 (as stated, refuted): `CleanPDFText` is not idempotent.  On "a ,b" the
space before the comma is removed by the last stage, after the stage that puts
a space behind a comma between two letters has run: the result "a,b" is changed
to "a, b" by a second application. -/
theorem cleanPDFText_not_idempotent :
    CleanPDFText "a ,b" = "a,b" ∧ CleanPDFText (CleanPDFText "a ,b") = "a, b" ∧
    ¬ (∀ x : String, CleanPDFText (CleanPDFText x) = CleanPDFText x) := by
  have h1 : CleanPDFText "a ,b" = "a,b" := by decide
  have h2 : CleanPDFText "a,b" = "a, b" := by decide
  refine ⟨h1, by rw [h1, h2], ?_⟩
  intro hall
  have := hall "a ,b"
  rw [h1, h2] at this
  exact absurd this (by decide)

/-! ## The study service -/

theorem getByID_ok (w : World) (id : Int) (doc : Document)
    (h : (DocumentRepository.GetByID w id).1 = .ok doc) :
    w.dbFault .getDocument = none ∧
    w.documents.find? (fun d => decide (d.ID = id) && !d.IsDeleted) = some doc := by
  unfold DocumentRepository.GetByID at h
  cases hf : w.dbFault .getDocument with
  | some e => simp [hf] at h
  | none =>
    cases hd : w.documents.find? (fun d => decide (d.ID = id) && !d.IsDeleted) with
    | none => simp [hf, hd] at h
    | some d =>
      simp [hf, hd] at h
      exact ⟨rfl, by rw [h]⟩

/-- C8: when the document exists and its owning session differs from the
session of the request, `StudyService.GenerateSummary` fails with the
unauthorized error; the only action is the document query, so there is no
page-range validation, no cache read or write, no extraction and no remote call,
and no record is persisted. -/
theorem studyGenerateSummary_unauthorized (s : StudyService) (w : World)
    (req : GenerateSummaryRequest) (doc : Document)
    (hdoc : (DocumentRepository.GetByID w req.DocumentID).1 = .ok doc)
    (hsession : doc.SessionID ≠ req.SessionID) :
    (s.GenerateSummary w req).1 = .returned (.error "unauthorized access to document") ∧
    (s.GenerateSummary w req).2.trace = w.trace ++ [Event.queryDocument req.DocumentID] ∧
    (s.GenerateSummary w req).2.posts = w.posts ∧
    (s.GenerateSummary w req).2.generated = w.generated ∧
    (s.GenerateSummary w req).2.extracted = w.extracted := by
  obtain ⟨hf, hd⟩ := getByID_ok w req.DocumentID doc hdoc
  simp [StudyService.GenerateSummary, DocumentRepository.GetByID, World.now, World.emit, hf, hd,
    hsession]

/-- Witness of C8: session B asks for a summary of the document of session A. -/
theorem studyGenerateSummary_unauthorized_witness :
    (DocumentRepository.GetByID libraryWorld 1).1 = .ok sampleDocument ∧
    sampleDocument.SessionID ≠ "session-B" ∧
    ((StudyService.mk sampleClient).GenerateSummary libraryWorld
      ⟨"session-B", 1, 1, 2, "graduate"⟩).2.trace = [Event.queryDocument 1] :=
  ⟨rfl, by decide,
    (studyGenerateSummary_unauthorized (StudyService.mk sampleClient) libraryWorld
      ⟨"session-B", 1, 1, 2, "graduate"⟩ sampleDocument rfl (by decide)).2.1⟩

/-- C9: for a readable document of n pages owned by the requester,
`ValidatePageRange` accepts (start, end) exactly when 1 ≤ start ≤ end ≤ n; and
for every rejected range `StudyService.GenerateSummary` fails with the error of
`ValidatePageRange`, its only actions being the document query and possibly the
opening of the file for the page count: no cache lookup, no extraction, no
remote call, and nothing persisted. -/
theorem studyGenerateSummary_invalid_range (s : StudyService) (w : World)
    (req : GenerateSummaryRequest) (doc : Document) (file : PdfFile)
    (hdoc : (DocumentRepository.GetByID w req.DocumentID).1 = .ok doc)
    (hown : doc.SessionID = req.SessionID)
    (hfile : w.pdfOpen doc.FilePath = .ok file) :
    (∀ (startPage endPage : Int),
      (Extractor.ValidatePageRange w doc.FilePath startPage endPage).1 = none
        ↔ 1 ≤ startPage ∧ startPage ≤ endPage ∧ endPage ≤ file.NumPage) ∧
    (¬ (1 ≤ req.PageStart ∧ req.PageStart ≤ req.PageEnd ∧ req.PageEnd ≤ file.NumPage) →
      ∃ (err : String) (actions : List Event),
        (Extractor.ValidatePageRange w doc.FilePath req.PageStart req.PageEnd).1 = some err ∧
        (s.GenerateSummary w req).1 = .returned (.error err) ∧
        (s.GenerateSummary w req).2.trace = w.trace ++ actions ∧
        (∀ e ∈ actions, e = Event.queryDocument req.DocumentID ∨ e = Event.openPdf doc.FilePath) ∧
        (s.GenerateSummary w req).2.posts = w.posts ∧
        (s.GenerateSummary w req).2.generated = w.generated ∧
        (s.GenerateSummary w req).2.extracted = w.extracted) := by
  obtain ⟨hf, hd⟩ := getByID_ok w req.DocumentID doc hdoc
  constructor
  · intro a b
    unfold Extractor.ValidatePageRange
    by_cases h1 : a < 1
    · simp [h1]
    · by_cases h2 : b < a
      · simp [h1, h2]
      · by_cases h3 : b > file.NumPage
        · simp [h1, h2, hfile, h3]
        · simp [h1, h2, hfile, h3]; omega
  · intro hbad
    by_cases h1 : req.PageStart < 1
    · refine ⟨"start page must be at least 1", [Event.queryDocument req.DocumentID], ?_⟩
      simp [StudyService.GenerateSummary, DocumentRepository.GetByID, World.now, World.emit, hf,
        hd, hown, PDFService.ValidatePageRange, Extractor.ValidatePageRange, h1]
    · by_cases h2 : req.PageEnd < req.PageStart
      · refine ⟨"end page must be greater than or equal to start page",
          [Event.queryDocument req.DocumentID], ?_⟩
        simp [StudyService.GenerateSummary, DocumentRepository.GetByID, World.now, World.emit, hf,
          hd, hown, PDFService.ValidatePageRange, Extractor.ValidatePageRange, h1, h2]
      · have h3 : req.PageEnd > file.NumPage := by omega
        refine ⟨"end page " ++ toString req.PageEnd ++ " exceeds document pages "
            ++ toString file.NumPage,
          [Event.queryDocument req.DocumentID, Event.openPdf doc.FilePath], ?_⟩
        simp [StudyService.GenerateSummary, DocumentRepository.GetByID, World.now, World.emit, hf,
          hd, hown, PDFService.ValidatePageRange, Extractor.ValidatePageRange, h1, h2, hfile, h3]

/-- Witness of C9: the owner asks for pages 5 to 3 of the three-page document. -/
theorem studyGenerateSummary_invalid_range_witness :
    (DocumentRepository.GetByID libraryWorld 1).1 = .ok sampleDocument ∧
    sampleDocument.SessionID = "session-A" ∧
    libraryWorld.pdfOpen sampleDocument.FilePath = .ok samplePdf ∧
    ((Extractor.ValidatePageRange libraryWorld sampleDocument.FilePath 5 3).1 = none
      ↔ (1 : Int) ≤ 5 ∧ (5 : Int) ≤ 3 ∧ (3 : Int) ≤ samplePdf.NumPage) :=
  ⟨rfl, rfl, rfl,
    (studyGenerateSummary_invalid_range (StudyService.mk sampleClient) libraryWorld
      ⟨"session-A", 1, 5, 3, "graduate"⟩ sampleDocument samplePdf rfl rfl rfl).1 5 3⟩

theorem find_of_nodup_ids (l : List GeneratedContent) (stored : GeneratedContent)
    (hids : (l.map (fun g => g.ID)).Nodup) (hmem : stored ∈ l) :
    l.find? (fun g => decide (g.ID = stored.ID)) = some stored := by
  induction l with
  | nil => simp at hmem
  | cons g rest ih =>
    simp only [List.map_cons, List.nodup_cons] at hids
    rcases List.mem_cons.mp hmem with h | h
    · subst h; simp
    · have hne : g.ID ≠ stored.ID := by
        intro heq
        exact hids.1 (heq ▸ List.mem_map_of_mem (fun g => g.ID) h)
      simp [List.find?, hne, ih hids.2 h]

/-- C10: with an operational store whose records have distinct identifiers,
`StudyService.GetGeneratedContent` fails with not-found when no record has the
identifier, fails with the unauthorized error when the stored record belongs to
another session, and otherwise returns the stored record itself, every field
unchanged; its only action is the query for the record: no extraction, no
remote call, and no table is written. -/
theorem getGeneratedContent_spec (w : World) (contentID : Int) (sessionID : String)
    (hdb : w.dbFault .getGenerated = none)
    (hids : (w.generated.map (fun g => g.ID)).Nodup) :
    ((∀ g ∈ w.generated, g.ID ≠ contentID) →
      (StudyService.GetGeneratedContent w contentID sessionID).1 = .error "content not found") ∧
    (∀ stored ∈ w.generated, stored.ID = contentID → stored.SessionID ≠ sessionID →
      (StudyService.GetGeneratedContent w contentID sessionID).1
        = .error "unauthorized access to content") ∧
    (∀ stored ∈ w.generated, stored.ID = contentID → stored.SessionID = sessionID →
      (StudyService.GetGeneratedContent w contentID sessionID).1 = .ok stored) ∧
    (StudyService.GetGeneratedContent w contentID sessionID).2.trace
      = w.trace ++ [Event.queryGenerated contentID] ∧
    (StudyService.GetGeneratedContent w contentID sessionID).2.posts = w.posts ∧
    (StudyService.GetGeneratedContent w contentID sessionID).2.documents = w.documents ∧
    (StudyService.GetGeneratedContent w contentID sessionID).2.generated = w.generated ∧
    (StudyService.GetGeneratedContent w contentID sessionID).2.extracted = w.extracted := by
  refine ⟨?_, ?_, ?_, ?_⟩
  · intro hnone
    have hfind : w.generated.find? (fun g => decide (g.ID = contentID)) = none := by
      rw [List.find?_eq_none]
      intro g hg
      simpa using hnone g hg
    simp [StudyService.GetGeneratedContent, ContentRepository.GetGeneratedByID, hdb, hfind]
  · intro stored hmem hid hsession
    have hfind := find_of_nodup_ids w.generated stored hids hmem
    rw [hid] at hfind
    simp [StudyService.GetGeneratedContent, ContentRepository.GetGeneratedByID, hdb, hfind,
      hsession]
  · intro stored hmem hid hsession
    have hfind := find_of_nodup_ids w.generated stored hids hmem
    rw [hid] at hfind
    simp [StudyService.GetGeneratedContent, ContentRepository.GetGeneratedByID, hdb, hfind,
      hsession]
  · cases hfind : w.generated.find? (fun g => decide (g.ID = contentID)) with
    | none =>
      simp [StudyService.GetGeneratedContent, ContentRepository.GetGeneratedByID, hdb, hfind,
        World.emit]
    | some stored =>
      by_cases hsession : stored.SessionID = sessionID
      · simp [StudyService.GetGeneratedContent, ContentRepository.GetGeneratedByID, hdb, hfind,
          World.emit, hsession]
      · simp [StudyService.GetGeneratedContent, ContentRepository.GetGeneratedByID, hdb, hfind,
          World.emit, hsession]

/-- Witness of C10: session B asks for the summary of session A. -/
theorem getGeneratedContent_spec_witness :
    libraryWorld.dbFault .getGenerated = none ∧
    (libraryWorld.generated.map (fun g => g.ID)).Nodup ∧
    (StudyService.GetGeneratedContent libraryWorld 7 "session-B").1
      = .error "unauthorized access to content" ∧
    (StudyService.GetGeneratedContent libraryWorld 7 "session-A").1 = .ok sampleContent :=
  ⟨rfl, by decide,
    (getGeneratedContent_spec libraryWorld 7 "session-B" rfl (by decide)).2.1
      sampleContent (by decide) rfl (by decide),
    (getGeneratedContent_spec libraryWorld 7 "session-A" rfl (by decide)).2.2.1
      sampleContent (by decide) rfl rfl⟩

/-! ## The prompt builder -/

/-- C14: `buildEducationalPrompt text level` is an instruction that depends only
on the level, followed by the text verbatim; the instruction ends with a single
space, the three recognized levels have three different instructions, and every
other level, the empty one included, has one and the same generic instruction
(different from those three). -/
theorem buildEducationalPrompt_spec :
    ∃ instruction : String → String,
      (∀ text level : String, buildEducationalPrompt text level = instruction level ++ text) ∧
      (∀ level : String, endsWithSingleSpace (instruction level) = true) ∧
      instruction "high_school" ≠ instruction "undergraduate" ∧
      instruction "high_school" ≠ instruction "graduate" ∧
      instruction "undergraduate" ≠ instruction "graduate" ∧
      (∀ level : String, level ≠ "high_school" → level ≠ "undergraduate" →
        level ≠ "graduate" → instruction level = instruction "") ∧
      instruction "" ≠ instruction "high_school" ∧
      instruction "" ≠ instruction "undergraduate" ∧
      instruction "" ≠ instruction "graduate" := by
  refine ⟨fun level => buildEducationalPrompt "" level, ?_, ?_, by decide, by decide, by decide,
    ?_, by decide, by decide, by decide⟩
  · intro text level
    simp only [buildEducationalPrompt, String.append_empty]
  · intro level
    show endsWithSingleSpace (buildEducationalPrompt "" level) = true
    by_cases h1 : level = "high_school"
    · subst h1; decide
    · by_cases h2 : level = "undergraduate"
      · subst h2; decide
      · by_cases h3 : level = "graduate"
        · subst h3; decide
        · have : buildEducationalPrompt "" level = buildEducationalPrompt "" "" := by
            simp [buildEducationalPrompt, h1, h2, h3]
          rw [this]; decide
  · intro level h1 h2 h3
    simp [buildEducationalPrompt, h1, h2, h3]

/-! ## The extractor and the extraction cache -/

/-- The result of the raw extractor depends on the world only through the files. -/
theorem extractor_result_congr (w w2 : World) (filePath : String) (startPage endPage : Int)
    (h : w2.pdfOpen = w.pdfOpen) :
    (Extractor.ExtractText w2 filePath startPage endPage).1
      = (Extractor.ExtractText w filePath startPage endPage).1 := by
  unfold Extractor.ExtractText
  rw [h]
  by_cases hr : startPage < 1 ∨ endPage < startPage
  · simp only [hr, if_true]
  · simp only [hr, if_false]
    cases w.pdfOpen filePath with
    | error e => rfl
    | ok r =>
      by_cases hn : endPage > r.NumPage
      · simp only [hn, if_true]
      · simp only [hn, if_false]
        cases extractPages r (endPage - startPage + 1).toNat startPage "" with
        | error e => rfl
        | ok result =>
          by_cases ht : stringsTrimSpace result = ""
          · simp only [ht, if_true]
          · simp only [ht, if_false]

/-- The raw extractor changes nothing in the world but the trace, to which it
adds at most the opening of the file. -/
theorem extractor_world (w : World) (filePath : String) (startPage endPage : Int) :
    (Extractor.ExtractText w filePath startPage endPage).2 = w ∨
    (Extractor.ExtractText w filePath startPage endPage).2 = w.emit (.openPdf filePath) := by
  unfold Extractor.ExtractText
  by_cases hr : startPage < 1 ∨ endPage < startPage
  · left; simp only [hr, if_true]
  · right
    simp only [hr, if_false]
    cases w.pdfOpen filePath with
    | error e => rfl
    | ok r =>
      by_cases hn : endPage > r.NumPage
      · simp only [hn, if_true]
      · simp only [hn, if_false]
        cases extractPages r (endPage - startPage + 1).toNat startPage "" with
        | error e => rfl
        | ok result =>
          by_cases ht : stringsTrimSpace result = ""
          · simp only [ht, if_true]
          · simp only [ht, if_false]

/-- The world in which `PDFService.ExtractText` looks the key up: the clock has
been read once. -/
theorem pdfExtract_lookup_error (w : World) (documentID : Int) (filePath : String)
    (startPage endPage : Int) (err : String) (hf : w.dbFault .getExtracted = some err) :
    PDFService.ExtractText w documentID filePath startPage endPage
      = (("", 0, some ("cache lookup failed: " ++ ("failed to get extracted content: " ++ err))),
          { w with clockReads := w.clockReads + 1,
                   trace := w.trace ++ [Event.queryExtracted documentID startPage endPage] }) := by
  simp only [PDFService.ExtractText, ContentRepository.GetExtracted, World.now, World.emit, hf]

theorem pdfExtract_hit (w : World) (documentID : Int) (filePath : String)
    (startPage endPage : Int) (row : ExtractedContent)
    (hf : w.dbFault .getExtracted = none)
    (hrow : w.extracted.find? (fun e => e.hasKey documentID startPage endPage) = some row) :
    PDFService.ExtractText w documentID filePath startPage endPage
      = ((row.Content, row.ExtractionTime, none),
          { w with clockReads := w.clockReads + 1,
                   trace := w.trace ++ [Event.queryExtracted documentID startPage endPage] }) := by
  simp only [PDFService.ExtractText, ContentRepository.GetExtracted, World.now, World.emit, hf,
    hrow]

/-- The world in which the raw extractor runs after a cache miss. -/
theorem pdfExtract_miss_failure (w : World) (documentID : Int) (filePath : String)
    (startPage endPage : Int) (err : String)
    (hf : w.dbFault .getExtracted = none)
    (hrow : w.extracted.find? (fun e => e.hasKey documentID startPage endPage) = none)
    (hx : (Extractor.ExtractText w filePath startPage endPage).1.2 = some err) :
    (PDFService.ExtractText w documentID filePath startPage endPage).1 = ("", 0, some err) ∧
    (PDFService.ExtractText w documentID filePath startPage endPage).2
      = (Extractor.ExtractText
          { w with clockReads := w.clockReads + 1,
                   trace := w.trace ++ [Event.queryExtracted documentID startPage endPage] }
          filePath startPage endPage).2 := by
  have hx2 : (Extractor.ExtractText
      { w with clockReads := w.clockReads + 1,
               trace := w.trace ++ [Event.queryExtracted documentID startPage endPage] }
      filePath startPage endPage).1.2 = some err := by
    rw [extractor_result_congr w
      { w with clockReads := w.clockReads + 1,
               trace := w.trace ++ [Event.queryExtracted documentID startPage endPage] }
      filePath startPage endPage rfl]
    exact hx
  simp only [PDFService.ExtractText, ContentRepository.GetExtracted, World.now, World.emit, hf,
    hrow, hx2, and_self]

theorem pdfExtract_miss_success (w : World) (documentID : Int) (filePath : String)
    (startPage endPage : Int)
    (hf : w.dbFault .getExtracted = none)
    (hrow : w.extracted.find? (fun e => e.hasKey documentID startPage endPage) = none)
    (hx : (Extractor.ExtractText w filePath startPage endPage).1.2 = none) :
    ∃ (duration created : Int) (w2 : World),
      (PDFService.ExtractText w documentID filePath startPage endPage).1
        = ((Extractor.ExtractText w filePath startPage endPage).1.1, duration, none) ∧
      w2.extracted = w.extracted ∧ w2.dbFault = w.dbFault ∧ w2.generated = w.generated ∧
      (PDFService.ExtractText w documentID filePath startPage endPage).2
        = (ContentRepository.CreateExtracted w2
            { ID := 0, DocumentID := documentID, PageStart := startPage, PageEnd := endPage,
              Content := (Extractor.ExtractText w filePath startPage endPage).1.1,
              ExtractionTime := duration, CreatedAt := created }).2 := by
  have hcongr := extractor_result_congr w
      { w with clockReads := w.clockReads + 1,
               trace := w.trace ++ [Event.queryExtracted documentID startPage endPage] }
      filePath startPage endPage rfl
  have hworld := extractor_world
      { w with clockReads := w.clockReads + 1,
               trace := w.trace ++ [Event.queryExtracted documentID startPage endPage] }
      filePath startPage endPage
  simp only [PDFService.ExtractText, ContentRepository.GetExtracted, World.now, World.emit, hf,
    hrow] at hworld ⊢
  generalize Extractor.ExtractText
      { w with clockReads := w.clockReads + 1,
               trace := w.trace ++ [Event.queryExtracted documentID startPage endPage] }
      filePath startPage endPage = X at hcongr hworld ⊢
  have hx2 : X.1.2 = none := by rw [hcongr]; exact hx
  simp only [hx2, ← hcongr]
  refine ⟨_, _, _, rfl, ?_, ?_, ?_, rfl⟩
  · rcases hworld with h | h <;> rw [h]
  · rcases hworld with h | h <;> rw [h]
  · rcases hworld with h | h <;> rw [h]

/-- C12: on a cache miss, when the raw extractor succeeds with text t,
`PDFService.ExtractText` returns t and no error whatever the outcome of the
cache write, in particular when the write fails (the table is then unchanged);
when the raw extractor fails, its error is returned unchanged, the table is
unchanged, and the only actions are the lookup and possibly the opening of the
file: no cache entry is written. -/
theorem pdfExtractText_miss (w : World) (documentID : Int) (filePath : String)
    (startPage endPage : Int)
    (hlookup : w.dbFault .getExtracted = none)
    (hmiss : w.extracted.find? (fun e => e.hasKey documentID startPage endPage) = none) :
    (∀ t : String, (Extractor.ExtractText w filePath startPage endPage).1 = (t, none) →
      (PDFService.ExtractText w documentID filePath startPage endPage).1.1 = t ∧
      (PDFService.ExtractText w documentID filePath startPage endPage).1.2.2 = none ∧
      (∀ writeError : String, w.dbFault .createExtracted = some writeError →
        (PDFService.ExtractText w documentID filePath startPage endPage).2.extracted
          = w.extracted)) ∧
    (∀ (t err : String), (Extractor.ExtractText w filePath startPage endPage).1 = (t, some err) →
      (PDFService.ExtractText w documentID filePath startPage endPage).1 = ("", 0, some err) ∧
      (PDFService.ExtractText w documentID filePath startPage endPage).2.extracted = w.extracted ∧
      ((PDFService.ExtractText w documentID filePath startPage endPage).2.trace
          = w.trace ++ [Event.queryExtracted documentID startPage endPage] ∨
        (PDFService.ExtractText w documentID filePath startPage endPage).2.trace
          = w.trace ++ [Event.queryExtracted documentID startPage endPage,
              Event.openPdf filePath])) := by
  constructor
  · intro t ht
    have hx : (Extractor.ExtractText w filePath startPage endPage).1.2 = none := by rw [ht]
    obtain ⟨duration, created, w2, hres, hext, hfault, _, hworld⟩ :=
      pdfExtract_miss_success w documentID filePath startPage endPage hlookup hmiss hx
    refine ⟨?_, ?_, ?_⟩
    · rw [hres, ht]
    · rw [hres]
    · intro writeError hwrite
      rw [hworld]
      simp only [ContentRepository.CreateExtracted, World.emit, hfault, hwrite]
      exact hext
  · intro t err ht
    have hx : (Extractor.ExtractText w filePath startPage endPage).1.2 = some err := by rw [ht]
    obtain ⟨hres, hworld⟩ :=
      pdfExtract_miss_failure w documentID filePath startPage endPage err hlookup hmiss hx
    refine ⟨hres, ?_, ?_⟩
    · rw [hworld]
      rcases extractor_world
        { w with clockReads := w.clockReads + 1,
                 trace := w.trace ++ [Event.queryExtracted documentID startPage endPage] }
        filePath startPage endPage with h | h
      · rw [h]
      · rw [h]; rfl
    · rw [hworld]
      rcases extractor_world
        { w with clockReads := w.clockReads + 1,
                 trace := w.trace ++ [Event.queryExtracted documentID startPage endPage] }
        filePath startPage endPage with h | h
      · left; rw [h]
      · right; rw [h]; simp [World.emit]

theorem find_none_any (table : List ExtractedContent) (documentID pageStart pageEnd : Int)
    (h : table.find? (fun e => e.hasKey documentID pageStart pageEnd) = none) :
    table.any (fun e => e.hasKey documentID pageStart pageEnd) = false := by
  rw [List.find?_eq_none] at h
  rw [List.any_eq_false]
  intro e he
  exact h e he

/-- After a write for a key that had no row, the lookup of that key finds the
written content and duration. -/
theorem upsert_new_holds (table : List ExtractedContent) (content : ExtractedContent)
    (h : table.find? (fun e => e.hasKey content.DocumentID content.PageStart content.PageEnd)
      = none) :
    ∃ row, (upsertExtracted table content).find?
        (fun e => e.hasKey content.DocumentID content.PageStart content.PageEnd) = some row ∧
      row.Content = content.Content ∧ row.ExtractionTime = content.ExtractionTime := by
  have hany := find_none_any table _ _ _ h
  refine ⟨{ content with ID := nextRowID (table.map (fun e => e.ID)) }, ?_, rfl, rfl⟩
  simp only [upsertExtracted, hany, Bool.false_eq_true, if_false]
  rw [List.find?_append, h]
  simp [ExtractedContent.hasKey]

/-- A write for a key that had no row leaves the lookup of every key that had
one as it was. -/
theorem upsert_new_preserves (table : List ExtractedContent) (content : ExtractedContent)
    (documentID pageStart pageEnd : Int) (row : ExtractedContent)
    (h : table.find? (fun e => e.hasKey content.DocumentID content.PageStart content.PageEnd)
      = none)
    (hrow : table.find? (fun e => e.hasKey documentID pageStart pageEnd) = some row) :
    (upsertExtracted table content).find? (fun e => e.hasKey documentID pageStart pageEnd)
      = some row := by
  have hany := find_none_any table _ _ _ h
  simp only [upsertExtracted, hany, Bool.false_eq_true, if_false]
  rw [List.find?_append, hrow]
  rfl

/-- A call of `PDFService.ExtractText` leaves every cached key cached with the
same text and duration, whatever the faults of the store during the call. -/
theorem cacheHolds_preserved (w : World) (documentID startPage endPage : Int) (t : String)
    (d : Int) (otherID : Int) (otherPath : String) (otherStart otherEnd : Int)
    (h : cacheHolds w documentID startPage endPage t d) :
    cacheHolds (PDFService.ExtractText w otherID otherPath otherStart otherEnd).2
      documentID startPage endPage t d := by
  obtain ⟨row, hrow, ht, hd⟩ := h
  cases hf : w.dbFault .getExtracted with
  | some err =>
    rw [pdfExtract_lookup_error w otherID otherPath otherStart otherEnd err hf]
    exact ⟨row, hrow, ht, hd⟩
  | none =>
    cases hlook : w.extracted.find? (fun e => e.hasKey otherID otherStart otherEnd) with
    | some other =>
      rw [pdfExtract_hit w _ otherPath _ _ other hf hlook]
      exact ⟨row, hrow, ht, hd⟩
    | none =>
      cases hx : (Extractor.ExtractText w otherPath otherStart otherEnd).1.2 with
      | some err =>
        obtain ⟨_, hworld⟩ := pdfExtract_miss_failure w otherID otherPath otherStart otherEnd
          err hf hlook hx
        rw [hworld]
        rcases extractor_world
          { w with clockReads := w.clockReads + 1,
                   trace := w.trace ++ [Event.queryExtracted otherID otherStart otherEnd] }
          otherPath otherStart otherEnd with h | h <;> rw [h] <;>
          exact ⟨row, hrow, ht, hd⟩
      | none =>
        obtain ⟨duration, created, w2, _, hext, hfault, _, hworld⟩ :=
          pdfExtract_miss_success w otherID otherPath otherStart otherEnd hf hlook hx
        rw [hworld]
        cases hwrite : w.dbFault .createExtracted with
        | some e =>
          simp only [ContentRepository.CreateExtracted, World.emit, hfault, hwrite]
          exact ⟨row, by show w2.extracted.find? _ = some row; rw [hext]; exact hrow, ht, hd⟩
        | none =>
          simp only [ContentRepository.CreateExtracted, World.emit, hfault, hwrite]
          refine ⟨row, ?_, ht, hd⟩
          show (upsertExtracted w2.extracted _).find? _ = some row
          rw [hext]
          exact upsert_new_preserves w.extracted _ documentID startPage endPage row hlook hrow

/-- A sequence of calls of `PDFService.ExtractText`, each under its own faults
of the store, leaves every cached key cached with the same text and duration. -/
theorem cacheHolds_run (calls : List ExtractCall) :
    ∀ (w : World) (documentID startPage endPage : Int) (t : String) (d : Int),
      cacheHolds w documentID startPage endPage t d →
      cacheHolds (runExtractCalls w calls) documentID startPage endPage t d := by
  induction calls with
  | nil => intro w documentID startPage endPage t d h; exact h
  | cons call rest ih =>
    intro w documentID startPage endPage t d h
    exact ih _ documentID startPage endPage t d
      (cacheHolds_preserved { w with dbFault := call.faults } documentID startPage endPage t d
        call.documentID call.filePath call.startPage call.endPage h)

/-- A successful call whose cache write is not refused leaves its result in the
cache. -/
theorem cacheHolds_after_success (w : World) (documentID : Int) (filePath : String)
    (startPage endPage : Int)
    (hok : (PDFService.ExtractText w documentID filePath startPage endPage).1.2.2 = none)
    (hwrite : w.dbFault .createExtracted = none) :
    cacheHolds (PDFService.ExtractText w documentID filePath startPage endPage).2
      documentID startPage endPage
      (PDFService.ExtractText w documentID filePath startPage endPage).1.1
      (PDFService.ExtractText w documentID filePath startPage endPage).1.2.1 := by
  cases hf : w.dbFault .getExtracted with
  | some err =>
    rw [pdfExtract_lookup_error w documentID filePath startPage endPage err hf] at hok
    simp at hok
  | none =>
    cases hlook : w.extracted.find? (fun e => e.hasKey documentID startPage endPage) with
    | some row =>
      rw [pdfExtract_hit w documentID filePath startPage endPage row hf hlook]
      exact ⟨row, hlook, rfl, rfl⟩
    | none =>
      cases hx : (Extractor.ExtractText w filePath startPage endPage).1.2 with
      | some err =>
        obtain ⟨hres, _⟩ := pdfExtract_miss_failure w documentID filePath startPage endPage
          err hf hlook hx
        rw [hres] at hok
        simp at hok
      | none =>
        obtain ⟨duration, created, w2, hres, hext, hfault, _, hworld⟩ :=
          pdfExtract_miss_success w documentID filePath startPage endPage hf hlook hx
        rw [hworld, hres]
        simp only [ContentRepository.CreateExtracted, World.emit, hfault, hwrite]
        show ∃ row, (upsertExtracted w2.extracted _).find? _ = some row ∧ _
        rw [hext]
        exact upsert_new_holds w.extracted
          { ID := 0, DocumentID := documentID, PageStart := startPage, PageEnd := endPage,
            Content := (Extractor.ExtractText w filePath startPage endPage).1.1,
            ExtractionTime := duration, CreatedAt := created } hlook

/-- C11 (as stated, refuted): in a world whose cache writes fail, the first call
for pages 1 to 1 of document 1 succeeds (the failed write is only reported),
and the second call with the identical key opens the file again and returns
another duration (7 instead of 1). -/
theorem pdfExtractText_repeats_after_failed_write :
    (PDFService.ExtractText flakyCacheWorld 1 "uploads/1.pdf" 1 1).1
      = ("--- Page 1 ---\npage 1\n\n", 1, none) ∧
    (PDFService.ExtractText
        (PDFService.ExtractText flakyCacheWorld 1 "uploads/1.pdf" 1 1).2
        1 "uploads/1.pdf" 1 1).1
      = ("--- Page 1 ---\npage 1\n\n", 7, none) ∧
    Event.openPdf "uploads/1.pdf" ∈
      ((PDFService.ExtractText
        (PDFService.ExtractText flakyCacheWorld 1 "uploads/1.pdf" 1 1).2
        1 "uploads/1.pdf" 1 1).2.trace.drop
          (PDFService.ExtractText flakyCacheWorld 1 "uploads/1.pdf" 1 1).2.trace.length) := by
  refine ⟨by decide, by decide, by decide⟩

/-- C11 (amended): after a first call of `PDFService.ExtractText` for a key has
succeeded in a world whose cache write is not refused, take any later call with
the identical key, after any calls of `PDFService.ExtractText` in between, each
under faults of the store of its own, and under any faults of the store at the
time of the later call.  If the store answers the later cache lookup, the later
call returns the text and the duration of the first call and no error; if the
store refuses the lookup with `err`, the later call returns the error
"cache lookup failed: failed to get extracted content: " followed by `err`, with
an empty text and duration 0.  In
both cases its only action is the cache lookup: the raw extractor is not invoked
again. -/
theorem pdfExtractText_cached (w : World) (documentID : Int) (filePath laterPath : String)
    (startPage endPage : Int) (between : List ExtractCall)
    (laterFaults : DbOp → Option String)
    (hok : (PDFService.ExtractText w documentID filePath startPage endPage).1.2.2 = none)
    (hwrite : w.dbFault .createExtracted = none) :
    (laterFaults .getExtracted = none →
      (PDFService.ExtractText
          { runExtractCalls (PDFService.ExtractText w documentID filePath startPage endPage).2
              between with dbFault := laterFaults }
          documentID laterPath startPage endPage).1
        = ((PDFService.ExtractText w documentID filePath startPage endPage).1.1,
            (PDFService.ExtractText w documentID filePath startPage endPage).1.2.1, none)) ∧
    (∀ err : String, laterFaults .getExtracted = some err →
      (PDFService.ExtractText
          { runExtractCalls (PDFService.ExtractText w documentID filePath startPage endPage).2
              between with dbFault := laterFaults }
          documentID laterPath startPage endPage).1
        = ("", 0,
            some ("cache lookup failed: " ++ ("failed to get extracted content: " ++ err)))) ∧
    (PDFService.ExtractText
        { runExtractCalls (PDFService.ExtractText w documentID filePath startPage endPage).2
            between with dbFault := laterFaults }
        documentID laterPath startPage endPage).2.trace
      = (runExtractCalls (PDFService.ExtractText w documentID filePath startPage endPage).2
          between).trace ++ [Event.queryExtracted documentID startPage endPage] := by
  have h1 := cacheHolds_after_success w documentID filePath startPage endPage hok hwrite
  have h2 := cacheHolds_run between _ documentID startPage endPage _ _ h1
  generalize (PDFService.ExtractText w documentID filePath startPage endPage).1.1 = t at h2 ⊢
  generalize (PDFService.ExtractText w documentID filePath startPage endPage).1.2.1 = d at h2 ⊢
  generalize runExtractCalls (PDFService.ExtractText w documentID filePath startPage endPage).2
    between = w2 at h2 ⊢
  obtain ⟨row, hrow, ht, hd⟩ := h2
  cases hf : laterFaults .getExtracted with
  | none =>
    rw [pdfExtract_hit { w2 with dbFault := laterFaults } documentID laterPath startPage endPage
      row hf hrow, ht, hd]
    exact ⟨fun _ => rfl, fun err herr => by simp at herr, rfl⟩
  | some e =>
    rw [pdfExtract_lookup_error { w2 with dbFault := laterFaults } documentID laterPath startPage
      endPage e hf]
    refine ⟨fun hnone => by simp at hnone, fun err herr => ?_, rfl⟩
    simp only [Option.some.injEq] at herr
    rw [herr]

/-- Witness of the amended C11: pages 1 to 1 of the sample document; in between,
a call for pages 2 to 3 and a repetition of the first call under a store that
refuses every statement; the later call under a store that answers. -/
theorem pdfExtractText_cached_witness :
    (PDFService.ExtractText libraryWorld 1 "uploads/1.pdf" 1 1).1.2.2 = none ∧
    libraryWorld.dbFault .createExtracted = none ∧
    (PDFService.ExtractText
        { runExtractCalls (PDFService.ExtractText libraryWorld 1 "uploads/1.pdf" 1 1).2
            [⟨1, "uploads/1.pdf", 2, 3, fun _ => none⟩,
              ⟨1, "uploads/1.pdf", 1, 1, fun _ => some "connection refused"⟩] with
          dbFault := fun _ => none }
        1 "uploads/1.pdf" 1 1).1
      = ((PDFService.ExtractText libraryWorld 1 "uploads/1.pdf" 1 1).1.1,
          (PDFService.ExtractText libraryWorld 1 "uploads/1.pdf" 1 1).1.2.1, none) :=
  ⟨by decide, rfl,
    (pdfExtractText_cached libraryWorld 1 "uploads/1.pdf" "uploads/1.pdf" 1 1
      [⟨1, "uploads/1.pdf", 2, 3, fun _ => none⟩,
        ⟨1, "uploads/1.pdf", 1, 1, fun _ => some "connection refused"⟩]
      (fun _ => none) (by decide) rfl).1 rfl⟩

/-- Witness of C12: the first extraction of page 1 in a world whose cache writes
fail. -/
theorem pdfExtractText_miss_witness :
    flakyCacheWorld.dbFault .getExtracted = none ∧
    flakyCacheWorld.extracted.find? (fun e => e.hasKey 1 1 1) = none ∧
    (PDFService.ExtractText flakyCacheWorld 1 "uploads/1.pdf" 1 1).1.1
      = "--- Page 1 ---\npage 1\n\n" :=
  ⟨rfl, rfl,
    ((pdfExtractText_miss flakyCacheWorld 1 "uploads/1.pdf" 1 1 rfl rfl).1
      "--- Page 1 ---\npage 1\n\n" (by decide)).1⟩

/-- C13 (the code at the failing input): the only page of the file has an empty
plain text, as in an image-only scan.  The range 1 to 1 is valid and the file
can be read, no page yields any text, and yet `Extractor.ExtractText` returns a
text, which consists of the page marker, and no error: the marker written for
the page keeps the trimmed result from being empty. -/
theorem extractText_scan_returns_marker :
    scannedWorld.pdfOpen "scan.pdf" = .ok scannedPdf ∧
    scannedPdf.NumPage = 1 ∧
    scannedPdf.Page 1 = .content (.ok "") ∧
    (Extractor.ExtractText scannedWorld "scan.pdf" 1 1).1 = ("--- Page 1 ---\n\n\n", none) := by
  refine ⟨rfl, rfl, rfl, by decide⟩

/-! ## The text cleaner: links and calls to action -/

/-- C15 (the code at the failing input): the bare URL "http://example.com/shifts"
stands between "see" and "now".  The fused-word repair for "shi" before a
consonant runs before the URL pattern and turns "shifts" into "sh fts"; the URL
pattern then stops at the new space, and the rest of the URL stays in the
output: the result is "see fts now", not `CleanPDFText "see now"`. -/
theorem cleanPDFText_url_split_by_repair :
    replaceAllString re2 "see http://example.com/shifts now" "$1 $2"
      = "see http://example.com/sh fts now" ∧
    CleanPDFText "see http://example.com/shifts now" = "see fts now" ∧
    CleanPDFText "see now" = "see now" := by
  refine ⟨by decide, by decide, by decide⟩

/-- C16 (the code at the failing input): the pattern for bare URLs runs before
the pattern for parenthesized URLs and removes the URL between the parentheses,
so the latter pattern finds nothing to match and the empty parentheses stay. -/
theorem cleanPDFText_parenthesized_url_leaves_parentheses :
    replaceAllString re14 "text (http://example.com) more" "" = "text () more" ∧
    replaceAllString re15 "text (http://example.com) more" "" = "text  more" ∧
    CleanPDFText "text (http://example.com) more" = "text () more" := by
  refine ⟨by decide, by decide, by decide⟩

/-- C17 (the code at the failing input): the pattern for bare URLs has removed
the URL before the call-to-action pattern runs, which needs "(http" and so
matches nothing; the phrase stays, with empty parentheses. -/
theorem cleanPDFText_call_to_action_stays :
    replaceAllString re16 "Intro. Explore the archive (http://example.com) Next." ""
      = "Intro.  Next." ∧
    replaceAllString re14 "Intro. Explore the archive (http://example.com) Next." ""
      = "Intro. Explore the archive () Next." ∧
    CleanPDFText "Intro. Explore the archive (http://example.com) Next."
      = "Intro. Explore the archive () Next." := by
  refine ⟨by decide, by decide, by decide⟩

/-! ## The text cleaner: spacing of the output -/

theorem starMatches_class_head (k : CharClass)
    (step : Option Char → List Char → List (List Char × Captures))
    (hnil : ∀ p, step p [] = [])
    (hcons : ∀ p d ds, step p (d :: ds) = if k.test d = true then [([d], [])] else []) :
    ∀ (fuel : Nat) (s : List Char) (p : Option Char), s.length ≤ fuel →
      (starMatches step fuel p s).head? = some (s.takeWhile k.test, []) := by
  intro fuel
  induction fuel with
  | zero =>
    intro s p hs
    have : s = [] := List.length_eq_zero.mp (Nat.le_zero.mp hs)
    subst this
    rfl
  | succ fuel ih =>
    intro s p hs
    cases s with
    | nil => simp [starMatches, hnil, thenMatches]
    | cons d ds =>
      cases hd : k.test d with
      | false =>
        simp [starMatches, hcons, hd, thenMatches, List.takeWhile]
      | true =>
        have hlen : ds.length ≤ fuel := by simpa using hs
        have h := ih ds (some d) hlen
        cases hstar : starMatches step fuel (some d) ds with
        | nil => rw [hstar] at h; simp at h
        | cons m tl =>
          rw [hstar] at h
          simp only [List.head?_cons, Option.some.injEq] at h
          subst h
          simp [starMatches, hcons, hd, thenMatches, List.takeWhile, prevAfter, hstar]

theorem firstMatch_re18_run (prev : Option Char) (c : Char) (cs : List Char)
    (hc : space.test c = true) :
    firstMatch re18 prev (c :: cs)
      = some (c :: cs.takeWhile space.test, [(0, c :: cs.takeWhile space.test)]) := by
  have h := starMatches_class_head space (matchesFrom (.cls space)) (fun _ => rfl)
    (fun _ _ _ => rfl) (c :: cs).length cs (some c) (by simp)
  generalize hstep : matchesFrom (.cls space) = step at h
  cases hstar : starMatches step (c :: cs).length (some c) cs with
  | nil => rw [hstar] at h; simp at h
  | cons m tl =>
    rw [hstar] at h
    simp only [List.head?_cons, Option.some.injEq] at h
    subst h
    have hfirst : matchesFrom (.cls space) prev (c :: cs) = [([c], [])] := by
      simp [matchesFrom, hc]
    unfold firstMatch re18
    rw [matchesFrom, hfirst, hstep, thenMatches]
    rw [List.length_cons] at hstar
    simp [prevAfter, hstar]

theorem space_test_space : space.test ' ' = true := by decide

theorem spacingOk_nil (B : Char → Bool) : spacingOk B [] :=
  ⟨fun _ h => absurd h (List.not_mem_nil _), List.chain'_nil⟩

theorem spacingOk_cons_other (B : Char → Bool) (c : Char) (l : List Char)
    (hc : c ≠ ' ') (hs : space.test c = true → c = ' ') (h : spacingOk B l) :
    spacingOk B (c :: l) := by
  refine ⟨?_, ?_⟩
  · intro d hd
    rcases List.mem_cons.mp hd with rfl | hd
    · exact hs
    · exact h.1 d hd
  · cases l with
    | nil => exact List.chain'_singleton c
    | cons d rest =>
      exact List.chain'_cons.mpr ⟨fun hsp => absurd hsp hc, h.2⟩

theorem spacingOk_space_cons (B : Char → Bool) (l : List Char)
    (hhead : ∀ d, l.head? = some d → d ≠ ' ' ∧ B d = false) (h : spacingOk B l) :
    spacingOk B (' ' :: l) := by
  refine ⟨?_, ?_⟩
  · intro d hd
    rcases List.mem_cons.mp hd with rfl | hd
    · intro _; rfl
    · exact h.1 d hd
  · cases l with
    | nil => exact List.chain'_singleton ' '
    | cons d rest =>
      exact List.chain'_cons.mpr ⟨fun _ => hhead d rfl, h.2⟩

theorem spacingOk_tail (B : Char → Bool) (c : Char) (l : List Char) (h : spacingOk B (c :: l)) :
    spacingOk B l :=
  ⟨fun d hd => h.1 d (List.mem_cons_of_mem c hd), h.2.tail⟩

/-- The pass of pattern 18 leaves the space as the only character of `\s`, and
never two in a row. -/
theorem replaceAllLoop_re18_spacing : ∀ (s : List Char) (prev : Option Char) (skip : Nat)
    (afterMatch : Bool),
    (skip = 0 → spacingOk (fun _ => false) (replaceAllLoop re18 [' '] prev s skip afterMatch)) ∧
    (skip = (s.takeWhile space.test).length →
      spacingOk (fun _ => false) (' ' :: replaceAllLoop re18 [' '] prev s skip afterMatch)) := by
  intro s
  induction s with
  | nil =>
    intro prev skip afterMatch
    have hout : replaceAllLoop re18 [' '] prev [] skip afterMatch = [] := by
      simp [replaceAllLoop, firstMatch_re18_none prev [] (by simp)]
    rw [hout]
    exact ⟨fun _ => spacingOk_nil _,
      fun _ => spacingOk_space_cons _ [] (by simp) (spacingOk_nil _)⟩
  | cons c cs ih =>
    intro prev skip afterMatch
    cases hc : space.test c with
    | false =>
      have hne : c ≠ ' ' := by
        intro h; subst h; rw [space_test_space] at hc; cases hc
      have hm := firstMatch_re18_none prev (c :: cs)
        (by intro e he; simp at he; subst he; exact hc)
      have hout : replaceAllLoop re18 [' '] prev (c :: cs) 0 afterMatch
          = c :: replaceAllLoop re18 [' '] (some c) cs 0 false := by
        rw [replaceAllLoop, hm]
      have hok : spacingOk (fun _ => false) (c :: replaceAllLoop re18 [' '] (some c) cs 0 false) :=
        spacingOk_cons_other _ c _ hne (by rw [hc]; intro h; cases h)
          ((ih (some c) 0 false).1 rfl)
      constructor
      · intro hskip; subst hskip
        rw [hout]; exact hok
      · intro hskip
        have : skip = 0 := by simpa [List.takeWhile, hc] using hskip
        subst this
        rw [hout]
        exact spacingOk_space_cons _ _ (by intro d hd; simp at hd; subst hd; exact ⟨hne, rfl⟩) hok
    | true =>
      constructor
      · intro hskip; subst hskip
        have hm := firstMatch_re18_run prev c cs hc
        have hout : replaceAllLoop re18 [' '] prev (c :: cs) 0 afterMatch
            = ' ' :: replaceAllLoop re18 [' '] (some c) cs (cs.takeWhile space.test).length true := by
          rw [replaceAllLoop, hm]
          rfl
        rw [hout]
        exact (ih (some c) _ true).2 rfl
      · intro hskip
        have hlen : skip = (cs.takeWhile space.test).length + 1 := by
          simpa [List.takeWhile, hc] using hskip
        subst hlen
        have hout : replaceAllLoop re18 [' '] prev (c :: cs)
              ((cs.takeWhile space.test).length + 1) afterMatch
            = replaceAllLoop re18 [' '] (some c) cs (cs.takeWhile space.test).length true := by
          rw [replaceAllLoop]
        rw [hout]
        exact (ih (some c) _ true).2 rfl

theorem stringsReplaceAllLoop_other (p : Char) (new : List Char) (d : Char) (ds : List Char)
    (hd : d ≠ ' ') :
    stringsReplaceAllLoop [' ', p] new (d :: ds) 0 = d :: stringsReplaceAllLoop [' ', p] new ds 0 := by
  simp [stringsReplaceAllLoop, startsWith, hd]

/-- Removing the space before `p` keeps the spacing and leaves no space before `p`. -/
theorem stringsReplaceAllLoop_spacing (B : Char → Bool) (p : Char) (hp : p ≠ ' ')
    (hps : space.test p = false) :
    ∀ (s : List Char), spacingOk B s →
      spacingOk (fun c => B c || c == p) (stringsReplaceAllLoop [' ', p] [p] s 0) := by
  intro s
  induction s with
  | nil => intro _; exact spacingOk_nil _
  | cons c cs ih =>
    intro h
    have ihcs := ih (spacingOk_tail B c cs h)
    by_cases hc : c = ' '
    · subst hc
      cases cs with
      | nil =>
        have hout : stringsReplaceAllLoop [' ', p] [p] [' '] 0 = [' '] := by
          simp [stringsReplaceAllLoop, startsWith]
        rw [hout]
        exact spacingOk_space_cons _ [] (by simp) (spacingOk_nil _)
      | cons d ds =>
        have hrel := List.chain'_cons.mp h.2
        obtain ⟨hd, hB⟩ := hrel.1 rfl
        rw [stringsReplaceAllLoop_other p [p] d ds hd] at ihcs
        by_cases hdp : d = p
        · subst hdp
          have hout : stringsReplaceAllLoop [' ', d] [d] (' ' :: d :: ds) 0
              = d :: stringsReplaceAllLoop [' ', d] [d] ds 0 := by
            simp [stringsReplaceAllLoop, startsWith]
          rw [hout]
          exact ihcs
        · have hout : stringsReplaceAllLoop [' ', p] [p] (' ' :: d :: ds) 0
              = ' ' :: d :: stringsReplaceAllLoop [' ', p] [p] ds 0 := by
            simp [stringsReplaceAllLoop, startsWith, hdp, hd]
          rw [hout]
          refine spacingOk_space_cons _ _ ?_ ihcs
          intro e he
          simp only [List.head?_cons, Option.some.injEq] at he
          subst he
          exact ⟨hd, by simp [hB, hdp]⟩
    · rw [stringsReplaceAllLoop_other p [p] c cs hc]
      exact spacingOk_cons_other _ c _ hc (h.1 c (List.mem_cons_self c cs)) ihcs

theorem spacingOk_mono (B B2 : Char → Bool) (hB : ∀ c, B2 c = false → B c = false)
    (l : List Char) (h : spacingOk B2 l) : spacingOk B l :=
  ⟨h.1, List.Chain'.imp (fun _ _ hab hsp => ⟨(hab hsp).1, hB _ (hab hsp).2⟩) h.2⟩

theorem spacingOk_part (B : Char → Bool) (l l2 : List Char) (hin : l <:+: l2)
    (h : spacingOk B l2) : spacingOk B l :=
  ⟨fun c hc => h.1 c (hin.subset hc), List.Chain'.infix h.2 hin⟩

theorem trimmed_part (l : List Char) :
    ((l.dropWhile unicodeIsSpace).reverse.dropWhile unicodeIsSpace).reverse <:+: l := by
  have h1 : ((l.dropWhile unicodeIsSpace).reverse.dropWhile unicodeIsSpace).reverse
      <+: l.dropWhile unicodeIsSpace := by
    have := List.dropWhile_suffix unicodeIsSpace (l := (l.dropWhile unicodeIsSpace).reverse)
    have h2 := List.reverse_prefix.mpr this
    rwa [List.reverse_reverse] at h2
  exact List.IsInfix.trans (List.IsPrefix.isInfix h1)
    (List.IsSuffix.isInfix (List.dropWhile_suffix unicodeIsSpace))

theorem dropWhile_head_not (p : Char → Bool) (l : List Char) (c : Char)
    (h : (l.dropWhile p).head? = some c) : p c = false := by
  induction l with
  | nil => simp at h
  | cons d ds ih =>
    cases hd : p d with
    | true =>
      rw [List.dropWhile_cons_of_pos hd] at h
      exact ih h
    | false =>
      rw [List.dropWhile_cons_of_neg (by simp [hd])] at h
      simp only [List.head?_cons, Option.some.injEq] at h
      subst h; exact hd

theorem trimmed_last (l : List Char) (c : Char)
    (h : ((l.dropWhile unicodeIsSpace).reverse.dropWhile unicodeIsSpace).reverse.getLast? = some c) :
    unicodeIsSpace c = false := by
  rw [List.getLast?_reverse] at h
  exact dropWhile_head_not _ _ c h

theorem rdrop_head (p : Char → Bool) (l : List Char) (c : Char)
    (h : ((l.reverse.dropWhile p).reverse).head? = some c) : l.head? = some c := by
  have hpre : (l.reverse.dropWhile p).reverse <+: l := by
    have h2 := List.reverse_prefix.mpr (List.dropWhile_suffix p (l := l.reverse))
    rwa [List.reverse_reverse] at h2
  obtain ⟨t, ht⟩ := hpre
  cases hl : (l.reverse.dropWhile p).reverse with
  | nil => rw [hl] at h; simp at h
  | cons d ds =>
    rw [hl] at h ht
    simp only [List.head?_cons, Option.some.injEq] at h
    subst h
    rw [← ht]; rfl

theorem trimmed_head (l : List Char) (c : Char)
    (h : ((l.dropWhile unicodeIsSpace).reverse.dropWhile unicodeIsSpace).reverse.head? = some c) :
    unicodeIsSpace c = false :=
  dropWhile_head_not _ l c (rdrop_head _ _ c h)

/-- The last stage of `CleanPDFText` (pattern 18, the four removals of a space
before a punctuation mark, and the trimming) establishes the spacing. -/
theorem lastStage_spacing (y : String) :
    spacingOk (fun c => c == '.' || c == ',' || c == ';' || c == ':')
      (stringsTrimSpace (stringsReplaceAll (stringsReplaceAll (stringsReplaceAll
        (stringsReplaceAll (replaceAllString re18 y " ") " ." ".") " ," ",") " ;" ";")
        " :" ":")).data ∧
    (∀ c, (stringsTrimSpace (stringsReplaceAll (stringsReplaceAll (stringsReplaceAll
        (stringsReplaceAll (replaceAllString re18 y " ") " ." ".") " ," ",") " ;" ";")
        " :" ":")).data.head? = some c → unicodeIsSpace c = false) ∧
    (∀ c, (stringsTrimSpace (stringsReplaceAll (stringsReplaceAll (stringsReplaceAll
        (stringsReplaceAll (replaceAllString re18 y " ") " ." ".") " ," ",") " ;" ";")
        " :" ":")).data.getLast? = some c → unicodeIsSpace c = false) := by
  have h0 := (replaceAllLoop_re18_spacing y.data none 0 false).1 rfl
  generalize hl0 : replaceAllLoop re18 [' '] none y.data 0 false = l0 at h0
  have h1 := stringsReplaceAllLoop_spacing _ '.' (by decide) (by decide) l0 h0
  generalize hl1 : stringsReplaceAllLoop [' ', '.'] ['.'] l0 0 = l1 at h1
  have h2 := stringsReplaceAllLoop_spacing _ ',' (by decide) (by decide) l1 h1
  generalize hl2 : stringsReplaceAllLoop [' ', ','] [','] l1 0 = l2 at h2
  have h3 := stringsReplaceAllLoop_spacing _ ';' (by decide) (by decide) l2 h2
  generalize hl3 : stringsReplaceAllLoop [' ', ';'] [';'] l2 0 = l3 at h3
  have h4 := stringsReplaceAllLoop_spacing _ ':' (by decide) (by decide) l3 h3
  generalize hl4 : stringsReplaceAllLoop [' ', ':'] [':'] l3 0 = l4 at h4
  have hout : (stringsTrimSpace (stringsReplaceAll (stringsReplaceAll (stringsReplaceAll
        (stringsReplaceAll (replaceAllString re18 y " ") " ." ".") " ," ",") " ;" ";")
        " :" ":")).data
      = ((l4.dropWhile unicodeIsSpace).reverse.dropWhile unicodeIsSpace).reverse := by
    rw [← hl4, ← hl3, ← hl2, ← hl1, ← hl0]
    rfl
  rw [hout]
  refine ⟨?_, trimmed_head l4, trimmed_last l4⟩
  apply spacingOk_part _ _ l4 (trimmed_part l4)
  apply spacingOk_mono _ _ _ l4 h4
  intro c hc
  simpa [Bool.or_assoc] using hc

/-- C18: for every input, the output of `CleanPDFText` contains no tab, newline,
carriage return or form feed; a space in it is never followed by a space, ".",
",", ";" or ":"; and it neither begins nor ends with a space. -/
theorem cleanPDFText_spacing (x : String) :
    (∀ c ∈ (CleanPDFText x).data, c ≠ '\t' ∧ c ≠ '\n' ∧ c ≠ '\r' ∧ c ≠ '\x0c') ∧
    (∀ (before after : List Char) (b : Char),
      (CleanPDFText x).data = before ++ ' ' :: b :: after →
        b ≠ ' ' ∧ b ≠ '.' ∧ b ≠ ',' ∧ b ≠ ';' ∧ b ≠ ':') ∧
    (CleanPDFText x).data.head? ≠ some ' ' ∧
    (CleanPDFText x).data.getLast? ≠ some ' ' := by
  unfold CleanPDFText
  dsimp only
  generalize replaceAllString re17 _ "" = y
  obtain ⟨⟨hall, hchain⟩, hhead, hlast⟩ := lastStage_spacing y
  generalize (stringsTrimSpace (stringsReplaceAll (stringsReplaceAll (stringsReplaceAll
        (stringsReplaceAll (replaceAllString re18 y " ") " ." ".") " ," ",") " ;" ";")
        " :" ":")).data = out at hall hchain hhead hlast
  refine ⟨?_, ?_, ?_, ?_⟩
  · intro c hc
    have h := hall c hc
    refine ⟨?_, ?_, ?_, ?_⟩ <;>
    · intro hcc
      subst hcc
      exact absurd (h (by decide)) (by decide)
  · intro before after b hsplit
    rw [hsplit] at hchain
    have hrel := (List.chain'_cons.mp (List.Chain'.right_of_append hchain)).1 rfl
    obtain ⟨h1, h2⟩ := hrel
    simp only [Bool.or_eq_false_iff, beq_eq_false_iff_ne, ne_eq] at h2
    exact ⟨h1, h2.1.1.1, h2.1.1.2, h2.1.2, h2.2⟩
  · intro h
    exact absurd (hhead ' ' h) (by decide)
  · intro h
    exact absurd (hlast ' ' h) (by decide)

/-! ## The text cleaner: when a second application changes nothing -/

/-- `CleanPDFText` is its repairs, applied one after the other, followed by the
white space stage. -/
theorem cleanPDFText_eq_passes (x : String) :
    CleanPDFText x
      = whiteSpaceStage (repairPasses.foldl (fun t pass => replaceAllString pass.1 t pass.2) x) :=
  rfl

theorem space_test_eq_of_spacingOk (B : Char → Bool) (l : List Char) (h : spacingOk B l)
    (c : Char) (hc : c ∈ l) (hne : c ≠ ' ') : space.test c = false := by
  cases ht : space.test c with
  | false => rfl
  | true => exact absurd (h.1 c hc ht) hne

/-- Pattern 18 changes nothing in a text whose only white space of `\s` are
single spaces. -/
theorem replaceAllLoop_re18_spacingOk (B : Char → Bool) :
    ∀ (s : List Char) (prev : Option Char) (afterMatch : Bool), spacingOk B s →
      replaceAllLoop re18 [' '] prev s 0 afterMatch = s := by
  intro s
  induction s with
  | nil =>
    intro prev afterMatch _
    simp [replaceAllLoop, firstMatch_re18_none prev [] (by simp)]
  | cons c cs ih =>
    intro prev afterMatch h
    have htail := spacingOk_tail B c cs h
    by_cases hc : c = ' '
    · subst hc
      have hrun : cs.takeWhile space.test = [] := by
        cases cs with
        | nil => rfl
        | cons d rest =>
          have hrel := (List.chain'_cons.mp h.2).1 rfl
          have hd : space.test d = false :=
            space_test_eq_of_spacingOk B _ h d (by simp) hrel.1
          simp [List.takeWhile, hd]
      have hm := firstMatch_re18_run prev ' ' cs space_test_space
      rw [hrun] at hm
      rw [replaceAllLoop, hm]
      show expandTemplate [(0, [' '])] ([' '].length + 1) [' ']
          ++ replaceAllLoop re18 [' '] (some ' ') cs ([] : List Char).length true
        = ' ' :: cs
      rw [List.length_nil, ih (some ' ') true htail]
      rfl
    · have hs : space.test c = false :=
        space_test_eq_of_spacingOk B _ h c (List.mem_cons_self c cs) hc
      have hm := firstMatch_re18_none prev (c :: cs)
        (by intro e he; simp at he; subst he; exact hs)
      rw [replaceAllLoop, hm]
      show c :: replaceAllLoop re18 [' '] (some c) cs 0 false = c :: cs
      rw [ih (some c) false htail]

/-- The removal of the space before `p` changes nothing in a text in which no
space stands before `p`. -/
theorem stringsReplaceAllLoop_spacingOk (B : Char → Bool) (p : Char) (new : List Char)
    (hp : B p = true) :
    ∀ (s : List Char), spacingOk B s → stringsReplaceAllLoop [' ', p] new s 0 = s := by
  intro s
  induction s with
  | nil => intro _; rfl
  | cons c cs ih =>
    intro h
    have htail := spacingOk_tail B c cs h
    have hstart : startsWith (c :: cs) [' ', p] = false := by
      by_cases hc : c = ' '
      · subst hc
        cases cs with
        | nil => simp [startsWith]
        | cons d rest =>
          have hrel := (List.chain'_cons.mp h.2).1 rfl
          have hdp : d ≠ p := by
            intro hd; subst hd
            rw [hp] at hrel
            exact absurd hrel.2 (by simp)
          simp [startsWith, hdp]
      · simp [startsWith, hc]
    simp only [stringsReplaceAllLoop, hstart]
    rw [ih htail]
    simp

/-- The white space stage changes nothing in a text that has the spacing it
establishes. -/
theorem whiteSpaceStage_fixed (y : String)
    (hsp : spacingOk (fun c => c == '.' || c == ',' || c == ';' || c == ':') y.data)
    (hhead : ∀ c, y.data.head? = some c → unicodeIsSpace c = false)
    (hlast : ∀ c, y.data.getLast? = some c → unicodeIsSpace c = false) :
    whiteSpaceStage y = y := by
  have e18 : replaceAllString re18 y " " = y := by
    simp only [replaceAllString]
    exact congrArg String.mk (replaceAllLoop_re18_spacingOk _ y.data none false hsp)
  have hold : ∀ (p : Char) (new : String), (p == '.' || p == ',' || p == ';' || p == ':') = true →
      stringsReplaceAll y (String.mk [' ', p]) new = y := by
    intro p new hp
    simp only [stringsReplaceAll, stringsReplaceAllLoop_spacingOk _ p new.data hp y.data hsp]
  have p1 : stringsReplaceAll y " ." "." = y := hold '.' "." (by decide)
  have p2 : stringsReplaceAll y " ," "," = y := hold ',' "," (by decide)
  have p3 : stringsReplaceAll y " ;" ";" = y := hold ';' ";" (by decide)
  have p4 : stringsReplaceAll y " :" ":" = y := hold ':' ":" (by decide)
  have htrim : stringsTrimSpace y = y := by
    have h1 : y.data.dropWhile unicodeIsSpace = y.data := dropWhile_head _ _ hhead
    have h2 : y.data.reverse.dropWhile unicodeIsSpace = y.data.reverse := by
      apply dropWhile_head
      intro c hc
      rw [List.head?_reverse] at hc
      exact hlast c hc
    unfold stringsTrimSpace
    rw [h1, h2, List.reverse_reverse]
  unfold whiteSpaceStage
  rw [e18, p1, p2, p3, p4, htrim]

/-- The white space stage changes nothing in an output of `CleanPDFText`. -/
theorem whiteSpaceStage_cleanPDFText (x : String) :
    whiteSpaceStage (CleanPDFText x) = CleanPDFText x := by
  obtain ⟨h1, h2, h3⟩ := lastStage_spacing
    (repairPasses.foldl (fun t pass => replaceAllString pass.1 t pass.2) x)
  exact whiteSpaceStage_fixed (CleanPDFText x) h1 h2 h3

/-- C7 (amended): a second application of `CleanPDFText` changes nothing
whenever none of the repairs changes the output of the first application any
more: the white space stage never changes an output of `CleanPDFText`, so the
only way for a second application to differ is a repair pattern that still
matches in the output of the first. -/
theorem cleanPDFText_idempotent_when_settled (x : String)
    (h : ∀ pass ∈ repairPasses,
      replaceAllString pass.1 (CleanPDFText x) pass.2 = CleanPDFText x) :
    CleanPDFText (CleanPDFText x) = CleanPDFText x ∧
    whiteSpaceStage (CleanPDFText x) = CleanPDFText x := by
  have hw := whiteSpaceStage_cleanPDFText x
  refine ⟨?_, hw⟩
  generalize CleanPDFText x = y at h hw
  have hfold : ∀ (passes : List (Regex × String)),
      (∀ pass ∈ passes, replaceAllString pass.1 y pass.2 = y) →
      passes.foldl (fun t pass => replaceAllString pass.1 t pass.2) y = y := by
    intro passes
    induction passes with
    | nil => intro _; rfl
    | cons pass rest ih =>
      intro hp
      rw [List.foldl_cons, hp pass (List.mem_cons_self pass rest)]
      exact ih (fun q hq => hp q (List.mem_cons_of_mem pass hq))
  rw [cleanPDFText_eq_passes, hfold repairPasses h, hw]

/-- Witness of the amended C7: on "nationsiAnd freedom" the first repair fires,
and no repair changes the output "nations And freedom". -/
theorem cleanPDFText_idempotent_when_settled_witness :
    CleanPDFText "nationsiAnd freedom" = "nations And freedom" ∧
    (∀ pass ∈ repairPasses,
      replaceAllString pass.1 (CleanPDFText "nationsiAnd freedom") pass.2
        = CleanPDFText "nationsiAnd freedom") ∧
    CleanPDFText (CleanPDFText "nationsiAnd freedom") = CleanPDFText "nationsiAnd freedom" := by
  have hx : CleanPDFText "nationsiAnd freedom" = "nations And freedom" := by decide!
  have hpasses : ∀ pass ∈ repairPasses,
      replaceAllString pass.1 (CleanPDFText "nationsiAnd freedom") pass.2
        = CleanPDFText "nationsiAnd freedom" := by
    rw [hx]
    decide!
  exact ⟨hx, hpasses, (cleanPDFText_idempotent_when_settled "nationsiAnd freedom" hpasses).1⟩

/-! ## The text cleaner: fused words and commas -/

theorem isLower_range (a : Char) (h : a.isLower = true) : 97 ≤ a.toNat ∧ a.toNat ≤ 122 := by
  simp only [Char.isLower, Bool.and_eq_true, decide_eq_true_eq, ge_iff_le] at h
  have h1 : (97 : UInt32).toNat ≤ a.val.toNat := h.1
  have h2 : a.val.toNat ≤ (122 : UInt32).toNat := h.2
  exact ⟨h1, h2⟩

theorem isUpper_range (a : Char) (h : a.isUpper = true) : 65 ≤ a.toNat ∧ a.toNat ≤ 90 := by
  simp only [Char.isUpper, Bool.and_eq_true, decide_eq_true_eq, ge_iff_le] at h
  have h1 : (65 : UInt32).toNat ≤ a.val.toNat := h.1
  have h2 : a.val.toNat ≤ (90 : UInt32).toNat := h.2
  exact ⟨h1, h2⟩

theorem lower_test_of_range (a : Char) (h : 97 ≤ a.toNat ∧ a.toNat ≤ 122) : lower.test a = true := by
  have e1 : 'a'.toNat = 97 := rfl
  have e2 : 'z'.toNat = 122 := rfl
  simp [lower, CharClass.test, e1, e2, h.1, h.2]

theorem upper_test_of_range (a : Char) (h : 65 ≤ a.toNat ∧ a.toNat ≤ 90) : upper.test a = true := by
  have e1 : 'A'.toNat = 65 := rfl
  have e2 : 'Z'.toNat = 90 := rfl
  simp [upper, CharClass.test, e1, e2, h.1, h.2]

theorem expand_two_groups (caps : Captures) (sep : List Char)
    (hsep : sep = [' '] ∨ sep = ['.', ' '] ∨ sep = [',', ' ']) :
    expandTemplate caps (('$' :: '1' :: sep ++ ['$', '2']).length + 1)
        ('$' :: '1' :: sep ++ ['$', '2'])
      = captureText caps 1 ++ sep ++ captureText caps 2 := by
  rcases hsep with h | h | h <;> subst h <;> simp [expandTemplate, referenceText, decimalValue,
    List.takeWhile, List.dropWhile, show isNameChar '1' = true by decide,
    show isNameChar '2' = true by decide, show isNameChar ' ' = false by decide,
    show isNameChar '.' = false by decide, show isNameChar ',' = false by decide]

theorem firstMatch_re1_fused (prev : Option Char) (a B : Char) (rest : List Char)
    (ha : lower.test a = true) (hB : upper.test B = true) :
    firstMatch re1 prev (a :: 'i' :: B :: rest)
      = some ([a, 'i', B], [(1, [a]), (2, [B]), (0, [a, 'i', B])]) := by
  simp [firstMatch, re1, matchesFrom, thenMatches, ha, hB, prevAfter]

theorem re1_pass_fused (a B : Char) (ha : lower.test a = true) (hB : upper.test B = true) :
    replaceAllString re1 (String.mk [a, 'i', B]) "$1 $2" = String.mk [a, ' ', B] := by
  have hm := firstMatch_re1_fused none a B [] ha hB
  have he := expand_two_groups [(1, [a]), (2, [B]), (0, [a, 'i', B])] [' '] (Or.inl rfl)
  simp only [replaceAllString]
  rw [replaceAllLoop, hm]
  show String.mk (expandTemplate _ _ _ ++ replaceAllLoop re1 _ (some a) ['i', B] 2 true) = _
  have he2 : expandTemplate [(1, [a]), (2, [B]), (0, [a, 'i', B])] ("$1 $2".data.length + 1)
      "$1 $2".data = [a, ' ', B] := he
  have hskip : replaceAllLoop re1 "$1 $2".data (some a) ['i', B] 2 true = [] := by
    simp [replaceAllLoop, firstMatch, re1, matchesFrom, thenMatches]
  rw [he2, hskip]
  rfl

theorem firstMatch_re13_comma (prev : Option Char) (a b : Char) (rest : List Char)
    (ha : lower.test a = true) (hb : lower.test b = true) :
    firstMatch re13 prev (a :: ',' :: b :: rest)
      = some ([a, ',', b], [(1, [a]), (2, [b]), (0, [a, ',', b])]) := by
  simp [firstMatch, re13, matchesFrom, thenMatches, ha, hb, prevAfter]

theorem re13_pass_comma (a b : Char) (ha : lower.test a = true) (hb : lower.test b = true) :
    replaceAllString re13 (String.mk [a, ',', b]) "$1, $2" = String.mk [a, ',', ' ', b] := by
  have hm := firstMatch_re13_comma none a b [] ha hb
  have he := expand_two_groups [(1, [a]), (2, [b]), (0, [a, ',', b])] [',', ' ']
    (Or.inr (Or.inr rfl))
  simp only [replaceAllString]
  rw [replaceAllLoop, hm]
  show String.mk (expandTemplate _ _ _ ++ replaceAllLoop re13 _ (some a) [',', b] 2 true) = _
  have he2 : expandTemplate [(1, [a]), (2, [b]), (0, [a, ',', b])] ("$1, $2".data.length + 1)
      "$1, $2".data = [a, ',', ' ', b] := he
  have hskip : replaceAllLoop re13 "$1, $2".data (some a) [',', b] 2 true = [] := by
    simp [replaceAllLoop, firstMatch, re13, matchesFrom, thenMatches]
  rw [he2, hskip]
  rfl

theorem re13_pass_spaced (a b : Char) :
    replaceAllString re13 (String.mk [a, ',', ' ', b]) "$1, $2" = String.mk [a, ',', ' ', b] := by
  have hsp : lower.test ' ' = false := by decide
  have hco : lower.test ',' = false := by decide
  cases ha : lower.test a <;> cases hb : lower.test b <;>
    simp [replaceAllString, replaceAllLoop, firstMatch, re13, matchesFrom, thenMatches, hsp, hco,
      ha, hb]

/-- A text that no pass of `CleanPDFText` changes is returned unchanged: here a
tidy text without the letter i, slash and opening parenthesis which the comma
pass and the figure pass leave alone. -/
theorem cleanPDFText_fixed_of (y : String)
    (hi : ∀ c ∈ y.data, c ≠ 'i')
    (h13 : replaceAllString re13 y "$1, $2" = y)
    (hlink : ∀ c ∈ y.data, c ≠ '/' ∧ c ≠ '(')
    (h17 : replaceAllString re17 y "" = y)
    (ht : isTidy y = true) : CleanPDFText y = y := by
  have hI : ∀ c ∈ y.data, (fun c : Char => c == 'i') c = false := by
    intro c hc; simpa using hi c hc
  have hS : ∀ c ∈ y.data, (fun c : Char => c == '/') c = false := by
    intro c hc; simpa using (hlink c hc).1
  have hP : ∀ c ∈ y.data, (fun c : Char => c == '(') c = false := by
    intro c hc; simpa using (hlink c hc).2
  have hre : ∀ (re : Regex), re.needs (fun c : Char => c == 'i') = true → ∀ (repl : String),
      replaceAllString re y repl = y :=
    fun re hre repl => replaceAllString_unchanged _ re hre y repl hI
  have hsp : tidySpacing y.data = true := by
    simp only [isTidy, Bool.and_eq_true] at ht
    exact ht.2
  have hold : ∀ (p : Char) (new : String), (p = '.' ∨ p = ',' ∨ p = ';' ∨ p = ':') →
      stringsReplaceAll y (String.mk [' ', p]) new = y := by
    intro p new hp
    simp only [stringsReplaceAll, stringsReplaceAllLoop_tidy p new.data hp y.data hsp]
  have htrim : stringsTrimSpace y = y := stringsTrimSpace_tidy y ht
  have e1 := hre re1 (by decide) "$1 $2"
  have e2 := hre re2 (by decide) "$1 $2"
  have e2b := hre re2b (by decide) "$1 $2"
  have e2c := hre re2c (by decide) "$1 $2"
  have e3 := hre re3 (by decide) "$1. $2"
  have e4 := hre re4 (by decide) "$1 $2"
  have e5 := hre (reWord "the") (by decide) "the "
  have e6 := hre (reWord "and") (by decide) "and "
  have e7 := hre (reWord "to") (by decide) "to "
  have e8 := hre (reWord "of") (by decide) "of "
  have e9 := hre (reWord "in") (by decide) "in "
  have e10 := hre (reWord "for") (by decide) "for "
  have e11 := hre (reWord "with") (by decide) "with "
  have e12 := hre (reWord "from") (by decide) "from "
  have e14 := replaceAllString_unchanged _ re14 (by decide) y "" hS
  have e15 := replaceAllString_unchanged _ re15 (by decide) y "" hP
  have e16 := replaceAllString_unchanged _ re16 (by decide) y "" hP
  have e18 : replaceAllString re18 y " " = y := by
    simp only [replaceAllString]
    exact congrArg String.mk (replaceAllLoop_re18_tidy y.data none false hsp)
  have p1 : stringsReplaceAll y " ." "." = y := hold '.' "." (by simp)
  have p2 : stringsReplaceAll y " ," "," = y := hold ',' "," (by simp)
  have p3 : stringsReplaceAll y " ;" ";" = y := hold ';' ";" (by simp)
  have p4 : stringsReplaceAll y " :" ":" = y := hold ':' ":" (by simp)
  simp only [CleanPDFText, e1, e2, e2b, e2c, e3, e4, e5, e6, e7, e8, e9, e10, e11, e12, h13,
    e14, e15, e16, h17, e18, p1, p2, p3, p4, htrim]

/-- The letters and the characters between "Z" and "a" are not white space. -/
theorem letter_not_space (c : Char) (h : 65 ≤ c.toNat ∧ c.toNat ≤ 122) :
    unicodeIsSpace c = false := by
  have hall : ∀ n ∈ List.range 58, unicodeIsSpace (Char.ofNat (65 + n)) = false := by decide
  have := hall (c.toNat - 65) (List.mem_range.mpr (by omega))
  rw [show 65 + (c.toNat - 65) = c.toNat by omega, Char.ofNat_toNat] at this
  exact this

theorem letter_ne (c d : Char) (h : 65 ≤ c.toNat ∧ c.toNat ≤ 122) (hd : d.toNat < 65) : c ≠ d := by
  intro heq; subst heq; omega

theorem cleanPDFText_after_re1 (x y : String)
    (h1 : replaceAllString re1 x "$1 $2" = y) (h2 : replaceAllString re1 y "$1 $2" = y) :
    CleanPDFText x = CleanPDFText y := by
  simp only [CleanPDFText, h1, h2]

theorem cleanPDFText_after_re13 (x y : String)
    (hx : ∀ c ∈ x.data, c ≠ 'i') (hy : ∀ c ∈ y.data, c ≠ 'i')
    (h1 : replaceAllString re13 x "$1, $2" = y) (h2 : replaceAllString re13 y "$1, $2" = y) :
    CleanPDFText x = CleanPDFText y := by
  have hX : ∀ c ∈ x.data, (fun c : Char => c == 'i') c = false := by
    intro c hc; simpa using hx c hc
  have hY : ∀ c ∈ y.data, (fun c : Char => c == 'i') c = false := by
    intro c hc; simpa using hy c hc
  have hrx : ∀ (re : Regex), re.needs (fun c : Char => c == 'i') = true → ∀ (repl : String),
      replaceAllString re x repl = x :=
    fun re hre repl => replaceAllString_unchanged _ re hre x repl hX
  have hry : ∀ (re : Regex), re.needs (fun c : Char => c == 'i') = true → ∀ (repl : String),
      replaceAllString re y repl = y :=
    fun re hre repl => replaceAllString_unchanged _ re hre y repl hY
  simp only [CleanPDFText,
    hrx re1 (by decide), hrx re2 (by decide), hrx re2b (by decide), hrx re2c (by decide),
    hrx re3 (by decide), hrx re4 (by decide), hrx (reWord "the") (by decide),
    hrx (reWord "and") (by decide), hrx (reWord "to") (by decide),
    hrx (reWord "of") (by decide), hrx (reWord "in") (by decide),
    hrx (reWord "for") (by decide), hrx (reWord "with") (by decide),
    hrx (reWord "from") (by decide),
    hry re1 (by decide), hry re2 (by decide), hry re2b (by decide), hry re2c (by decide),
    hry re3 (by decide), hry re4 (by decide), hry (reWord "the") (by decide),
    hry (reWord "and") (by decide), hry (reWord "to") (by decide),
    hry (reWord "of") (by decide), hry (reWord "in") (by decide),
    hry (reWord "for") (by decide), hry (reWord "with") (by decide),
    hry (reWord "from") (by decide), h1, h2]

/-- The repair of a stray i between a lower-case and an upper-case letter, for a
first letter other than i. -/
theorem cleanPDFText_fused_general (a B : Char) (ha : 97 ≤ a.toNat ∧ a.toNat ≤ 122)
    (hB : 65 ≤ B.toNat ∧ B.toNat ≤ 90) (hai : a ≠ 'i') :
    CleanPDFText (String.mk [a, 'i', B]) = String.mk [a, ' ', B] := by
  have hla : 65 ≤ a.toNat ∧ a.toNat ≤ 122 := ⟨by omega, ha.2⟩
  have hlB : 65 ≤ B.toNat ∧ B.toNat ≤ 122 := ⟨hB.1, by omega⟩
  have hBi : B ≠ 'i' := by intro h; subst h; revert hB; decide
  have hmem : ∀ c ∈ (String.mk [a, ' ', B]).data, c = a ∨ c = ' ' ∨ c = B := by
    intro c hc; simpa using hc
  have hno : ∀ (d : Char), d ≠ ' ' → d.toNat < 65 → d ≠ 'i' →
      ∀ c ∈ (String.mk [a, ' ', B]).data, (fun c : Char => c == d) c = false := by
    intro d hd1 hd2 hd3 c hc
    rcases hmem c hc with h | h | h
    · subst h; simpa using letter_ne c d hla hd2
    · subst h; simpa using fun h => hd1 h.symm
    · subst h; simpa using letter_ne c d hlB hd2
  have hy1 : replaceAllString re1 (String.mk [a, ' ', B]) "$1 $2" = String.mk [a, ' ', B] := by
    apply replaceAllString_unchanged (fun c : Char => c == 'i') re1 (by decide)
    intro c hc
    rcases hmem c hc with h | h | h
    · subst h; simpa using hai
    · subst h; decide
    · subst h; simpa using hBi
  rw [cleanPDFText_after_re1 _ _
    (re1_pass_fused a B (lower_test_of_range a ha) (upper_test_of_range B hB)) hy1]
  apply cleanPDFText_fixed_of
  · intro c hc
    rcases hmem c hc with h | h | h
    · subst h; exact hai
    · subst h; decide
    · subst h; exact hBi
  · exact replaceAllString_unchanged (fun c : Char => c == ',') re13 (by decide) _ _
      (hno ',' (by decide) (by decide) (by decide))
  · intro c hc
    rcases hmem c hc with h | h | h
    · subst h; exact ⟨letter_ne c '/' hla (by decide), letter_ne c '(' hla (by decide)⟩
    · subst h; decide
    · subst h; exact ⟨letter_ne c '/' hlB (by decide), letter_ne c '(' hlB (by decide)⟩
  · exact replaceAllString_unchanged (fun c : Char => c == '.') re17 (by decide) _ _
      (hno '.' (by decide) (by decide) (by decide))
  · have s1 := letter_not_space a hla
    have s2 := letter_not_space B hlB
    have n1 : a ≠ ' ' := letter_ne a ' ' hla (by decide)
    have n2 := letter_ne B '.' hlB (by decide)
    have n3 := letter_ne B ',' hlB (by decide)
    have n4 := letter_ne B ';' hlB (by decide)
    have n5 := letter_ne B ':' hlB (by decide)
    simp [isTidy, tidySpacing, s1, s2, n1, n2, n3, n4, n5]

/-- The repair of a missing space behind a comma between two lower-case
letters other than i. -/
theorem cleanPDFText_comma_general (a b : Char) (ha : 97 ≤ a.toNat ∧ a.toNat ≤ 122)
    (hb : 97 ≤ b.toNat ∧ b.toNat ≤ 122) (hai : a ≠ 'i') (hbi : b ≠ 'i') :
    CleanPDFText (String.mk [a, ',', b]) = String.mk [a, ',', ' ', b] := by
  have hla : 65 ≤ a.toNat ∧ a.toNat ≤ 122 := ⟨by omega, ha.2⟩
  have hlb : 65 ≤ b.toNat ∧ b.toNat ≤ 122 := ⟨by omega, hb.2⟩
  have hmemx : ∀ c ∈ (String.mk [a, ',', b]).data, c = a ∨ c = ',' ∨ c = b := by
    intro c hc; simpa using hc
  have hmem : ∀ c ∈ (String.mk [a, ',', ' ', b]).data, c = a ∨ c = ',' ∨ c = ' ' ∨ c = b := by
    intro c hc; simpa using hc
  have hno : ∀ (d : Char), d ≠ ' ' → d ≠ ',' → d.toNat < 65 →
      ∀ c ∈ (String.mk [a, ',', ' ', b]).data, (fun c : Char => c == d) c = false := by
    intro d hd1 hd2 hd3 c hc
    rcases hmem c hc with h | h | h | h
    · subst h; simpa using letter_ne c d hla hd3
    · subst h; simpa using fun h => hd2 h.symm
    · subst h; simpa using fun h => hd1 h.symm
    · subst h; simpa using letter_ne c d hlb hd3
  have hyi : ∀ c ∈ (String.mk [a, ',', ' ', b]).data, c ≠ 'i' := by
    intro c hc
    rcases hmem c hc with h | h | h | h
    · subst h; exact hai
    · subst h; decide
    · subst h; decide
    · subst h; exact hbi
  have hxi : ∀ c ∈ (String.mk [a, ',', b]).data, c ≠ 'i' := by
    intro c hc
    rcases hmemx c hc with h | h | h
    · subst h; exact hai
    · subst h; decide
    · subst h; exact hbi
  rw [cleanPDFText_after_re13 _ _ hxi hyi
    (re13_pass_comma a b (lower_test_of_range a ha) (lower_test_of_range b hb))
    (re13_pass_spaced a b)]
  apply cleanPDFText_fixed_of _ hyi (re13_pass_spaced a b)
  · intro c hc
    rcases hmem c hc with h | h | h | h
    · subst h; exact ⟨letter_ne c '/' hla (by decide), letter_ne c '(' hla (by decide)⟩
    · subst h; decide
    · subst h; decide
    · subst h; exact ⟨letter_ne c '/' hlb (by decide), letter_ne c '(' hlb (by decide)⟩
  · exact replaceAllString_unchanged (fun c : Char => c == '.') re17 (by decide) _ _
      (hno '.' (by decide) (by decide) (by decide))
  · have s1 := letter_not_space a hla
    have s2 := letter_not_space b hlb
    have s3 : unicodeIsSpace ',' = false := by decide
    have n1 : a ≠ ' ' := letter_ne a ' ' hla (by decide)
    have n2 := letter_ne b '.' hlb (by decide)
    have n3 := letter_ne b ',' hlb (by decide)
    have n4 := letter_ne b ';' hlb (by decide)
    have n5 := letter_ne b ':' hlb (by decide)
    simp [isTidy, tidySpacing, s1, s2, s3, n1, n2, n3, n4, n5]

/-- The cases of the two repairs in which one of the letters is an i. -/
theorem cleanPDFText_letter_i_cases :
    (∀ m ∈ List.range 26,
      CleanPDFText (String.mk ['i', 'i', Char.ofNat (65 + m)])
        = String.mk ['i', ' ', Char.ofNat (65 + m)]) ∧
    (∀ m ∈ List.range 26,
      CleanPDFText (String.mk ['i', ',', Char.ofNat (97 + m)])
        = String.mk ['i', ',', ' ', Char.ofNat (97 + m)]) ∧
    (∀ m ∈ List.range 26,
      CleanPDFText (String.mk [Char.ofNat (97 + m), ',', 'i'])
        = String.mk [Char.ofNat (97 + m), ',', ' ', 'i']) := by
  refine ⟨by decide!, by decide!, by decide!⟩

theorem char_of_offset (c : Char) (base : Nat) (h : base ≤ c.toNat) :
    Char.ofNat (base + (c.toNat - base)) = c := by
  rw [show base + (c.toNat - base) = c.toNat by omega, Char.ofNat_toNat]

/-- C19: for every ASCII lower-case letter a and upper-case letter B,
`CleanPDFText` turns a i B into a, a space, B; for all ASCII lower-case letters
a and b it turns a , b into a, a comma, a space, b; and the two examples of the
spec come out as stated. -/
theorem cleanPDFText_repairs_examples :
    (∀ a B : Char, a.isLower = true → B.isUpper = true →
      CleanPDFText (String.singleton a ++ "i" ++ String.singleton B)
        = String.singleton a ++ " " ++ String.singleton B) ∧
    (∀ a b : Char, a.isLower = true → b.isLower = true →
      CleanPDFText (String.singleton a ++ "," ++ String.singleton b)
        = String.singleton a ++ ", " ++ String.singleton b) ∧
    CleanPDFText "nationsiAnd freedom" = "nations And freedom" ∧
    CleanPDFText "timid,malleable" = "timid, malleable" := by
  obtain ⟨c1, c2, c3⟩ := cleanPDFText_letter_i_cases
  refine ⟨?_, ?_, by decide!, by decide!⟩
  · intro a B ha hB
    have ra := isLower_range a ha
    have rB := isUpper_range B hB
    show CleanPDFText (String.mk [a, 'i', B]) = String.mk [a, ' ', B]
    by_cases hai : a = 'i'
    · subst hai
      have := c1 (B.toNat - 65) (List.mem_range.mpr (by omega))
      rw [char_of_offset B 65 rB.1] at this
      exact this
    · exact cleanPDFText_fused_general a B ra rB hai
  · intro a b ha hb
    have ra := isLower_range a ha
    have rb := isLower_range b hb
    show CleanPDFText (String.mk [a, ',', b]) = String.mk [a, ',', ' ', b]
    by_cases hai : a = 'i'
    · subst hai
      have := c2 (b.toNat - 97) (List.mem_range.mpr (by omega))
      rw [char_of_offset b 97 rb.1] at this
      exact this
    · by_cases hbi : b = 'i'
      · subst hbi
        have := c3 (a.toNat - 97) (List.mem_range.mpr (by omega))
        rw [char_of_offset a 97 ra.1] at this
        exact this
      · exact cleanPDFText_comma_general a b ra rb hai hbi

/-- Witness of C19 on the letters n and A, and m and a. -/
theorem cleanPDFText_repairs_examples_witness :
    'n'.isLower = true ∧ 'A'.isUpper = true ∧
    CleanPDFText (String.singleton 'n' ++ "i" ++ String.singleton 'A')
      = String.singleton 'n' ++ " " ++ String.singleton 'A' :=
  ⟨by decide, by decide, cleanPDFText_repairs_examples.1 'n' 'A' (by decide) (by decide)⟩

/-! ## The payload of a generated summary -/

theorem hexValue_hexDigit : ∀ k, k < 16 → hexValue (hexDigit k) = some k := by decide

theorem readJsonChars_short (e d : Char) (tail cs behind : List Char) (he : e ≠ 'u')
    (hd : jsonUnescape e = some d) (h : readJsonChars tail = some (cs, behind)) :
    readJsonChars ('\\' :: e :: tail) = some (d :: cs, behind) := by
  rw [readJsonChars.eq_def]
  simp only [show ('\\' : Char) ≠ '"' by decide, if_false, if_true, he, hd, h]

theorem readJsonChars_hex (h1 h2 h3 h4 : Char) (x y z t : Nat) (tail cs behind : List Char)
    (e1 : hexValue h1 = some x) (e2 : hexValue h2 = some y) (e3 : hexValue h3 = some z)
    (e4 : hexValue h4 = some t) (h : readJsonChars tail = some (cs, behind)) :
    readJsonChars ('\\' :: 'u' :: h1 :: h2 :: h3 :: h4 :: tail)
      = some (Char.ofNat (((x * 16 + y) * 16 + z) * 16 + t) :: cs, behind) := by
  rw [readJsonChars.eq_def]
  simp only [show ('\\' : Char) ≠ '"' by decide, if_false, if_true, e1, e2, e3, e4, h]

theorem readJsonChars_plain (c : Char) (tail cs behind : List Char) (q1 : c ≠ '"')
    (q2 : c ≠ '\\') (q3 : ¬ c.toNat < 32) (h : readJsonChars tail = some (cs, behind)) :
    readJsonChars (c :: tail) = some (c :: cs, behind) := by
  rw [readJsonChars.eq_def]
  simp only [q1, q2, q3, if_false, h]

theorem readJsonChars_escape (c : Char) (tail cs behind : List Char)
    (h : readJsonChars tail = some (cs, behind)) :
    readJsonChars (jsonEscapeChar c ++ tail) = some (c :: cs, behind) := by
  unfold jsonEscapeChar
  split_ifs with h1 h2 h3 h4 h5 h6 h7 h8 h9
  · rcases h1 with rfl | rfl
    · exact readJsonChars_short _ _ tail cs behind (by decide) (by decide) h
    · exact readJsonChars_short _ _ tail cs behind (by decide) (by decide) h
  · subst h2; exact readJsonChars_short _ _ tail cs behind (by decide) (by decide) h
  · subst h3; exact readJsonChars_short _ _ tail cs behind (by decide) (by decide) h
  · subst h4; exact readJsonChars_short _ _ tail cs behind (by decide) (by decide) h
  · subst h5; exact readJsonChars_short _ _ tail cs behind (by decide) (by decide) h
  · subst h6; exact readJsonChars_short _ _ tail cs behind (by decide) (by decide) h
  · have hn : c.toNat < 128 := by
      rcases h7 with h7 | rfl | rfl | rfl
      · omega
      · decide
      · decide
      · decide
    have e1 := hexValue_hexDigit (c.toNat / 16) (by omega)
    have e2 := hexValue_hexDigit (c.toNat % 16) (by omega)
    have e0 : hexValue '0' = some 0 := by decide
    have hc : Char.ofNat (((0 * 16 + 0) * 16 + c.toNat / 16) * 16 + c.toNat % 16) = c := by
      rw [show ((0 * 16 + 0) * 16 + c.toNat / 16) * 16 + c.toNat % 16 = c.toNat by omega,
        Char.ofNat_toNat]
    have := readJsonChars_hex _ _ _ _ _ _ _ _ tail cs behind e0 e0 e1 e2 h
    rw [hc] at this
    exact this
  · subst h8
    exact readJsonChars_hex '2' '0' '2' '8' 2 0 2 8 tail cs behind (by decide) (by decide)
      (by decide) (by decide) h
  · subst h9
    exact readJsonChars_hex '2' '0' '2' '9' 2 0 2 9 tail cs behind (by decide) (by decide)
      (by decide) (by decide) h
  · exact readJsonChars_plain c tail cs behind (fun hq => h1 (Or.inr hq))
      (fun hq => h1 (Or.inl hq)) (fun hq => h7 (Or.inl hq)) h

/-- Reading back a string literal written by `jsonString`. -/
theorem readJsonChars_jsonString (s behind : List Char) :
    readJsonChars (s.flatMap jsonEscapeChar ++ '"' :: behind) = some (s, behind) := by
  induction s with
  | nil =>
    show readJsonChars ('"' :: behind) = some ([], behind)
    rw [readJsonChars.eq_def]
    simp
  | cons c cs ih =>
    rw [List.flatMap_cons, List.append_assoc]
    exact readJsonChars_escape c _ cs behind ih

theorem readJsonMembers_last (fuel : Nat) (k v : List Char) :
    readJsonMembers (fuel + 1)
      ('"' :: (k.flatMap jsonEscapeChar ++ '"' :: ':' :: '"' ::
        (v.flatMap jsonEscapeChar ++ ['"', '\x7d'])))
      = some [(String.mk k, String.mk v)] := by
  rw [readJsonMembers]
  simp only [readJsonChars_jsonString]

theorem readJsonMembers_more (fuel : Nat) (k v behind : List Char)
    (members : List (String × String))
    (h : readJsonMembers fuel ('"' :: behind) = some members) :
    readJsonMembers (fuel + 1)
      ('"' :: (k.flatMap jsonEscapeChar ++ '"' :: ':' :: '"' ::
        (v.flatMap jsonEscapeChar ++ '"' :: ',' :: '"' :: behind)))
      = some ((String.mk k, String.mk v) :: members) := by
  rw [readJsonMembers]
  simp only [readJsonChars_jsonString, h]

theorem marshalOutput_data (summary pages academicLevel : String) :
    (marshalOutput summary pages academicLevel).data
      = '\x7b' :: '"' :: ("academic_level".data.flatMap jsonEscapeChar ++ '"' :: ':' :: '"' ::
          (academicLevel.data.flatMap jsonEscapeChar ++ '"' :: ',' :: '"' ::
        ("pages".data.flatMap jsonEscapeChar ++ '"' :: ':' :: '"' ::
          (pages.data.flatMap jsonEscapeChar ++ '"' :: ',' :: '"' ::
        ("summary".data.flatMap jsonEscapeChar ++ '"' :: ':' :: '"' ::
          (summary.data.flatMap jsonEscapeChar ++ ['"', '\x7d'])))))) := by
  simp only [marshalOutput, jsonString, String.data_append, List.append_assoc]
  rfl

/-- The payload written by `marshalOutput` reads back as a JSON object with the
three members academic_level, pages and summary, and no other. -/
theorem readJsonObject_marshalOutput (summary pages academicLevel : String) :
    readJsonObject (marshalOutput summary pages academicLevel)
      = some [("academic_level", academicLevel), ("pages", pages), ("summary", summary)] := by
  unfold readJsonObject
  rw [marshalOutput_data]
  have hlen : ∀ (a b : List Char) (c : Char), ∃ m, (a ++ c :: b).length = m + 1 :=
    fun a b c => ⟨a.length + b.length, by rw [List.length_append, List.length_cons]; omega⟩
  obtain ⟨m, hm⟩ := hlen ("academic_level".data.flatMap jsonEscapeChar) _ '"'
  simp only [List.length_cons]
  rw [hm]
  have h3 := readJsonMembers_last m "summary".data summary.data
  have h2 := readJsonMembers_more (m + 1) "pages".data pages.data _ _ h3
  have h1 := readJsonMembers_more (m + 2) "academic_level".data academicLevel.data _ _ h2
  exact h1

/-! ## The record of a generated summary -/

theorem getByID_generated (w : World) (id : Int) :
    (DocumentRepository.GetByID w id).2.generated = w.generated := by
  unfold DocumentRepository.GetByID
  cases w.dbFault .getDocument with
  | some e => rfl
  | none =>
    cases w.documents.find? (fun d => decide (d.ID = id) && !d.IsDeleted) <;> rfl

theorem validatePageRange_generated (w : World) (filePath : String) (startPage endPage : Int) :
    (PDFService.ValidatePageRange w filePath startPage endPage).2.generated = w.generated := by
  unfold PDFService.ValidatePageRange Extractor.ValidatePageRange
  by_cases h1 : startPage < 1
  · simp only [h1, if_true]
  · by_cases h2 : endPage < startPage
    · simp only [h1, h2, if_true, if_false]
    · simp only [h1, h2, if_false]
      cases w.pdfOpen filePath with
      | error e => rfl
      | ok r =>
        by_cases h3 : endPage > r.NumPage
        · simp only [h3, if_true]; rfl
        · simp only [h3, if_false]; rfl

theorem pdfExtract_generated (w : World) (documentID : Int) (filePath : String)
    (startPage endPage : Int) :
    (PDFService.ExtractText w documentID filePath startPage endPage).2.generated
      = w.generated := by
  cases hf : w.dbFault .getExtracted with
  | some err => rw [pdfExtract_lookup_error w documentID filePath startPage endPage err hf]
  | none =>
    cases hlook : w.extracted.find? (fun e => e.hasKey documentID startPage endPage) with
    | some row => rw [pdfExtract_hit w documentID filePath startPage endPage row hf hlook]
    | none =>
      cases hx : (Extractor.ExtractText w filePath startPage endPage).1.2 with
      | some err =>
        obtain ⟨_, hworld⟩ := pdfExtract_miss_failure w documentID filePath startPage endPage
          err hf hlook hx
        rw [hworld]
        rcases extractor_world
          { w with clockReads := w.clockReads + 1,
                   trace := w.trace ++ [Event.queryExtracted documentID startPage endPage] }
          filePath startPage endPage with h | h
        · rw [h]
        · rw [h]; rfl
      | none =>
        obtain ⟨duration, created, w2, _, _, _, hgen, hworld⟩ :=
          pdfExtract_miss_success w documentID filePath startPage endPage hf hlook hx
        rw [hworld]
        unfold ContentRepository.CreateExtracted
        cases w2.dbFault .createExtracted <;> exact hgen

theorem summarizeChunks_generated (c : HuggingFaceClient) (level : String) (total : Nat) :
    ∀ (rest : List String) (i : Nat) (acc : List String) (w : World),
      (c.summarizeChunks level total i rest acc w).2.generated = w.generated := by
  intro rest
  induction rest with
  | nil => intro i acc w; rfl
  | cons chunk rest ih =>
    intro i acc w
    cases herr : (c.summarizeChunk w chunk level).1.2 with
    | some err =>
      simp only [HuggingFaceClient.summarizeChunks, herr]
      rfl
    | none =>
      simp only [HuggingFaceClient.summarizeChunks, herr]
      rw [ih]
      by_cases hp : i + 1 < total
      · simp only [hp, if_true]; rfl
      · simp only [hp, if_false]; rfl

theorem clientGenerateSummary_generated (c : HuggingFaceClient) (w : World)
    (text level : String) :
    (c.GenerateSummary w text level).2.generated = w.generated := by
  by_cases h : (len text : Int) ≤ 3000
  · unfold HuggingFaceClient.GenerateSummary
    rw [if_pos h]
    rfl
  · have hlt : 3000 < len text := by
      have : (3000 : Int) < (len text : Int) := by omega
      exact_mod_cast this
    have hg := generateSummary_chunked c w text level hlt _ rfl
    have hs := summarizeChunks_generated c level (chunkText text 3000).length
      (chunkText text 3000) 0 [] w
    generalize c.summarizeChunks level (chunkText text 3000).length 0 (chunkText text 3000) [] w
      = L at hg hs
    rw [hg]
    exact hs

/-! ## The remote requests of a generation -/

theorem getByID_requests (w : World) (id : Int) :
    requestsOf (DocumentRepository.GetByID w id).2.trace = requestsOf w.trace := by
  have h : (DocumentRepository.GetByID w id).2 = w.emit (.queryDocument id) := by
    unfold DocumentRepository.GetByID
    cases w.dbFault .getDocument with
    | some e => rfl
    | none =>
      cases w.documents.find? (fun d => decide (d.ID = id) && !d.IsDeleted) <;> rfl
  rw [h]
  simp [World.emit, requestsOf_append, requestsOf]

theorem validatePageRange_requests (w : World) (filePath : String) (startPage endPage : Int) :
    requestsOf (PDFService.ValidatePageRange w filePath startPage endPage).2.trace
      = requestsOf w.trace := by
  have h : (PDFService.ValidatePageRange w filePath startPage endPage).2 = w ∨
      (PDFService.ValidatePageRange w filePath startPage endPage).2
        = w.emit (.openPdf filePath) := by
    unfold PDFService.ValidatePageRange Extractor.ValidatePageRange
    by_cases h1 : startPage < 1
    · left; simp only [h1, if_true]
    · by_cases h2 : endPage < startPage
      · left; simp only [h1, h2, if_true, if_false]
      · right
        simp only [h1, h2, if_false]
        cases w.pdfOpen filePath with
        | error e => rfl
        | ok r =>
          by_cases h3 : endPage > r.NumPage
          · simp only [h3, if_true]
          · simp only [h3, if_false]
  rcases h with h | h <;> rw [h]
  simp [World.emit, requestsOf_append, requestsOf]

theorem extractor_requests (w : World) (filePath : String) (startPage endPage : Int) :
    requestsOf (Extractor.ExtractText w filePath startPage endPage).2.trace
      = requestsOf w.trace := by
  rcases extractor_world w filePath startPage endPage with h | h <;> rw [h]
  simp [World.emit, requestsOf_append, requestsOf]

theorem pdfExtract_requests (w : World) (documentID : Int) (filePath : String)
    (startPage endPage : Int) :
    requestsOf (PDFService.ExtractText w documentID filePath startPage endPage).2.trace
      = requestsOf w.trace := by
  have hq : requestsOf (w.trace ++ [Event.queryExtracted documentID startPage endPage])
      = requestsOf w.trace := by
    simp [requestsOf_append, requestsOf]
  cases hf : w.dbFault .getExtracted with
  | some err =>
    rw [pdfExtract_lookup_error w documentID filePath startPage endPage err hf]
    exact hq
  | none =>
    cases hlook : w.extracted.find? (fun e => e.hasKey documentID startPage endPage) with
    | some row =>
      rw [pdfExtract_hit w documentID filePath startPage endPage row hf hlook]
      exact hq
    | none =>
      have hx := extractor_requests
        { w with clockReads := w.clockReads + 1,
                 trace := w.trace ++ [Event.queryExtracted documentID startPage endPage] }
        filePath startPage endPage
      simp only [PDFService.ExtractText, ContentRepository.GetExtracted, World.now, World.emit,
        hf, hlook]
      generalize Extractor.ExtractText
        { w with clockReads := w.clockReads + 1,
                 trace := w.trace ++ [Event.queryExtracted documentID startPage endPage] }
        filePath startPage endPage = X at hx ⊢
      rw [hq] at hx
      obtain ⟨⟨text, xerr⟩, x2⟩ := X
      cases xerr with
      | some err => exact hx
      | none =>
        simp only [ContentRepository.CreateExtracted, World.emit]
        cases x2.dbFault .createExtracted with
        | some e =>
          simp only [requestsOf_append, requestsOf, List.append_nil]
          exact hx
        | none =>
          simp only [requestsOf_append, requestsOf, List.append_nil]
          exact hx

/-- The chunk loop when it ends without an error: every chunk was sent, in
order, and gave one summary. -/
theorem summarizeChunks_returned (c : HuggingFaceClient) (level : String) (total : Nat) :
    ∀ (rest : List String) (i : Nat) (acc : List String) (w : World) (sums : List String),
      (c.summarizeChunks level total i rest acc w).1 = .ok sums →
      sums.length = acc.length + rest.length ∧
      requestsOf (c.summarizeChunks level total i rest acc w).2.trace
        = requestsOf w.trace ++ rest.map (chunkRequest c level) := by
  intro rest
  induction rest with
  | nil =>
    intro i acc w sums h
    simp only [HuggingFaceClient.summarizeChunks, Except.ok.injEq] at h
    subst h
    simp [HuggingFaceClient.summarizeChunks]
  | cons chunk rest ih =>
    intro i acc w sums h
    cases herr : (c.summarizeChunk w chunk level).1.2 with
    | some err =>
      simp only [HuggingFaceClient.summarizeChunks, herr] at h
      simp at h
    | none =>
      obtain ⟨_, _, ht⟩ := afterChunk_facts c w chunk level (i + 1 < total)
      have hunfold : c.summarizeChunks level total i (chunk :: rest) acc w
          = c.summarizeChunks level total (i + 1) rest
              (acc ++ [(c.summarizeChunk w chunk level).1.1])
              (if i + 1 < total then (c.summarizeChunk w chunk level).2.emit (.sleep 500)
                else (c.summarizeChunk w chunk level).2) := by
        simp only [HuggingFaceClient.summarizeChunks, herr]
      rw [hunfold] at h ⊢
      obtain ⟨g1, g2⟩ := ih _ _ _ sums h
      refine ⟨?_, ?_⟩
      · rw [g1]; simp; omega
      · rw [g2, ht]; simp

/-- The requests of a call of the client that returns a summary: the text itself
when it has at most 3000 bytes, its chunks otherwise; at least one request is
sent. -/
theorem clientGenerateSummary_requests (c : HuggingFaceClient) (w : World)
    (text level summary : String)
    (h : (c.GenerateSummary w text level).1 = .returned (summary, none)) :
    requestsOf (c.GenerateSummary w text level).2.trace
      = requestsOf w.trace
        ++ (if len text ≤ 3000 then [text] else chunkText text 3000).map (chunkRequest c level) ∧
    (if len text ≤ 3000 then [text] else chunkText text 3000) ≠ [] := by
  by_cases hle : len text ≤ 3000
  · rw [if_pos hle]
    refine ⟨?_, by simp⟩
    have hint : (len text : Int) ≤ 3000 := by exact_mod_cast hle
    have hg : c.GenerateSummary w text level
        = (.returned (c.summarizeChunk w text level).1, (c.summarizeChunk w text level).2) := by
      unfold HuggingFaceClient.GenerateSummary
      rw [if_pos hint]
    rw [hg, summarizeChunk_world]
    simp [requestsOf_append, requestsOf, chunkRequest]
  · rw [if_neg hle]
    have hlt : 3000 < len text := by omega
    have hg := generateSummary_chunked c w text level hlt _ rfl
    have hs := summarizeChunks_returned c level (chunkText text 3000).length
      (chunkText text 3000) 0 [] w
    generalize c.summarizeChunks level (chunkText text 3000).length 0 (chunkText text 3000) [] w
      = L at hg hs
    rw [hg] at h ⊢
    obtain ⟨l1, l2⟩ := L
    cases l1 with
    | error e => simp at h
    | ok sums =>
      obtain ⟨hlen, hreq⟩ := hs sums rfl
      refine ⟨hreq, ?_⟩
      intro hnil
      rw [hnil] at hlen
      have : sums = [] := List.length_eq_zero.mp (by simpa using hlen)
      subst this
      simp at h

/-- The table of generated content and the remote requests after a successful
`StudyService.GenerateSummary`: the document found, the text its extraction
step gave, the call of the client on that text that gave the summary, the
record appended, field by field, and the requests sent. -/
theorem studyGenerateSummary_stored (s : StudyService) (w : World)
    (req : GenerateSummaryRequest) (resp : GenerateSummaryResponse)
    (hok : (s.GenerateSummary w req).1 = .returned (.ok resp)) :
    ∃ (doc : Document) (text : String) (duration createdAt : Int),
      (DocumentRepository.GetByID (w.now).2 req.DocumentID).1 = .ok doc ∧
      doc.SessionID = req.SessionID ∧
      (StudyService.extractionStep w req doc).1 = (text, duration, none) ∧
      (s.aiClient.GenerateSummary (StudyService.extractionStep w req doc).2 text
          req.AcademicLevel).1
        = .returned (resp.Summary, none) ∧
      (s.GenerateSummary w req).2.generated
        = w.generated ++ [
            { ID := resp.ContentID, SessionID := req.SessionID,
              DocumentID := req.DocumentID, ContentType := "summary",
              AcademicLevel := req.AcademicLevel,
              InputPages := toString req.PageStart ++ "-" ++ toString req.PageEnd,
              OutputContent := marshalOutput resp.Summary
                (toString req.PageStart ++ "-" ++ toString req.PageEnd) req.AcademicLevel,
              AIModel := "facebook/bart-large-cnn", GenerationTime := resp.GenerationTime,
              CreatedAt := createdAt }] ∧
      requestsOf (s.GenerateSummary w req).2.trace
        = requestsOf w.trace
          ++ (if len text ≤ 3000 then [text] else chunkText text 3000).map
              (chunkRequest s.aiClient req.AcademicLevel) ∧
      (if len text ≤ 3000 then [text] else chunkText text 3000) ≠ [] ∧
      resp.ModelUsed = "facebook/bart-large-cnn" := by
  generalize hG : s.GenerateSummary w req = out at hok ⊢
  unfold StudyService.GenerateSummary at hG
  dsimp only at hG
  have hD := getByID_generated (w.now).2 req.DocumentID
  have hDr := getByID_requests (w.now).2 req.DocumentID
  unfold StudyService.extractionStep
  generalize hDeq : DocumentRepository.GetByID (w.now).2 req.DocumentID = D at hG hD hDr ⊢
  obtain ⟨d1, d2⟩ := D
  cases d1 with
  | error e =>
    simp only [] at hG
    rw [← hG] at hok
    simp at hok
  | ok doc =>
    simp only [] at hG
    by_cases hsession : doc.SessionID = req.SessionID
    · simp only [hsession, ne_eq, not_true_eq_false, if_false] at hG
      have hV := validatePageRange_generated d2 doc.FilePath req.PageStart req.PageEnd
      have hVr := validatePageRange_requests d2 doc.FilePath req.PageStart req.PageEnd
      generalize hVeq : PDFService.ValidatePageRange d2 doc.FilePath req.PageStart
        req.PageEnd = V at hG hV hVr
      obtain ⟨v1, v2⟩ := V
      cases v1 with
      | some err =>
        simp only [] at hG
        rw [← hG] at hok
        simp at hok
      | none =>
        simp only [] at hG
        have hX := pdfExtract_generated v2 req.DocumentID doc.FilePath req.PageStart req.PageEnd
        have hXr := pdfExtract_requests v2 req.DocumentID doc.FilePath req.PageStart req.PageEnd
        generalize hXeq : PDFService.ExtractText v2 req.DocumentID doc.FilePath req.PageStart
          req.PageEnd = X at hG hX hXr
        obtain ⟨⟨text, duration, xerr⟩, x2⟩ := X
        cases xerr with
        | some err =>
          simp only [] at hG
          rw [← hG] at hok
          simp at hok
        | none =>
          simp only [] at hG
          have hA := clientGenerateSummary_generated s.aiClient x2 text req.AcademicLevel
          have hAr := clientGenerateSummary_requests s.aiClient x2 text req.AcademicLevel
          generalize hAeq : s.aiClient.GenerateSummary x2 text req.AcademicLevel = A
            at hG hA hAr
          obtain ⟨a1, a2⟩ := A
          cases a1 with
          | panicked msg =>
            simp only [] at hG
            rw [← hG] at hok
            simp at hok
          | returned r =>
            obtain ⟨summary, aerr⟩ := r
            cases aerr with
            | some err =>
              simp only [] at hG
              rw [← hG] at hok
              simp at hok
            | none =>
              simp only [ContentRepository.CreateGenerated, World.now, World.emit] at hG
              cases hfault : a2.dbFault .createGenerated with
              | some err =>
                simp only [hfault] at hG
                rw [← hG] at hok
                simp at hok
              | none =>
                simp only [hfault] at hG
                rw [← hG] at hok ⊢
                simp only [Outcome.returned.injEq, Except.ok.injEq] at hok
                subst hok
                have hgen : a2.generated = w.generated := by
                  simp only [World.now] at hD
                  rw [← hD, ← hV, ← hX, ← hA]
                obtain ⟨hsent, hsome⟩ := hAr summary rfl
                have hreq : requestsOf a2.trace
                    = requestsOf w.trace
                      ++ (if len text ≤ 3000 then [text] else chunkText text 3000).map
                          (chunkRequest s.aiClient req.AcademicLevel) := by
                  simp only [World.now] at hDr
                  rw [← hDr, ← hVr, ← hXr]
                  exact hsent
                have hstep : PDFService.ExtractText
                    (PDFService.ValidatePageRange
                      ((Except.ok doc, d2) : Except String Document × World).2 doc.FilePath
                      req.PageStart req.PageEnd).2
                    req.DocumentID doc.FilePath req.PageStart req.PageEnd
                    = ((text, duration, none), x2) := by
                  dsimp only
                  rw [hVeq]
                  dsimp only
                  rw [hXeq]
                refine ⟨doc, text, duration, _, rfl, hsession, ?_, ?_,
                  congrArg (fun l => l ++ [_]) hgen, ?_, hsome, rfl⟩
                · rw [hstep]
                · rw [hstep]
                  dsimp only
                  rw [hAeq]
                · simp only [requestsOf_append, requestsOf, List.append_nil]
                  exact hreq
    · simp only [hsession, ne_eq, not_false_eq_true, if_true] at hG
      rw [← hG] at hok
      simp at hok

/-- C20: on a successful `StudyService.GenerateSummary` with response `resp`,
the summary of the response is the one the client returned for the text that
the extraction step gave for the pages of the request, in the world left by
that step, at the audience level of the request; the document found belongs to
the session of the request.  Exactly one record is added to the table of
generated content; it carries the session and the document of the request, the
content type "summary", the audience level of the request verbatim, the page
range as "start-end" in decimal, the model identifier, and as payload the text
that `json.Marshal` writes for the fields summary (the summary of the
response), pages and academic_level, which reads back as a JSON object with
exactly these three members; the response carries the model identifier and the
identifier of the record. -/
theorem studyGenerateSummary_record (s : StudyService) (w : World)
    (req : GenerateSummaryRequest) (resp : GenerateSummaryResponse)
    (hok : (s.GenerateSummary w req).1 = .returned (.ok resp)) :
    ∃ (record : GeneratedContent) (doc : Document) (text : String) (duration : Int),
      (DocumentRepository.GetByID (w.now).2 req.DocumentID).1 = .ok doc ∧
      doc.SessionID = req.SessionID ∧
      (StudyService.extractionStep w req doc).1 = (text, duration, none) ∧
      (s.aiClient.GenerateSummary (StudyService.extractionStep w req doc).2 text
          req.AcademicLevel).1
        = .returned (resp.Summary, none) ∧
      (s.GenerateSummary w req).2.generated = w.generated ++ [record] ∧
      record.SessionID = req.SessionID ∧
      record.DocumentID = req.DocumentID ∧
      record.ContentType = "summary" ∧
      record.AcademicLevel = req.AcademicLevel ∧
      record.InputPages = toString req.PageStart ++ "-" ++ toString req.PageEnd ∧
      record.AIModel = "facebook/bart-large-cnn" ∧
      record.OutputContent
        = marshalOutput resp.Summary (toString req.PageStart ++ "-" ++ toString req.PageEnd)
            req.AcademicLevel ∧
      readJsonObject record.OutputContent
        = some [("academic_level", req.AcademicLevel),
            ("pages", toString req.PageStart ++ "-" ++ toString req.PageEnd),
            ("summary", resp.Summary)] ∧
      record.GenerationTime = resp.GenerationTime ∧
      resp.ContentID = record.ID ∧
      resp.ModelUsed = "facebook/bart-large-cnn" := by
  obtain ⟨doc, text, duration, createdAt, hdoc, hsession, hstep, hclient, hgen, _, _, hmodel⟩ :=
    studyGenerateSummary_stored s w req resp hok
  exact ⟨_, doc, text, duration, hdoc, hsession, hstep, hclient, hgen, rfl, rfl, rfl, rfl, rfl,
    rfl, rfl, readJsonObject_marshalOutput _ _ _, rfl, rfl, hmodel⟩

/-- Witness of C20: session A asks for a summary of pages 1 to 2 of its document,
for a level the prompt builder does not know. -/
theorem studyGenerateSummary_record_witness :
    ((StudyService.mk sampleClient).GenerateSummary libraryWorld
        ⟨"session-A", 1, 1, 2, "expert"⟩).1
      = .returned (.ok ⟨8, "S0", 40, "facebook/bart-large-cnn"⟩) ∧
    (StudyService.extractionStep libraryWorld ⟨"session-A", 1, 1, 2, "expert"⟩ sampleDocument).1
      = ("--- Page 1 ---\npage 1\n\n--- Page 2 ---\npage 2\n\n", 10, none) ∧
    ∃ (record : GeneratedContent) (doc : Document) (text : String) (duration : Int),
      (DocumentRepository.GetByID (libraryWorld.now).2 1).1 = .ok doc ∧
      doc.SessionID = "session-A" ∧
      (StudyService.extractionStep libraryWorld ⟨"session-A", 1, 1, 2, "expert"⟩ doc).1
        = (text, duration, none) ∧
      (sampleClient.GenerateSummary
          (StudyService.extractionStep libraryWorld ⟨"session-A", 1, 1, 2, "expert"⟩ doc).2 text
          "expert").1
        = .returned ("S0", none) ∧
      ((StudyService.mk sampleClient).GenerateSummary libraryWorld
        ⟨"session-A", 1, 1, 2, "expert"⟩).2.generated = libraryWorld.generated ++ [record] ∧
      record.SessionID = "session-A" ∧
      record.DocumentID = 1 ∧
      record.ContentType = "summary" ∧
      record.AcademicLevel = "expert" ∧
      record.InputPages = "1-2" ∧
      record.AIModel = "facebook/bart-large-cnn" ∧
      record.OutputContent
        = "\x7b\"academic_level\":\"expert\",\"pages\":\"1-2\",\"summary\":\"S0\"\x7d" ∧
      readJsonObject record.OutputContent
        = some [("academic_level", "expert"), ("pages", "1-2"), ("summary", "S0")] ∧
      record.GenerationTime = 40 ∧
      (8 : Int) = record.ID ∧
      "facebook/bart-large-cnn" = "facebook/bart-large-cnn" :=
  ⟨rfl, by decide!, studyGenerateSummary_record (StudyService.mk sampleClient) libraryWorld
    ⟨"session-A", 1, 1, 2, "expert"⟩ ⟨8, "S0", 40, "facebook/bart-large-cnn"⟩ rfl⟩

/-! ## The handler of generation requests -/

/-- A well-formed request reaches the service with the session of the context,
the document and pages of the body, and the audience level of the body, an
empty level replaced by "undergraduate". -/
theorem handleGenerate_calls_service (h : StudyHandler) (w : World) (r : GenerateCall)
    (session : Session) (req : GenerateRequest)
    (hm : r.Method = "POST") (hs : r.session = some session) (hb : r.body = .ok req)
    (hdoc : 0 < req.DocumentID) (hpages : 1 ≤ req.PageStart ∧ req.PageStart ≤ req.PageEnd)
    (htype : req.MaterialType = "summary" ∨ req.MaterialType = "") :
    h.HandleGenerate w r
      = (match (h.studyService.GenerateSummary w
            ⟨session.ID, req.DocumentID, req.PageStart, req.PageEnd,
              if req.AcademicLevel = "" then "undergraduate" else req.AcademicLevel⟩).1 with
          | .panicked msg => .panicked msg
          | .returned (.error err) => .returned (WriteError 500 "GENERATION_ERROR" err)
          | .returned (.ok result) =>
            .returned (WriteJSON 200
              { content_id := result.ContentID, material_type := "summary",
                summary := result.Summary, model_used := result.ModelUsed,
                generation_time := result.GenerationTime }),
         (h.studyService.GenerateSummary w
            ⟨session.ID, req.DocumentID, req.PageStart, req.PageEnd,
              if req.AcademicLevel = "" then "undergraduate" else req.AcademicLevel⟩).2) := by
  have h1 : ¬ req.DocumentID ≤ 0 := by omega
  have h2 : ¬ (req.PageStart < 1 ∨ req.PageEnd < req.PageStart) := by omega
  have h3 : ¬ (req.MaterialType ≠ "summary" ∧ req.MaterialType ≠ "") := by
    rcases htype with ht | ht <;> simp [ht]
  unfold StudyHandler.HandleGenerate
  rw [if_neg (by simp [hm]), hs, hb]
  dsimp only
  rw [if_neg h1, if_neg h2, if_neg h3]
  generalize h.studyService.GenerateSummary w _ = G
  obtain ⟨g1, g2⟩ := G
  cases g1 with
  | panicked msg => rfl
  | returned res =>
    cases res with
    | error err => rfl
    | ok result => rfl

theorem prompt_default (t level : String) (h1 : level ≠ "high_school")
    (h2 : level ≠ "undergraduate") (h3 : level ≠ "graduate") :
    buildEducationalPrompt t level = buildEducationalPrompt t "" := by
  simp [buildEducationalPrompt, h1, h2, h3]

theorem prompt_undergraduate_ne_default (t : String) :
    buildEducationalPrompt t "undergraduate" ≠ buildEducationalPrompt t "" := by
  intro heq
  simp only [buildEducationalPrompt] at heq
  have hd := congrArg String.data heq
  simp only [String.data_append] at hd
  have := List.append_cancel_right hd
  revert this
  decide

/-- C24 (as stated, refuted): session A asks through the handler for a summary
of pages 1 to 2 of its document with an empty academic_level.  The request is
answered with status 200; the one remote call carries the instruction for
undergraduate students, not the generic one, and the record and its payload
hold the level "undergraduate", not the empty string. -/
theorem handleGenerate_empty_level_defaulted :
    (sampleCall "").body
      = .ok { DocumentID := 1, PageStart := 1, PageEnd := 2, MaterialType := "summary",
              AcademicLevel := "" } ∧
    (sampleHandler.HandleGenerate libraryWorld (sampleCall "")).1
      = .returned (WriteJSON 200 ⟨8, "summary", "S0", "facebook/bart-large-cnn", 40⟩) ∧
    (sampleHandler.HandleGenerate libraryWorld (sampleCall "")).2.generated
      = libraryWorld.generated ++ [
          { ID := 8, SessionID := "session-A", DocumentID := 1, ContentType := "summary",
            AcademicLevel := "undergraduate", InputPages := "1-2",
            OutputContent :=
              "\x7b\"academic_level\":\"undergraduate\",\"pages\":\"1-2\",\"summary\":\"S0\"\x7d",
            AIModel := "facebook/bart-large-cnn", GenerationTime := 40, CreatedAt := 50 }] ∧
    requestsOf (sampleHandler.HandleGenerate libraryWorld (sampleCall "")).2.trace
      = [("https://api.example/facebook/bart-large-cnn",
          summaryRequestFor "--- Page 1 ---\npage 1\n\n--- Page 2 ---\npage 2\n\n"
            "undergraduate")] ∧
    buildEducationalPrompt "--- Page 1 ---\npage 1\n\n--- Page 2 ---\npage 2\n\n" "undergraduate"
      ≠ buildEducationalPrompt "--- Page 1 ---\npage 1\n\n--- Page 2 ---\npage 2\n\n" "" := by
  refine ⟨rfl, rfl, by decide!, by decide!, prompt_undergraduate_ne_default _⟩

/-- C24 (amended): a well-formed generation request with an empty
academic_level is handled as a request for the level "undergraduate", and with
any other academic_level as a request for that level verbatim.  When the
handler answers with status 200, the remote requests it has sent are exactly
the requests for the text that the extraction step gave (the text itself when it
has at most 3000 bytes, its chunks otherwise, at least one), each with the
prompt `buildEducationalPrompt` builds for that level; the summary of the answer
is the one the client returned for that text at that level; exactly one record
has been added, and the record and its payload hold that level.  The prompts for
that level carry the instruction for undergraduate students, not the generic
one, when the academic_level was empty, and the generic instruction when it was
a value other than "high_school", "undergraduate" and "graduate". -/
theorem handleGenerate_level (h : StudyHandler) (w : World) (r : GenerateCall)
    (session : Session) (req : GenerateRequest) (level : String) (data : GenerateData)
    (hm : r.Method = "POST") (hs : r.session = some session) (hb : r.body = .ok req)
    (hdoc : 0 < req.DocumentID) (hpages : 1 ≤ req.PageStart ∧ req.PageStart ≤ req.PageEnd)
    (htype : req.MaterialType = "summary" ∨ req.MaterialType = "")
    (hlevel : level = if req.AcademicLevel = "" then "undergraduate" else req.AcademicLevel)
    (hok : (h.HandleGenerate w r).1 = .returned (WriteJSON 200 data)) :
    (req.AcademicLevel = "" → level = "undergraduate") ∧
    (req.AcademicLevel ≠ "" → level = req.AcademicLevel) ∧
    (∃ (record : GeneratedContent) (doc : Document) (text : String) (duration : Int),
      (DocumentRepository.GetByID (w.now).2 req.DocumentID).1 = .ok doc ∧
      (StudyService.extractionStep w
          ⟨session.ID, req.DocumentID, req.PageStart, req.PageEnd, level⟩ doc).1
        = (text, duration, none) ∧
      (if len text ≤ 3000 then [text] else chunkText text 3000) ≠ [] ∧
      requestsOf (h.HandleGenerate w r).2.trace
        = requestsOf w.trace
          ++ (if len text ≤ 3000 then [text] else chunkText text 3000).map
              (fun part =>
                (h.studyService.aiClient.modelURL,
                  ({ Inputs := buildEducationalPrompt part level,
                     Parameters := [("max_length", .int 350), ("min_length", .int 120),
                       ("do_sample", .bool false)] } : SummaryRequest))) ∧
      (h.studyService.aiClient.GenerateSummary
          (StudyService.extractionStep w
            ⟨session.ID, req.DocumentID, req.PageStart, req.PageEnd, level⟩ doc).2 text level).1
        = .returned (data.summary, none) ∧
      (h.HandleGenerate w r).2.generated = w.generated ++ [record] ∧
      record.ID = data.content_id ∧
      record.SessionID = session.ID ∧
      record.DocumentID = req.DocumentID ∧
      record.AcademicLevel = level ∧
      readJsonObject record.OutputContent
        = some [("academic_level", level),
            ("pages", toString req.PageStart ++ "-" ++ toString req.PageEnd),
            ("summary", data.summary)]) ∧
    (req.AcademicLevel = "" → ∀ t : String,
      buildEducationalPrompt t level = buildEducationalPrompt t "undergraduate" ∧
      buildEducationalPrompt t level ≠ buildEducationalPrompt t "") ∧
    (req.AcademicLevel ≠ "high_school" → req.AcademicLevel ≠ "undergraduate" →
      req.AcademicLevel ≠ "graduate" → req.AcademicLevel ≠ "" → ∀ t : String,
      buildEducationalPrompt t level = buildEducationalPrompt t "") := by
  have hcall := handleGenerate_calls_service h w r session req hm hs hb hdoc hpages htype
  rw [← hlevel] at hcall
  rw [hcall] at hok ⊢
  have he : req.AcademicLevel = "" → level = "undergraduate" := by
    intro hempty; rw [hlevel, if_pos hempty]
  have hne : req.AcademicLevel ≠ "" → level = req.AcademicLevel := by
    intro hnon; rw [hlevel, if_neg hnon]
  refine ⟨he, hne, ?_, ?_, ?_⟩
  · cases hG : (h.studyService.GenerateSummary w
        ⟨session.ID, req.DocumentID, req.PageStart, req.PageEnd, level⟩).1 with
    | panicked msg => rw [hG] at hok; simp at hok
    | returned res =>
      cases res with
      | error err =>
        rw [hG] at hok
        simp [WriteJSON, WriteError] at hok
      | ok result =>
        rw [hG] at hok
        simp only [Outcome.returned.injEq, WriteJSON, Prod.mk.injEq, true_and,
          JSONResponse.mk.injEq, Option.some.injEq, and_true] at hok
        obtain ⟨doc, text, duration, createdAt, hfound, _, hstep, hclient, hgen, hreq, hsome, _⟩ :=
          studyGenerateSummary_stored h.studyService w _ result hG
        subst hok
        exact ⟨_, doc, text, duration, hfound, hstep, hsome, hreq, hclient, hgen, rfl, rfl, rfl,
          rfl, readJsonObject_marshalOutput _ _ _⟩
  · intro hempty t
    rw [he hempty]
    exact ⟨rfl, prompt_undergraduate_ne_default t⟩
  · intro h1 h2 h3 h4 t
    rw [hne h4]
    exact prompt_default t _ h1 h2 h3

/-- Witness of the amended C24: the request of session A with the level
"expert", which is recorded verbatim and sent with the generic instruction. -/
theorem handleGenerate_level_witness :
    (sampleCall "expert").Method = "POST" ∧
    (sampleHandler.HandleGenerate libraryWorld (sampleCall "expert")).1
      = .returned (WriteJSON 200 ⟨8, "summary", "S0", "facebook/bart-large-cnn", 40⟩) ∧
    requestsOf (sampleHandler.HandleGenerate libraryWorld (sampleCall "expert")).2.trace
      = [("https://api.example/facebook/bart-large-cnn",
          ⟨buildEducationalPrompt "--- Page 1 ---\npage 1\n\n--- Page 2 ---\npage 2\n\n" "",
            [("max_length", .int 350), ("min_length", .int 120), ("do_sample", .bool false)]⟩)] ∧
    ∃ (record : GeneratedContent) (doc : Document) (text : String) (duration : Int),
      (DocumentRepository.GetByID (libraryWorld.now).2 1).1 = .ok doc ∧
      (StudyService.extractionStep libraryWorld ⟨"session-A", 1, 1, 2, "expert"⟩ doc).1
        = (text, duration, none) ∧
      (if len text ≤ 3000 then [text] else chunkText text 3000) ≠ [] ∧
      requestsOf (sampleHandler.HandleGenerate libraryWorld (sampleCall "expert")).2.trace
        = requestsOf libraryWorld.trace
          ++ (if len text ≤ 3000 then [text] else chunkText text 3000).map
              (fun part =>
                (sampleClient.modelURL,
                  ({ Inputs := buildEducationalPrompt part "expert",
                     Parameters := [("max_length", .int 350), ("min_length", .int 120),
                       ("do_sample", .bool false)] } : SummaryRequest))) ∧
      (sampleClient.GenerateSummary
          (StudyService.extractionStep libraryWorld ⟨"session-A", 1, 1, 2, "expert"⟩ doc).2 text
          "expert").1
        = .returned ("S0", none) ∧
      (sampleHandler.HandleGenerate libraryWorld (sampleCall "expert")).2.generated
        = libraryWorld.generated ++ [record] ∧
      record.ID = 8 ∧
      record.SessionID = "session-A" ∧
      record.DocumentID = 1 ∧
      record.AcademicLevel = "expert" ∧
      readJsonObject record.OutputContent
        = some [("academic_level", "expert"), ("pages", "1-2"), ("summary", "S0")] :=
  ⟨rfl, rfl, by decide!,
    (handleGenerate_level sampleHandler libraryWorld (sampleCall "expert") sampleSession
      ⟨1, 1, 2, "summary", "expert"⟩ "expert" ⟨8, "summary", "S0", "facebook/bart-large-cnn", 40⟩
      rfl rfl rfl (by decide) (by decide) (Or.inl rfl) (by decide) rfl).2.2.1⟩

/-! ## Texts that give one chunk, or none -/

theorem splitLines_fold_newlines (n : Nat) (lines : List String) :
    (List.replicate n '\n').foldl splitLinesStep (lines, "")
      = (lines ++ List.replicate n "", "") := by
  induction n generalizing lines with
  | zero => simp
  | succ k ih =>
    rw [List.replicate_succ, List.foldl_cons]
    have hstep : splitLinesStep (lines, "") '\n' = (lines ++ [""], "") := by
      simp [splitLinesStep]
    rw [hstep, ih, List.append_assoc]
    rfl

theorem splitByParagraphs_fold_blank (n : Nat) :
    (List.replicate n "").foldl splitByParagraphsStep ([], "") = ([], "") := by
  induction n with
  | zero => rfl
  | succ k ih =>
    rw [List.replicate_succ, List.foldl_cons]
    have hstep : splitByParagraphsStep ([], "") "" = ([], "") := by
      simp [splitByParagraphsStep, len_empty]
    rw [hstep, ih]

/-- A text of line feeds only has no paragraph. -/
theorem splitByParagraphs_newlines (n : Nat) :
    splitByParagraphs (String.mk (List.replicate n '\n')) = [] := by
  unfold splitByParagraphs splitLines
  simp only [splitLines_fold_newlines, len_empty, gt_iff_lt, lt_self_iff_false, if_false,
    List.nil_append, splitByParagraphs_fold_blank]

theorem chunkText_newlines (n : Nat) (maxSize : Int) :
    chunkText (String.mk (List.replicate n '\n')) maxSize = [] := by
  unfold chunkText
  rw [splitByParagraphs_newlines]
  simp [chunkTextLoop, len_empty, minChunkSize]

/-- C27 (the code at the failing input): the text of 3001 line feeds has more
than 3000 bytes, so `GenerateSummary` takes the chunked path; `chunkText`
returns no chunk for it, the loop over the chunks makes no call, and the final
access `chunkSummaries[0]` is out of range: the function panics. -/
theorem generateSummary_index_out_of_range (c : HuggingFaceClient) (w : World) (level : String) :
    len blankLines = 3001 ∧
    splitByParagraphs blankLines = [] ∧
    chunkText blankLines 3000 = [] ∧
    c.GenerateSummary w blankLines level
      = (.panicked "runtime error: index out of range [0] with length 0", w) := by
  have hlen : len blankLines = 3001 := len_replicate 3001 '\n' rfl
  have hchunks : chunkText blankLines 3000 = [] := chunkText_newlines 3001 3000
  have hg := generateSummary_chunked c w blankLines level (by rw [hlen]; omega) _ rfl
  rw [hchunks] at hg
  refine ⟨hlen, splitByParagraphs_newlines 3001, hchunks, ?_⟩
  rw [hg]
  rfl

/-- The chunked branch of `GenerateSummary` when there is exactly one chunk. -/
theorem generateSummary_one_chunk (c : HuggingFaceClient) (w : World) (text level chunk : String)
    (h : 3000 < len text) (hone : chunkText text 3000 = [chunk]) :
    c.GenerateSummary w text level
      = (match (c.summarizeChunk w chunk level).1.2 with
          | some err => .returned ("", some ("failed to summarize chunk 1: " ++ err))
          | none => .returned ((c.summarizeChunk w chunk level).1.1, none),
         (c.summarizeChunk w chunk level).2) := by
  have hg := generateSummary_chunked c w text level h _ rfl
  rw [hone] at hg
  rw [hg]
  simp only [List.length_singleton, HuggingFaceClient.summarizeChunks]
  cases hr : (c.summarizeChunk w chunk level).1.2 with
  | some err => rfl
  | none => rfl

/-- C23: for a text of more than 3000 bytes that `chunkText` turns into exactly
one chunk, `GenerateSummary` sends exactly one request, whose input is
`buildEducationalPrompt chunk level`, with no pause before or after, and when
that call succeeds it returns its summary unchanged, without a "Section" label;
when the call fails it returns the failure, named after chunk 1. -/
theorem generateSummary_single_chunk (c : HuggingFaceClient) (w : World)
    (text level chunk : String)
    (h : 3000 < len text) (hone : chunkText text 3000 = [chunk]) :
    (c.GenerateSummary w text level).2.trace
      = w.trace ++ [Event.httpPost c.modelURL c.apiKey
          ⟨buildEducationalPrompt chunk level,
            [("max_length", .int 350), ("min_length", .int 120), ("do_sample", .bool false)]⟩] ∧
    (c.GenerateSummary w text level).2.posts = w.posts + 1 ∧
    (∀ summary : String,
      decodeReply (w.remote w.posts c.modelURL (summaryRequestFor chunk level)) = (summary, none) →
      (c.GenerateSummary w text level).1 = .returned (summary, none)) ∧
    (∀ fst err : String,
      decodeReply (w.remote w.posts c.modelURL (summaryRequestFor chunk level)) = (fst, some err) →
      (c.GenerateSummary w text level).1
        = .returned ("", some ("failed to summarize chunk 1: " ++ err))) := by
  rw [generateSummary_one_chunk c w text level chunk h hone]
  refine ⟨rfl, rfl, ?_, ?_⟩
  · intro summary hs
    simp only [summarizeChunk_result, hs]
  · intro fst err hs
    simp only [summarizeChunk_result, hs]

/-- Witness of C23: two paragraphs of 1500 bytes each, 3002 bytes in all, which
the chunker joins into one chunk. -/
theorem generateSummary_single_chunk_witness :
    3000 < len (twoParagraphs 1500 1500) ∧
    chunkText (twoParagraphs 1500 1500) 3000
      = [String.mk (List.replicate 1500 'a') ++ " " ++ String.mk (List.replicate 1500 'b')] ∧
    (sampleClient.GenerateSummary sampleWorld (twoParagraphs 1500 1500) "graduate").1
      = .returned ("S0", none) :=
  ⟨by rw [len_twoParagraphs]; omega,
    chunkText_twoParagraphs_joined 1500 1500 3000 (by omega) (by omega) (by omega) (by omega),
    (generateSummary_single_chunk sampleClient sampleWorld (twoParagraphs 1500 1500) "graduate"
      (String.mk (List.replicate 1500 'a') ++ " " ++ String.mk (List.replicate 1500 'b'))
      (by rw [len_twoParagraphs]; omega)
      (chunkText_twoParagraphs_joined 1500 1500 3000 (by omega) (by omega) (by omega)
        (by omega))).2.2.1 "S0" rfl⟩

/-! ## Texts in the format of the extractor -/

theorem splitLines_fold_line : ∀ (s : List Char), '\n' ∉ s → ∀ (lines : List String)
    (cur : String), s.foldl splitLinesStep (lines, cur) = (lines, cur ++ String.mk s) := by
  intro s
  induction s with
  | nil =>
    intro _ lines cur
    show (lines, cur) = (lines, cur ++ "")
    simp
  | cons c cs ih =>
    intro hs lines cur
    have hc : c ≠ '\n' := fun h => hs (h ▸ List.mem_cons_self c cs)
    have hcs : '\n' ∉ cs := fun h => hs (List.mem_cons_of_mem c h)
    rw [List.foldl_cons]
    have hstep : splitLinesStep (lines, cur) c = (lines, cur ++ String.singleton c) := by
      simp [splitLinesStep, hc]
    rw [hstep, ih hcs]
    congr 1
    apply String.ext
    simp [String.singleton]

theorem splitLines_fold_page (m t : String) (hm : '\n' ∉ m.data) (ht : '\n' ∉ t.data)
    (rest : List Char) (lines : List String) :
    (m.data ++ '\n' :: (t.data ++ '\n' :: '\n' :: rest)).foldl splitLinesStep (lines, "")
      = rest.foldl splitLinesStep (lines ++ [m, t, ""], "") := by
  have hnl : ∀ (ls : List String) (cur : String),
      splitLinesStep (ls, cur) '\n' = (ls ++ [cur], "") := by
    intro ls cur; simp [splitLinesStep]
  rw [List.foldl_append, splitLines_fold_line m.data hm, List.foldl_cons, hnl, List.foldl_append,
    splitLines_fold_line t.data ht, List.foldl_cons, hnl, List.foldl_cons, hnl]
  have e1 : "" ++ String.mk m.data = m := by simp
  have e2 : "" ++ String.mk t.data = t := by simp
  rw [e1, e2]
  simp

theorem pagesText_data (page : String × String) (rest : List (String × String)) :
    (pagesText (page :: rest)).data
      = page.1.data ++ '\n' :: (page.2.data ++ '\n' :: '\n' :: (pagesText rest).data) := by
  simp [pagesText, String.data_append]

theorem splitLines_fold_pages : ∀ (pages : List (String × String)),
    (∀ p ∈ pages, '\n' ∉ p.1.data ∧ '\n' ∉ p.2.data) → ∀ (lines : List String),
    (pagesText pages).data.foldl splitLinesStep (lines, "")
      = (lines ++ pages.flatMap (fun p => [p.1, p.2, ""]), "") := by
  intro pages
  induction pages with
  | nil => intro _ lines; simp [pagesText]
  | cons page rest ih =>
    intro h lines
    have hp := h page (List.mem_cons_self page rest)
    rw [pagesText_data, splitLines_fold_page page.1 page.2 hp.1 hp.2,
      ih (fun p hmem => h p (List.mem_cons_of_mem page hmem))]
    simp

/-- The lines of a text in the format of the extractor: for every page the
marker line, the text of the page, and an empty line. -/
theorem splitLines_pagesText (pages : List (String × String))
    (h : ∀ p ∈ pages, '\n' ∉ p.1.data ∧ '\n' ∉ p.2.data) :
    splitLines (pagesText pages) = pages.flatMap (fun p => [p.1, p.2, ""]) := by
  unfold splitLines
  simp only [splitLines_fold_pages pages h, len_empty, gt_iff_lt, lt_self_iff_false, if_false,
    List.nil_append]

theorem len_pos_of_ne_empty (s : String) (h : s ≠ "") : 0 < len s := by
  have := (len_eq_zero_iff s).not.mpr h
  omega

theorem splitByParagraphs_fold_pages : ∀ (pages : List (String × String)),
    (∀ p ∈ pages, p.1 ≠ "" ∧ p.1 ≠ "---" ∧ p.2 ≠ "" ∧ p.2 ≠ "---") →
    ∀ (paras : List String),
    (pages.flatMap (fun p => [p.1, p.2, ""])).foldl splitByParagraphsStep (paras, "")
      = (paras ++ pages.map (fun p => p.1 ++ " " ++ p.2), "") := by
  intro pages
  induction pages with
  | nil => intro _ paras; simp
  | cons page rest ih =>
    intro h paras
    obtain ⟨h1, h2, h3, h4⟩ := h page (List.mem_cons_self page rest)
    have hpos := len_pos_of_ne_empty page.1 h1
    have s1 : splitByParagraphsStep (paras, "") page.1 = (paras, page.1) := by
      simp [splitByParagraphsStep, h1, h2, len_empty]
    have s2 : splitByParagraphsStep (paras, page.1) page.2
        = (paras, page.1 ++ " " ++ page.2) := by
      simp [splitByParagraphsStep, h3, h4, hpos]
    have s3 : splitByParagraphsStep (paras, page.1 ++ " " ++ page.2) ""
        = (paras ++ [page.1 ++ " " ++ page.2], "") := by
      have : 0 < len (page.1 ++ " " ++ page.2) := by
        rw [len_append, len_append]; omega
      simp [splitByParagraphsStep, this]
    rw [List.flatMap_cons, List.foldl_append]
    simp only [List.foldl_cons, List.foldl_nil, s1, s2, s3]
    rw [ih (fun p hmem => h p (List.mem_cons_of_mem page hmem))]
    simp

/-- The paragraphs of a text in the format of the extractor: one for every page
with a text, made of the marker line, a space, and the text of the page. -/
theorem splitByParagraphs_pagesText (pages : List (String × String))
    (hlines : ∀ p ∈ pages, '\n' ∉ p.1.data ∧ '\n' ∉ p.2.data)
    (h : ∀ p ∈ pages, p.1 ≠ "" ∧ p.1 ≠ "---" ∧ p.2 ≠ "" ∧ p.2 ≠ "---") :
    splitByParagraphs (pagesText pages) = pages.map (fun p => p.1 ++ " " ++ p.2) := by
  unfold splitByParagraphs
  simp only [splitLines_pagesText pages hlines, splitByParagraphs_fold_pages pages h, len_empty,
    gt_iff_lt, lt_self_iff_false, if_false, List.nil_append]

/-- The chunk loop over paragraphs that all reach the minimum chunk size, from a
running chunk that has reached it: the running chunk stays that large, no chunk
is lost, and if no chunk is closed the running chunk holds all the paragraphs
and, provided there was one, has at most `maxSize + 1` bytes. -/
theorem chunkTextLoop_long_paragraphs (maxSize : Int) : ∀ (ps : List String),
    (∀ p ∈ ps, minChunkSize ≤ len p) → ∀ (chunks : List String) (cur : String),
    minChunkSize ≤ len cur →
    minChunkSize ≤ len (chunkTextLoop maxSize (chunks, cur) ps).2 ∧
    chunks.length ≤ (chunkTextLoop maxSize (chunks, cur) ps).1.length ∧
    ((chunkTextLoop maxSize (chunks, cur) ps).1.length = chunks.length →
      len (chunkTextLoop maxSize (chunks, cur) ps).2
          = len cur + (ps.map (fun p => len p + 1)).sum ∧
      (ps ≠ [] → ((len (chunkTextLoop maxSize (chunks, cur) ps).2 : Nat) : Int) ≤ maxSize + 1)) := by
  intro ps
  induction ps with
  | nil =>
    intro _ chunks cur hcur
    simp [chunkTextLoop, hcur]
  | cons p rest ih =>
    intro hps chunks cur hcur
    have hp : minChunkSize ≤ len p := hps p (List.mem_cons_self p rest)
    have hrest : ∀ q ∈ rest, minChunkSize ≤ len q :=
      fun q hq => hps q (List.mem_cons_of_mem p hq)
    have h20 : ¬ len p < 20 := by unfold minChunkSize at hp; omega
    have hpos : 0 < len cur := by unfold minChunkSize at hcur; omega
    have hloop : chunkTextLoop maxSize (chunks, cur) (p :: rest)
        = chunkTextLoop maxSize (chunkTextStep maxSize (chunks, cur) p) rest := rfl
    rw [hloop]
    by_cases hclose : ((len cur + len p : Nat) : Int) > maxSize
    · have hstep : chunkTextStep maxSize (chunks, cur) p = (chunks ++ [cur], p) := by
        simp only [chunkTextStep, h20, if_false]
        rw [if_pos ⟨hclose, hcur⟩]
      rw [hstep]
      obtain ⟨i1, i2, _⟩ := ih hrest (chunks ++ [cur]) p hp
      rw [List.length_append, List.length_singleton] at i2
      refine ⟨i1, by omega, ?_⟩
      intro heq
      omega
    · have hstep : chunkTextStep maxSize (chunks, cur) p = (chunks, cur ++ " " ++ p) := by
        simp only [chunkTextStep, h20, if_false]
        rw [if_neg (fun hc => hclose hc.1)]
        simp [hpos]
      have hlen : len (cur ++ " " ++ p) = len cur + 1 + len p := by
        rw [len_append, len_append, len_space]
      rw [hstep]
      obtain ⟨i1, i2, i3⟩ := ih hrest chunks (cur ++ " " ++ p) (by rw [hlen]; omega)
      refine ⟨i1, i2, ?_⟩
      intro heq
      obtain ⟨j1, j2⟩ := i3 heq
      refine ⟨?_, ?_⟩
      · rw [j1, hlen, List.map_cons, List.sum_cons]; omega
      · intro _
        cases rest with
        | nil =>
          have : chunkTextLoop maxSize (chunks, cur ++ " " ++ p) [] = (chunks, cur ++ " " ++ p) :=
            rfl
          rw [this, hlen]
          push_cast at hclose ⊢
          omega
        | cons q more => exact j2 (by simp)

/-- At least two chunks: the paragraphs all reach the minimum chunk size, there
are at least two of them, and together with their separating spaces they have
more than `maxSize + 1` bytes. -/
theorem chunkTextLoop_two_chunks (maxSize : Int) (p : String) (rest : List String)
    (hp : minChunkSize ≤ len p) (hrest : ∀ q ∈ rest, minChunkSize ≤ len q)
    (hne : rest ≠ [])
    (hbig : maxSize + 1 < ((len p + (rest.map (fun q => len q + 1)).sum : Nat) : Int)) :
    1 ≤ (chunkTextLoop maxSize ([], "") (p :: rest)).1.length ∧
    minChunkSize ≤ len (chunkTextLoop maxSize ([], "") (p :: rest)).2 := by
  have h20 : ¬ len p < 20 := by unfold minChunkSize at hp; omega
  have hstep : chunkTextStep maxSize ([], "") p = ([], p) := by
    simp [chunkTextStep, h20, len_empty, minChunkSize]
  have hloop : chunkTextLoop maxSize ([], "") (p :: rest)
      = chunkTextLoop maxSize (chunkTextStep maxSize ([], "") p) rest := rfl
  rw [hloop, hstep]
  obtain ⟨i1, _, i3⟩ := chunkTextLoop_long_paragraphs maxSize rest hrest [] p hp
  refine ⟨?_, i1⟩
  by_contra hzero
  have hlen0 : (chunkTextLoop maxSize ([], p) rest).1.length = ([] : List String).length := by
    simp only [List.length_nil]; omega
  obtain ⟨j1, j2⟩ := i3 hlen0
  have := j2 hne
  rw [j1] at this
  omega

theorem dropWhile_snoc_ne_nil (p : Char → Bool) (c : Char) (hc : p c = false) :
    ∀ (l : List Char), (l ++ [c]).dropWhile p ≠ [] := by
  intro l
  induction l with
  | nil => simp [List.dropWhile, hc]
  | cons d ds ih =>
    cases hd : p d with
    | true =>
      rw [List.cons_append, List.dropWhile_cons_of_pos hd]
      exact ih
    | false =>
      rw [List.cons_append, List.dropWhile_cons_of_neg (by simp [hd])]
      simp

/-- A text that begins with a character other than white space is not trimmed
to nothing. -/
theorem stringsTrimSpace_ne_empty (s : String) (c : Char) (rest : List Char)
    (hs : s.data = c :: rest) (hc : unicodeIsSpace c = false) : stringsTrimSpace s ≠ "" := by
  intro h
  have hd := congrArg String.data h
  unfold stringsTrimSpace at hd
  rw [hs, List.dropWhile_cons_of_neg (by simp [hc]), List.reverse_cons] at hd
  have hnil : (rest.reverse ++ [c]).dropWhile unicodeIsSpace = [] := by
    have : ((rest.reverse ++ [c]).dropWhile unicodeIsSpace).reverse = [] := hd
    simpa using this
  exact dropWhile_snoc_ne_nil unicodeIsSpace c hc rest.reverse hnil

/-- The page loop over five pages that all have a text. -/
theorem extractPages_five (r : PdfFile) (x : Int → String)
    (hpages : ∀ n : Int, 1 ≤ n → n ≤ 5 → r.Page n = .content (.ok (x n))) :
    extractPages r 5 1 ""
      = .ok (pagesText [("--- Page 1 ---", CleanPDFText (x 1)),
          ("--- Page 2 ---", CleanPDFText (x 2)), ("--- Page 3 ---", CleanPDFText (x 3)),
          ("--- Page 4 ---", CleanPDFText (x 4)), ("--- Page 5 ---", CleanPDFText (x 5))]) := by
  have p1 := hpages 1 (by omega) (by omega)
  have p2 := hpages 2 (by omega) (by omega)
  have p3 := hpages 3 (by omega) (by omega)
  have p4 := hpages 4 (by omega) (by omega)
  have p5 := hpages 5 (by omega) (by omega)
  have e2 : (1 : Int) + 1 = 2 := rfl
  have e3 : (2 : Int) + 1 = 3 := rfl
  have e4 : (3 : Int) + 1 = 4 := rfl
  have e5 : (4 : Int) + 1 = 5 := rfl
  have m1 : "--- Page " ++ toString (1 : Int) ++ " ---\n" = "--- Page 1 ---" ++ "\n" := by decide
  have m2 : "--- Page " ++ toString (2 : Int) ++ " ---\n" = "--- Page 2 ---" ++ "\n" := by decide
  have m3 : "--- Page " ++ toString (3 : Int) ++ " ---\n" = "--- Page 3 ---" ++ "\n" := by decide
  have m4 : "--- Page " ++ toString (4 : Int) ++ " ---\n" = "--- Page 4 ---" ++ "\n" := by decide
  have m5 : "--- Page " ++ toString (5 : Int) ++ " ---\n" = "--- Page 5 ---" ++ "\n" := by decide
  simp only [extractPages, p1, p2, p3, p4, p5, e2, e3, e4, e5, m1, m2, m3, m4, m5, pagesText]
  simp only [String.append_assoc, String.empty_append, String.append_empty]

theorem cleanPDFText_no_newline (x : String) : '\n' ∉ (CleanPDFText x).data := by
  unfold CleanPDFText
  dsimp only
  generalize replaceAllString re17 _ "" = y
  obtain ⟨⟨hall, _⟩, _, _⟩ := lastStage_spacing y
  intro hmem
  exact absurd (hall '\n' hmem (by decide)) (by decide)

theorem length_le_len (s : String) : s.length ≤ len s := by
  have key : ∀ l : List Char, l.length ≤ String.utf8ByteSize.go l := by
    intro l
    induction l with
    | nil => simp [String.utf8ByteSize.go]
    | cons c cs ih =>
      have := Char.utf8Size_pos c
      simp only [String.utf8ByteSize.go, List.length_cons]
      omega
  exact key s.data

theorem ne_of_len_ge (t : String) (h : 200 ≤ len t) : t ≠ "" ∧ t ≠ "---" := by
  constructor
  · intro he; rw [he] at h; simp [len_empty] at h
  · intro he; rw [he] at h; revert h; decide

theorem tidySpacing_replicate (n : Nat) (c : Char) (hs : unicodeIsSpace c = false)
    (hc : c ≠ ' ') : tidySpacing (List.replicate n c) = true := by
  induction n with
  | zero => rfl
  | succ k ih =>
    cases k with
    | zero => simp [tidySpacing, hs]
    | succ j =>
      rw [List.replicate_succ, List.replicate_succ] at *
      simp only [tidySpacing, hc, if_false, hs, Bool.not_false, Bool.true_and]
      exact ih

/-- A run of one letter that no repair keys on is left as it is by the cleaner. -/
theorem cleanPDFText_replicate (n : Nat) (c : Char) (ht : isRepairTrigger c = false)
    (hs : unicodeIsSpace c = false) (hc : c ≠ ' ') :
    CleanPDFText (String.mk (List.replicate n c)) = String.mk (List.replicate n c) := by
  apply cleanPDFText_unchanged
  · intro d hd
    rw [List.eq_of_mem_replicate hd]
    exact ht
  · have htidy := tidySpacing_replicate n c hs hc
    unfold isTidy
    rw [htidy, Bool.and_true]
    cases n with
    | zero => rfl
    | succ k => simp [List.replicate_succ, hs]

theorem newline_not_mem_replicate (n : Nat) (c : Char) (hc : c ≠ '\n') :
    '\n' ∉ (String.mk (List.replicate n c)).data := by
  intro h
  exact hc (List.eq_of_mem_replicate h).symm

theorem length_replicate_string (n : Nat) (c : Char) :
    (String.mk (List.replicate n c)).length = n := by
  show (List.replicate n c).length = n
  exact List.length_replicate n c

theorem chunkText_one_long_page (n : Nat) (maxSize : Int) (hn : 200 ≤ n) :
    chunkText (pagesText [("--- Page 1 ---", String.mk (List.replicate n 'a')),
        ("--- Page 2 ---", "b"), ("--- Page 3 ---", "b"), ("--- Page 4 ---", "b"),
        ("--- Page 5 ---", "b")]) maxSize
      = ["--- Page 1 ---" ++ " " ++ String.mk (List.replicate n 'a')] := by
  have hparas : splitByParagraphs (pagesText [("--- Page 1 ---", String.mk (List.replicate n 'a')),
        ("--- Page 2 ---", "b"), ("--- Page 3 ---", "b"), ("--- Page 4 ---", "b"),
        ("--- Page 5 ---", "b")])
      = ["--- Page 1 ---" ++ " " ++ String.mk (List.replicate n 'a'),
          "--- Page 2 --- b", "--- Page 3 --- b", "--- Page 4 --- b", "--- Page 5 --- b"] := by
    rw [splitByParagraphs_pagesText]
    · rfl
    · intro p hp
      simp only [List.mem_cons, List.mem_singleton, List.not_mem_nil, or_false] at hp
      rcases hp with rfl | rfl | rfl | rfl | rfl
      · exact ⟨(by decide : '\n' ∉ "--- Page 1 ---".data),
          newline_not_mem_replicate n 'a' (by decide)⟩
      · exact ⟨(by decide : '\n' ∉ "--- Page 2 ---".data), (by decide : '\n' ∉ "b".data)⟩
      · exact ⟨(by decide : '\n' ∉ "--- Page 3 ---".data), (by decide : '\n' ∉ "b".data)⟩
      · exact ⟨(by decide : '\n' ∉ "--- Page 4 ---".data), (by decide : '\n' ∉ "b".data)⟩
      · exact ⟨(by decide : '\n' ∉ "--- Page 5 ---".data), (by decide : '\n' ∉ "b".data)⟩
    · intro p hp
      simp only [List.mem_cons, List.mem_singleton, List.not_mem_nil, or_false] at hp
      rcases hp with rfl | rfl | rfl | rfl | rfl
      · exact ⟨(by decide : "--- Page 1 ---" ≠ ""), (by decide : "--- Page 1 ---" ≠ "---"),
          replicate_ne_marker n 'a' (by decide) (by omega)⟩
      · exact ⟨(by decide : "--- Page 2 ---" ≠ ""), (by decide : "--- Page 2 ---" ≠ "---"),
          (by decide : "b" ≠ ""), (by decide : "b" ≠ "---")⟩
      · exact ⟨(by decide : "--- Page 3 ---" ≠ ""), (by decide : "--- Page 3 ---" ≠ "---"),
          (by decide : "b" ≠ ""), (by decide : "b" ≠ "---")⟩
      · exact ⟨(by decide : "--- Page 4 ---" ≠ ""), (by decide : "--- Page 4 ---" ≠ "---"),
          (by decide : "b" ≠ ""), (by decide : "b" ≠ "---")⟩
      · exact ⟨(by decide : "--- Page 5 ---" ≠ ""), (by decide : "--- Page 5 ---" ≠ "---"),
          (by decide : "b" ≠ ""), (by decide : "b" ≠ "---")⟩
  have hlen : len ("--- Page 1 ---" ++ " " ++ String.mk (List.replicate n 'a')) = 15 + n := by
    rw [len_append, len_append, len_replicate n 'a' rfl]
    rfl
  have s2 : len "--- Page 2 --- b" = 16 := by decide
  have s3 : len "--- Page 3 --- b" = 16 := by decide
  have s4 : len "--- Page 4 --- b" = 16 := by decide
  have s5 : len "--- Page 5 --- b" = 16 := by decide
  have h20 : ¬ 15 + n < 20 := by omega
  have h200 : 200 ≤ 15 + n := by omega
  unfold chunkText
  rw [hparas]
  generalize "--- Page 1 ---" ++ " " ++ String.mk (List.replicate n 'a') = p1 at hlen ⊢
  simp [chunkTextLoop, chunkTextStep, hlen, s2, s3, s4, s5, h20, h200, len_empty, minChunkSize]

theorem len_pagesText_five (c1 c2 c3 c4 c5 : String) :
    len (pagesText [("--- Page 1 ---", c1), ("--- Page 2 ---", c2), ("--- Page 3 ---", c3),
        ("--- Page 4 ---", c4), ("--- Page 5 ---", c5)])
      = 85 + len c1 + len c2 + len c3 + len c4 + len c5 := by
  have hnl : len "\n" = 1 := by decide
  have hnl2 : len "\n\n" = 2 := by decide
  have k1 : len "--- Page 1 ---" = 14 := by decide
  have k2 : len "--- Page 2 ---" = 14 := by decide
  have k3 : len "--- Page 3 ---" = 14 := by decide
  have k4 : len "--- Page 4 ---" = 14 := by decide
  have k5 : len "--- Page 5 ---" = 14 := by decide
  simp only [pagesText, len_append, len_empty, k1, k2, k3, k4, k5, hnl, hnl2]
  omega

theorem len_lopsidedText : len lopsidedText = 10085 := by
  unfold lopsidedText
  rw [len_pagesText_five, len_replicate 9996 'a' rfl]
  rfl

/-- Five pages of cleaned text, each of at least 200 bytes and together of
10,000 characters, give five paragraphs, more than 3000 bytes of text, and at
least two chunks. -/
theorem fivePages_chunks (c1 c2 c3 c4 c5 : String)
    (n1 : '\n' ∉ c1.data) (n2 : '\n' ∉ c2.data) (n3 : '\n' ∉ c3.data) (n4 : '\n' ∉ c4.data)
    (n5 : '\n' ∉ c5.data)
    (z1 : 200 ≤ len c1) (z2 : 200 ≤ len c2) (z3 : 200 ≤ len c3) (z4 : 200 ≤ len c4)
    (z5 : 200 ≤ len c5)
    (htotal : c1.length + c2.length + c3.length + c4.length + c5.length = 10000) :
    splitByParagraphs (pagesText [("--- Page 1 ---", c1), ("--- Page 2 ---", c2),
        ("--- Page 3 ---", c3), ("--- Page 4 ---", c4), ("--- Page 5 ---", c5)])
      = ["--- Page 1 ---" ++ " " ++ c1, "--- Page 2 ---" ++ " " ++ c2,
          "--- Page 3 ---" ++ " " ++ c3, "--- Page 4 ---" ++ " " ++ c4,
          "--- Page 5 ---" ++ " " ++ c5] ∧
    3000 < len (pagesText [("--- Page 1 ---", c1), ("--- Page 2 ---", c2),
        ("--- Page 3 ---", c3), ("--- Page 4 ---", c4), ("--- Page 5 ---", c5)]) ∧
    2 ≤ (chunkText (pagesText [("--- Page 1 ---", c1), ("--- Page 2 ---", c2),
        ("--- Page 3 ---", c3), ("--- Page 4 ---", c4), ("--- Page 5 ---", c5)]) 3000).length := by
  have l1 := length_le_len c1
  have l2 := length_le_len c2
  have l3 := length_le_len c3
  have l4 := length_le_len c4
  have l5 := length_le_len c5
  have hparas : splitByParagraphs (pagesText [("--- Page 1 ---", c1), ("--- Page 2 ---", c2),
        ("--- Page 3 ---", c3), ("--- Page 4 ---", c4), ("--- Page 5 ---", c5)])
      = ["--- Page 1 ---" ++ " " ++ c1, "--- Page 2 ---" ++ " " ++ c2,
          "--- Page 3 ---" ++ " " ++ c3, "--- Page 4 ---" ++ " " ++ c4,
          "--- Page 5 ---" ++ " " ++ c5] := by
    rw [splitByParagraphs_pagesText]
    · rfl
    · intro p hp
      simp only [List.mem_cons, List.mem_singleton, List.not_mem_nil, or_false] at hp
      rcases hp with rfl | rfl | rfl | rfl | rfl
      · exact ⟨(by decide : '\n' ∉ "--- Page 1 ---".data), n1⟩
      · exact ⟨(by decide : '\n' ∉ "--- Page 2 ---".data), n2⟩
      · exact ⟨(by decide : '\n' ∉ "--- Page 3 ---".data), n3⟩
      · exact ⟨(by decide : '\n' ∉ "--- Page 4 ---".data), n4⟩
      · exact ⟨(by decide : '\n' ∉ "--- Page 5 ---".data), n5⟩
    · intro p hp
      simp only [List.mem_cons, List.mem_singleton, List.not_mem_nil, or_false] at hp
      rcases hp with rfl | rfl | rfl | rfl | rfl
      · exact ⟨(by decide : "--- Page 1 ---" ≠ ""), (by decide : "--- Page 1 ---" ≠ "---"),
          ne_of_len_ge c1 z1⟩
      · exact ⟨(by decide : "--- Page 2 ---" ≠ ""), (by decide : "--- Page 2 ---" ≠ "---"),
          ne_of_len_ge c2 z2⟩
      · exact ⟨(by decide : "--- Page 3 ---" ≠ ""), (by decide : "--- Page 3 ---" ≠ "---"),
          ne_of_len_ge c3 z3⟩
      · exact ⟨(by decide : "--- Page 4 ---" ≠ ""), (by decide : "--- Page 4 ---" ≠ "---"),
          ne_of_len_ge c4 z4⟩
      · exact ⟨(by decide : "--- Page 5 ---" ≠ ""), (by decide : "--- Page 5 ---" ≠ "---"),
          ne_of_len_ge c5 z5⟩
  have hm : ∀ (m t : String), len (m ++ " " ++ t) = len m + 1 + len t := by
    intro m t; rw [len_append, len_append, len_space]
  have k1 : len "--- Page 1 ---" = 14 := by decide
  have k2 : len "--- Page 2 ---" = 14 := by decide
  have k3 : len "--- Page 3 ---" = 14 := by decide
  have k4 : len "--- Page 4 ---" = 14 := by decide
  have k5 : len "--- Page 5 ---" = 14 := by decide
  refine ⟨hparas, ?_, ?_⟩
  · rw [len_pagesText_five]
    omega
  · obtain ⟨g1, g2⟩ := chunkTextLoop_two_chunks 3000 ("--- Page 1 ---" ++ " " ++ c1)
      ["--- Page 2 ---" ++ " " ++ c2, "--- Page 3 ---" ++ " " ++ c3,
        "--- Page 4 ---" ++ " " ++ c4, "--- Page 5 ---" ++ " " ++ c5]
      (by rw [hm]; unfold minChunkSize; omega)
      (by
        intro q hq
        simp only [List.mem_cons, List.mem_singleton, List.not_mem_nil, or_false] at hq
        rcases hq with rfl | rfl | rfl | rfl <;> (rw [hm]; unfold minChunkSize; omega))
      (by simp)
      (by
        simp only [List.map_cons, List.map_nil, List.sum_cons, List.sum_nil, hm, k1, k2, k3, k4,
          k5]
        push_cast
        omega)
    unfold chunkText
    rw [hparas]
    simp only [g2, ge_iff_le, if_true, List.length_append, List.length_singleton]
    omega

/-- The extractor on pages 1 to 5 of a file whose pages all have a text. -/
theorem extractText_five (w : World) (path : String) (file : PdfFile) (x : Int → String)
    (hopen : w.pdfOpen path = .ok file) (hnum : 5 ≤ file.NumPage)
    (hpages : ∀ n : Int, 1 ≤ n → n ≤ 5 → file.Page n = .content (.ok (x n))) :
    (Extractor.ExtractText w path 1 5).1
      = (pagesText [("--- Page 1 ---", CleanPDFText (x 1)),
          ("--- Page 2 ---", CleanPDFText (x 2)), ("--- Page 3 ---", CleanPDFText (x 3)),
          ("--- Page 4 ---", CleanPDFText (x 4)), ("--- Page 5 ---", CleanPDFText (x 5))],
        none) := by
  have hrange : ¬ ((1 : Int) < 1 ∨ (5 : Int) < 1) := by omega
  have hend : ¬ (5 : Int) > file.NumPage := by omega
  have hcount : ((5 : Int) - 1 + 1).toNat = 5 := rfl
  have htrim := stringsTrimSpace_ne_empty
    (pagesText [("--- Page 1 ---", CleanPDFText (x 1)),
      ("--- Page 2 ---", CleanPDFText (x 2)), ("--- Page 3 ---", CleanPDFText (x 3)),
      ("--- Page 4 ---", CleanPDFText (x 4)), ("--- Page 5 ---", CleanPDFText (x 5))])
    '-' _ (by rw [pagesText_data]; rfl) (by decide)
  unfold Extractor.ExtractText
  rw [if_neg hrange, hopen]
  dsimp only
  rw [if_neg hend, hcount, extractPages_five file x hpages]
  dsimp only
  rw [if_neg htrim]

/-- The combined summary of at least two sections. -/
theorem sections_two (s1 s2 : String) (more : List String) :
    combineSections 0 (s1 :: s2 :: more) ""
      = "Section 1: " ++ s1 ++ "\n\n" ++ "Section 2: " ++ s2 ++ "\n\n"
          ++ concatAll (sectionList 3 more) := by
  rw [combineSections_eq]
  have h1 : toString 1 = "1" := by decide
  have h2 : toString 2 = "2" := by decide
  simp only [sectionList, concatAll, h1, h2, String.append_assoc, String.empty_append]
  rfl

/-- The chunked path with at least two chunks and every call succeeding. -/
theorem generateSummary_labelled (c : HuggingFaceClient) (w : World) (text level : String)
    (summaries : List String)
    (h : 3000 < len text)
    (hn : 2 ≤ (chunkText text 3000).length)
    (hlen : summaries.length = (chunkText text 3000).length)
    (hok : ∀ (k : Nat) (chunk s : String), (chunkText text 3000)[k]? = some chunk →
      summaries[k]? = some s →
      decodeReply (w.remote (w.posts + k) c.modelURL (summaryRequestFor chunk level))
        = (s, none)) :
    (c.GenerateSummary w text level).2.posts = w.posts + (chunkText text 3000).length ∧
    requestsOf (c.GenerateSummary w text level).2.trace
      = requestsOf w.trace ++ (chunkText text 3000).map (chunkRequest c level) ∧
    ∃ (s1 s2 : String) (more : List String), summaries = s1 :: s2 :: more ∧
      (c.GenerateSummary w text level).1
        = .returned ("Section 1: " ++ s1 ++ "\n\n" ++ "Section 2: " ++ s2 ++ "\n\n"
            ++ concatAll (sectionList 3 more), none) := by
  obtain ⟨g1, g2, g3⟩ := summarizeChunks_ok c level (chunkText text 3000).length
    (chunkText text 3000) summaries 0 [] w hlen hok
  have hg := generateSummary_chunked c w text level h _ rfl
  generalize c.summarizeChunks level (chunkText text 3000).length 0 (chunkText text 3000) [] w
    = L at hg g1 g2 g3
  rw [hg]
  refine ⟨g2, g3, ?_⟩
  match summaries, hlen with
  | [], hl => simp at hl; omega
  | [_], hl => simp at hl; omega
  | s1 :: s2 :: more, _ =>
    refine ⟨s1, s2, more, rfl, ?_⟩
    simp only [g1, List.nil_append, List.length_cons, gt_iff_lt, Nat.lt_add_left_iff_pos,
      Nat.zero_lt_succ, if_true, sections_two]

/-- C21 (as stated, refuted): a file of five pages holds 10,000 characters of
normalized text, 9996 of them on page 1 and one on each of the pages 2 to 5.
The text extracted from the pages 1 to 5 has 10,085 bytes; its only paragraph
of 20 bytes or more is that of page 1, so `chunkText` gives one chunk, and
`GenerateSummary` makes one call and returns its summary as it is, without any
"Section" label. -/
theorem generateSummary_lopsided_pages_unlabelled :
    (Extractor.ExtractText lopsidedWorld "book.pdf" 1 5).1 = (lopsidedText, none) ∧
    (CleanPDFText (String.mk (List.replicate 9996 'a'))).length
      + 4 * (CleanPDFText "b").length = 10000 ∧
    len lopsidedText = 10085 ∧
    chunkText lopsidedText 3000
      = ["--- Page 1 ---" ++ " " ++ String.mk (List.replicate 9996 'a')] ∧
    (sampleClient.GenerateSummary lopsidedWorld lopsidedText "graduate").1
      = .returned ("S0", none) ∧
    (sampleClient.GenerateSummary lopsidedWorld lopsidedText "graduate").2.posts = 1 := by
  have hclean := cleanPDFText_replicate 9996 'a' (by decide) (by decide) (by decide)
  have hb : CleanPDFText "b" = "b" := by decide
  have hchunks : chunkText lopsidedText 3000
      = ["--- Page 1 ---" ++ " " ++ String.mk (List.replicate 9996 'a')] :=
    chunkText_one_long_page 9996 3000 (by omega)
  have hg := generateSummary_one_chunk sampleClient lopsidedWorld lopsidedText "graduate" _
    (by rw [len_lopsidedText]; omega) hchunks
  refine ⟨?_, ?_, len_lopsidedText, hchunks, ?_, ?_⟩
  · have h := extractText_five lopsidedWorld "book.pdf" lopsidedPdf lopsidedPage rfl (by decide)
      (fun _ _ _ => rfl)
    have e1 : lopsidedPage 1 = String.mk (List.replicate 9996 'a') := rfl
    have e2 : lopsidedPage 2 = "b" := rfl
    have e3 : lopsidedPage 3 = "b" := rfl
    have e4 : lopsidedPage 4 = "b" := rfl
    have e5 : lopsidedPage 5 = "b" := rfl
    rw [h, e1, e2, e3, e4, e5, hclean, hb]
    rfl
  · rw [hclean, hb, length_replicate_string]
    rfl
  · rw [hg]
    rfl
  · rw [hg]
    rfl

/-- C21 (amended): for a file whose pages 1 to 5 each hold at least 200 bytes of
normalized text, 10,000 characters in all, `Extractor.ExtractText` returns a
text of more than 3000 bytes that `chunkText` splits into at least two chunks;
`GenerateSummary` then sends one request per chunk, in chunk order, and when
all calls succeed it returns a combined summary that begins with "Section 1: "
and the first summary, followed by "Section 2: " and the second. -/
theorem generateSummary_five_pages (c : HuggingFaceClient) (w : World) (path level : String)
    (file : PdfFile) (x : Int → String)
    (hopen : w.pdfOpen path = .ok file) (hnum : 5 ≤ file.NumPage)
    (hpages : ∀ n : Int, 1 ≤ n → n ≤ 5 → file.Page n = .content (.ok (x n)))
    (hsize : ∀ n : Int, 1 ≤ n → n ≤ 5 → 200 ≤ len (CleanPDFText (x n)))
    (htotal : (CleanPDFText (x 1)).length + (CleanPDFText (x 2)).length
      + (CleanPDFText (x 3)).length + (CleanPDFText (x 4)).length
      + (CleanPDFText (x 5)).length = 10000) :
    ∃ text : String,
      (Extractor.ExtractText w path 1 5).1 = (text, none) ∧
      text = pagesText [("--- Page 1 ---", CleanPDFText (x 1)),
          ("--- Page 2 ---", CleanPDFText (x 2)), ("--- Page 3 ---", CleanPDFText (x 3)),
          ("--- Page 4 ---", CleanPDFText (x 4)), ("--- Page 5 ---", CleanPDFText (x 5))] ∧
      3000 < len text ∧
      2 ≤ (chunkText text 3000).length ∧
      ∀ (before : World) (summaries : List String),
        summaries.length = (chunkText text 3000).length →
        (∀ (k : Nat) (chunk s : String), (chunkText text 3000)[k]? = some chunk →
          summaries[k]? = some s →
          decodeReply (before.remote (before.posts + k) c.modelURL
            (summaryRequestFor chunk level)) = (s, none)) →
        (c.GenerateSummary before text level).2.posts
          = before.posts + (chunkText text 3000).length ∧
        requestsOf (c.GenerateSummary before text level).2.trace
          = requestsOf before.trace ++ (chunkText text 3000).map (chunkRequest c level) ∧
        ∃ (s1 s2 : String) (more : List String), summaries = s1 :: s2 :: more ∧
          (c.GenerateSummary before text level).1
            = .returned ("Section 1: " ++ s1 ++ "\n\n" ++ "Section 2: " ++ s2 ++ "\n\n"
                ++ concatAll (sectionList 3 more), none) := by
  obtain ⟨_, hlen, hchunks⟩ := fivePages_chunks (CleanPDFText (x 1)) (CleanPDFText (x 2))
    (CleanPDFText (x 3)) (CleanPDFText (x 4)) (CleanPDFText (x 5))
    (cleanPDFText_no_newline _) (cleanPDFText_no_newline _) (cleanPDFText_no_newline _)
    (cleanPDFText_no_newline _) (cleanPDFText_no_newline _)
    (hsize 1 (by omega) (by omega)) (hsize 2 (by omega) (by omega))
    (hsize 3 (by omega) (by omega)) (hsize 4 (by omega) (by omega))
    (hsize 5 (by omega) (by omega)) htotal
  refine ⟨_, extractText_five w path file x hopen hnum hpages, rfl, hlen, hchunks, ?_⟩
  intro before summaries hsums hok
  exact generateSummary_labelled c before _ level summaries hlen hchunks hsums hok

theorem cleanPDFText_evenPages (n : Int) : CleanPDFText (evenPages n) = evenPage :=
  cleanPDFText_replicate 2000 'b' (by decide) (by decide) (by decide)

theorem length_evenPage : evenPage.length = 2000 := length_replicate_string 2000 'b'

theorem len_evenPage : len evenPage = 2000 := len_replicate 2000 'b' rfl

/-- Witness of the amended C21: five pages of 2000 letters each. -/
theorem generateSummary_five_pages_witness :
    evenWorld.pdfOpen "book.pdf" = .ok evenPdf ∧
    5 ≤ evenPdf.NumPage ∧
    (∀ n : Int, 1 ≤ n → n ≤ 5 → 200 ≤ len (CleanPDFText (evenPages n))) ∧
    ∃ text : String,
      (Extractor.ExtractText evenWorld "book.pdf" 1 5).1 = (text, none) ∧
      3000 < len text ∧
      2 ≤ (chunkText text 3000).length := by
  have hsize : ∀ n : Int, 1 ≤ n → n ≤ 5 → 200 ≤ len (CleanPDFText (evenPages n)) := by
    intro n _ _
    rw [cleanPDFText_evenPages, len_evenPage]; omega
  obtain ⟨text, h1, _, h3, h4, _⟩ := generateSummary_five_pages sampleClient evenWorld "book.pdf"
    "graduate" evenPdf evenPages rfl (by decide) (fun _ _ _ => rfl) hsize
    (by simp only [cleanPDFText_evenPages, length_evenPage])
  exact ⟨rfl, by decide, hsize, text, h1, h3, h4⟩

/-- The chunks of the text of the five even pages: one per page, each beginning
with the marker line of the page. -/
theorem chunkText_evenPages :
    (Extractor.ExtractText evenWorld "book.pdf" 1 5).1
      = (pagesText [("--- Page 1 ---", evenPage), ("--- Page 2 ---", evenPage),
          ("--- Page 3 ---", evenPage), ("--- Page 4 ---", evenPage),
          ("--- Page 5 ---", evenPage)], none) ∧
    chunkText (pagesText [("--- Page 1 ---", evenPage), ("--- Page 2 ---", evenPage),
        ("--- Page 3 ---", evenPage), ("--- Page 4 ---", evenPage),
        ("--- Page 5 ---", evenPage)]) 3000
      = ["--- Page 1 ---" ++ " " ++ evenPage, "--- Page 2 ---" ++ " " ++ evenPage,
          "--- Page 3 ---" ++ " " ++ evenPage, "--- Page 4 ---" ++ " " ++ evenPage,
          "--- Page 5 ---" ++ " " ++ evenPage] := by
  have hnl : '\n' ∉ evenPage.data := newline_not_mem_replicate 2000 'b' (by decide)
  have hz : 200 ≤ len evenPage := by rw [len_evenPage]; omega
  obtain ⟨hparas, _, _⟩ := fivePages_chunks evenPage evenPage evenPage evenPage evenPage
    hnl hnl hnl hnl hnl hz hz hz hz hz (by simp only [length_evenPage])
  constructor
  · have h := extractText_five evenWorld "book.pdf" evenPdf evenPages rfl (by decide)
      (fun _ _ _ => rfl)
    simp only [cleanPDFText_evenPages] at h
    exact h
  · have hm : ∀ (m : String), len m = 14 → len (m ++ " " ++ evenPage) = 2015 := by
      intro m h14; rw [len_append, len_append, len_space, len_evenPage, h14]
    have k1 := hm "--- Page 1 ---" (by decide)
    have k2 := hm "--- Page 2 ---" (by decide)
    have k3 := hm "--- Page 3 ---" (by decide)
    have k4 := hm "--- Page 4 ---" (by decide)
    have k5 := hm "--- Page 5 ---" (by decide)
    unfold chunkText
    rw [hparas]
    generalize "--- Page 1 ---" ++ " " ++ evenPage = p1 at k1 ⊢
    generalize "--- Page 2 ---" ++ " " ++ evenPage = p2 at k2 ⊢
    generalize "--- Page 3 ---" ++ " " ++ evenPage = p3 at k3 ⊢
    generalize "--- Page 4 ---" ++ " " ++ evenPage = p4 at k4 ⊢
    generalize "--- Page 5 ---" ++ " " ++ evenPage = p5 at k5 ⊢
    simp [chunkTextLoop, chunkTextStep, k1, k2, k3, k4, k5, len_empty, minChunkSize]

/-- C22 (the code at the failing input): the text extracted from pages 1 to 2 of
the sample document has the marker lines "--- Page 1 ---" and "--- Page 2 ---".
`splitByParagraphs` ends a paragraph only at a line that is empty or equal to
"---", which a marker line is not, so each marker line becomes the beginning of
the paragraph of its page; and for a document with long pages every chunk
begins with the marker line of its page. -/
theorem splitByParagraphs_keeps_page_markers :
    (Extractor.ExtractText libraryWorld "uploads/1.pdf" 1 2).1
      = ("--- Page 1 ---\npage 1\n\n--- Page 2 ---\npage 2\n\n", none) ∧
    splitLines "--- Page 1 ---\npage 1\n\n--- Page 2 ---\npage 2\n\n"
      = ["--- Page 1 ---", "page 1", "", "--- Page 2 ---", "page 2", ""] ∧
    splitByParagraphs "--- Page 1 ---\npage 1\n\n--- Page 2 ---\npage 2\n\n"
      = ["--- Page 1 --- page 1", "--- Page 2 --- page 2"] ∧
    ∃ text : String,
      (Extractor.ExtractText evenWorld "book.pdf" 1 5).1 = (text, none) ∧
      chunkText text 3000
        = ["--- Page 1 ---" ++ " " ++ evenPage, "--- Page 2 ---" ++ " " ++ evenPage,
            "--- Page 3 ---" ++ " " ++ evenPage, "--- Page 4 ---" ++ " " ++ evenPage,
            "--- Page 5 ---" ++ " " ++ evenPage] := by
  refine ⟨by decide!, by decide!, by decide!, _, chunkText_evenPages.1, chunkText_evenPages.2⟩

/-! ## The text cleaner: figure references and ordinary words -/

/-- C25 (the code at the failing input): the pattern for figure references is
`FIGURE\s*\d+\.\d+`, in upper case only.  It removes "FIGURE 2.5" and
"FIGURE2.5", but the mixed-case form "Figure 2.5" of the code's own comment is
not matched and stays in the output. -/
theorem cleanPDFText_mixed_case_figure_stays :
    replaceAllString re17 "see Figure 2.5 here" "" = "see Figure 2.5 here" ∧
    CleanPDFText "see Figure 2.5 here" = "see Figure 2.5 here" ∧
    CleanPDFText "see FIGURE 2.5 here" = "see here" ∧
    CleanPDFText "FIGURE2.5This" = "This" := by
  refine ⟨by decide!, by decide!, by decide!, by decide!⟩

/-- C26 (the code at the failing input): the word "shift" has no artifact, yet
pattern 2 matches "shi" before the consonant f and replaces the letter i by a
space; the same happens to "friendship".  The word "their" is left alone. -/
theorem cleanPDFText_breaks_shift :
    replaceAllString re2 "shift" "$1 $2" = "sh ft" ∧
    CleanPDFText "shift" = "sh ft" ∧
    CleanPDFText "friendship" = "friendsh p" ∧
    CleanPDFText "their" = "their" := by
  refine ⟨by decide!, by decide!, by decide!, by decide!⟩

end StudyForge
